import Mathlib

/-!
# pico-iec: a shallow embedding of `pico-iec.c`

The C program bit-bangs the Commodore serial (IEC) bus.  Its only contact
with the outside world is through `pin_read`, `pin_write` and `sleep_us`.
The embedding threads an explicit `World`:

* `inp k` is the level returned by the `k`-th call of `pin_read` since the
  program started (`true` = the line is high, i.e. released), `pos` counts
  the calls made so far.  Quantifying over `inp` quantifies over every
  behaviour of the other bus participants.
* `trace` logs, oldest first, every pin sample, every pin write and every
  `sleep_us`.
* `m_state` is the global session flag word.

The two loops of the source that have no bound (`while(!pin_read(PIN_ATTN));`
and the accumulation loops of `check_atn`) take a `fuel` argument and
return `none` when it runs out.
-/

namespace PicoIEC

/-! ## Data model -/

inductive PIN where
  | PIN_SRQ
  | PIN_ATTN
  | PIN_CLK
  | PIN_DATA
  deriving DecidableEq, Repr

open PIN

def noFlags : Nat := 0
def eoiFlag : Nat := 1 <<< 0
def atnFlag : Nat := 1 <<< 1
def errorFlag : Nat := 1 <<< 2

inductive ATNCheck where
  | ATN_IDLE
  | ATN_CMD
  | ATN_CMD_LISTEN
  | ATN_CMD_TALK
  | ATN_ERROR
  | ATN_RESET
  deriving DecidableEq, Repr

open ATNCheck

def ATN_CMD_MAX_LENGTH : Nat := 40
def CMD_CHANNEL : Nat := 15

/-- The struct ATNCmd: `str` is the 40-element array seen as a map from
index to byte, `strLen` is a C `int`. -/
structure ATNCmd where
  code : Nat
  str : Nat → Nat
  strLen : Int

def ATN_CODE_LISTEN : Nat := 0x20
def ATN_CODE_TALK : Nat := 0x40
def ATN_CODE_DATA : Nat := 0x60
def ATN_CODE_CLOSE : Nat := 0xE0
def ATN_CODE_OPEN : Nat := 0xF0
def ATN_CODE_UNLISTEN : Nat := 0x3F
def ATN_CODE_UNTALK : Nat := 0x5F

def TIMING_BIT : Nat := 70
def TIMING_NO_EOI : Nat := 20
def TIMING_EOI_WAIT : Nat := 200
def TIMING_EOI_THRESH : Nat := 20
def TIMING_STABLE_WAIT : Nat := 20
def TIMING_ATN_PREDELAY : Nat := 50
def TIMING_ATN_DELAY : Nat := 100
def TIMING_FNF_DELAY : Nat := 100

def TIMING_TIMEOUT : Nat := 65000

/-- The global `m_deviceNumber`: initialised to 8 and never assigned. -/
def m_deviceNumber : Nat := 8

/-- What the program does to the outside, one entry per call. -/
inductive Event where
  | read (pin : PIN) (level : Bool)
  | write (pin : PIN) (data : Bool)
  | sleep (us : Nat)
  deriving DecidableEq, Repr

structure World where
  inp : Nat → Bool
  pos : Nat
  trace : List Event
  m_state : Nat

/-! ## Bus line -/

/-- The function `pin_read`: switch the pin to input and return its level. -/
def pin_read (pin : PIN) (w : World) : Bool × World :=
  (w.inp w.pos,
   { w with pos := w.pos + 1, trace := w.trace ++ [Event.read pin (w.inp w.pos)] })

/-- The function `pin_write`: `data = true` drives the line low (asserts it),
`data = false` switches the pin to input (releases it). -/
def pin_write (pin : PIN) (data : Bool) (w : World) : World :=
  { w with trace := w.trace ++ [Event.write pin data] }

def sleep_us (us : Nat) (w : World) : World :=
  { w with trace := w.trace ++ [Event.sleep us] }

/-! ## Timeout guard -/

/-- The polling loop of `timeout_wait`; the first argument is
`TIMING_TIMEOUT - t`.  The Boolean is `true` when the loop left through
`return false` (the line got to the awaited level) and `false` when the
budget ran out. -/
def timeout_poll (pin : PIN) (whileHigh : Bool) : Nat → World → Bool × World
  | 0, w => (false, w)
  | n + 1, w =>
    let r := pin_read pin w
    let c := if whileHigh then !r.1 else r.1
    if c then (true, r.2)
    else timeout_poll pin whileHigh n (sleep_us 2 r.2)

/-- The loop `while(!pin_read(PIN_ATTN));`. -/
def wait_atn_release : Nat → World → Option World
  | 0, _ => none
  | fuel + 1, w =>
    let r := pin_read PIN_ATTN w
    if r.1 then some r.2 else wait_atn_release fuel r.2

/-- The function `timeout_wait`: `some (false, _)` when the line got to the awaited
level, `some (true, _)` after a timeout, `none` when the final wait for ATN
did not end within `fuel` samples. -/
def timeout_wait (fuel : Nat) (pin : PIN) (whileHigh : Bool) (w : World) :
    Option (Bool × World) :=
  let r := timeout_poll pin whileHigh TIMING_TIMEOUT w
  if r.1 then some (false, r.2)
  else
    let w1 := pin_write PIN_CLK false r.2
    let w2 := pin_write PIN_DATA false w1
    let w3 := { w2 with m_state := errorFlag }
    match wait_atn_release fuel w3 with
    | none => none
    | some w4 => some (true, w4)

/-! ## Byte transfer engine -/

/-- The loop `while(pin_read(PIN_CLK) && (n < 20)) { sleep_us(10); n++; }`.
The first argument bounds the number of evaluations of the condition; the
body runs at most 20 times, so 21 is never exhausted. -/
def eoi_poll : Nat → Nat → World → Nat × World
  | 0, n, w => (n, w)
  | r + 1, n, w =>
    let c := pin_read PIN_CLK w
    if c.1 && decide (n < 20) then eoi_poll r ((n + 1) % 256) (sleep_us 10 c.2)
    else (n, c.2)

/-- One pass of `data >>= 1; ...; data |= (pin_read(PIN_DATA) ? (1 << 7) : 0)`
on a `uint8_t`. -/
def shift_in (data : Nat) (level : Bool) : Nat :=
  ((data >>> 1) ||| (if level then 1 <<< 7 else 0)) % 256

/-- The `for(n = 0; n < 8; n++)` loop of `receive_byte`; the first argument
is `8 - n`.  The inner `none` is the early `return 0` after a timeout. -/
def receive_bits (fuel : Nat) : Nat → Nat → World → Option (Option Nat × World)
  | 0, data, w => some (some data, w)
  | n + 1, data, w =>
    match timeout_wait fuel PIN_CLK false w with
    | none => none
    | some (true, w1) => some (none, w1)
    | some (false, w1) =>
      let d := pin_read PIN_DATA w1
      let data1 := shift_in data d.1
      match timeout_wait fuel PIN_CLK true d.2 with
      | none => none
      | some (true, w2) => some (none, w2)
      | some (false, w2) => receive_bits fuel n data1 w2

/-- The tail of `receive_byte` from the ATN sample on. -/
def receive_tail (fuel : Nat) (w : World) : Option (Nat × World) :=
  let a := pin_read PIN_ATTN w
  let w1 := if a.1 = false then { a.2 with m_state := a.2.m_state ||| atnFlag } else a.2
  match receive_bits fuel 8 0 w1 with
  | none => none
  | some (none, w2) => some (0, w2)
  | some (some data, w2) => some (data, pin_write PIN_DATA true w2)

def receive_byte (fuel : Nat) (w : World) : Option (Nat × World) :=
  let w0 := { w with m_state := noFlags }
  match timeout_wait fuel PIN_CLK false w0 with
  | none => none
  | some (true, w1) => some (0, w1)
  | some (false, w1) =>
    let w2 := pin_write PIN_DATA false w1
    let p := eoi_poll 21 0 w2
    if p.1 ≥ TIMING_EOI_THRESH then
      let w3 := { p.2 with m_state := p.2.m_state ||| eoiFlag }
      let w4 := pin_write PIN_DATA true w3
      let w5 := sleep_us TIMING_BIT w4
      let w6 := pin_write PIN_DATA false w5
      match timeout_wait fuel PIN_CLK true w6 with
      | none => none
      | some (true, w7) => some (0, w7)
      | some (false, w7) => receive_tail fuel w7
    else receive_tail fuel p.2

/-- The `for(uint8_t n = 0; n < 8; n++)` loop of `send_byte`; the first
argument is `8 - n`. -/
def send_bits : Nat → Nat → World → World
  | 0, _, w => w
  | n + 1, data, w =>
    let w1 := pin_write PIN_CLK true w
    let w2 := pin_write PIN_DATA (if data &&& 1 ≠ 0 then false else true) w1
    let w3 := sleep_us TIMING_BIT w2
    let w4 := pin_write PIN_CLK false w3
    let w5 := sleep_us TIMING_BIT w4
    send_bits n (data >>> 1) w5

/-- The part of `send_byte` after the optional EOI handshake. -/
def send_tail (fuel : Nat) (data : Nat) (w : World) : Option (Bool × World) :=
  let w1 := sleep_us TIMING_NO_EOI w
  let w2 := send_bits 8 data w1
  let w3 := pin_write PIN_CLK true w2
  let w4 := pin_write PIN_DATA false w3
  let w5 := sleep_us TIMING_STABLE_WAIT w4
  match timeout_wait fuel PIN_DATA true w5 with
  | none => none
  | some (true, w6) => some (false, w6)
  | some (false, w6) => some (true, w6)

def send_byte (fuel : Nat) (data : Nat) (signal_eoi : Bool) (w : World) :
    Option (Bool × World) :=
  match timeout_wait fuel PIN_DATA true w with
  | none => none
  | some (true, w1) => some (false, w1)
  | some (false, w1) =>
    let w2 := pin_write PIN_CLK false w1
    match timeout_wait fuel PIN_DATA false w2 with
    | none => none
    | some (true, w3) => some (false, w3)
    | some (false, w3) =>
      if signal_eoi then
        let w4 := sleep_us TIMING_EOI_WAIT w3
        match timeout_wait fuel PIN_DATA true w4 with
        | none => none
        | some (true, w5) => some (false, w5)
        | some (false, w5) =>
          match timeout_wait fuel PIN_DATA false w5 with
          | none => none
          | some (true, w6) => some (false, w6)
          | some (false, w6) => send_tail fuel data w6
      else send_tail fuel data w3

def turn_around (fuel : Nat) (w : World) : Option (Bool × World) :=
  match timeout_wait fuel PIN_CLK false w with
  | none => none
  | some (true, w1) => some (false, w1)
  | some (false, w1) =>
    let w2 := pin_write PIN_DATA false w1
    let w3 := sleep_us TIMING_BIT w2
    let w4 := pin_write PIN_CLK true w3
    let w5 := sleep_us TIMING_BIT w4
    some (true, w5)

def undo_turn_around (fuel : Nat) (w : World) : Option (Bool × World) :=
  let w1 := pin_write PIN_DATA true w
  let w2 := sleep_us TIMING_BIT w1
  let w3 := pin_write PIN_CLK false w2
  let w4 := sleep_us TIMING_BIT w3
  match timeout_wait fuel PIN_CLK true w4 with
  | none => none
  | some (true, w5) => some (false, w5)
  | some (false, w5) => some (true, w5)

def send_eoi (fuel : Nat) (data : Nat) (w : World) : Option (Bool × World) :=
  match send_byte fuel data true w with
  | none => none
  | some (true, w1) =>
    match undo_turn_around fuel w1 with
    | none => none
    | some (true, w2) => some (true, w2)
    | some (false, w2) => some (false, w2)
  | some (false, w1) => some (false, w1)

/-! ## Attention command parser -/

/-- The store of `cmd->str[i++] = c`, without the increment. -/
def str_store (i c : Nat) (cmd : ATNCmd) : ATNCmd :=
  { cmd with str := Function.update cmd.str i c }

/-- The `for(;;)` loop of the LISTEN branch; the second argument bounds the
number of passes.  The inner `none` is `return ATN_ERROR`, `some i` is the
`break` with the counter `i`. -/
def listen_loop (fuel : Nat) :
    Nat → Nat → ATNCmd → World → Option (Option Nat × ATNCmd × World)
  | 0, _, _, _ => none
  | steps + 1, i, cmd, w =>
    match receive_byte fuel w with
    | none => none
    | some (c, w1) =>
      if w1.m_state &&& errorFlag ≠ 0 then some (none, cmd, w1)
      else if w1.m_state &&& atnFlag ≠ 0 ∧ ATN_CODE_UNLISTEN = c then some (some i, cmd, w1)
      else if i ≥ ATN_CMD_MAX_LENGTH then some (none, cmd, w1)
      else listen_loop fuel steps ((i + 1) % 256) (str_store i c cmd) w1

/-- The `while(!pin_read(PIN_ATTN))` loop of the TALK branch; the second
argument bounds the number of passes.  The inner `none` is
`return ATN_ERROR`, `some i` is the normal exit with the counter `i`. -/
def talk_loop (fuel : Nat) :
    Nat → Nat → ATNCmd → World → Option (Option Nat × ATNCmd × World)
  | 0, _, _, _ => none
  | steps + 1, i, cmd, w =>
    let a := pin_read PIN_ATTN w
    if a.1 then some (some i, cmd, a.2)
    else
      let k := pin_read PIN_CLK a.2
      if k.1 then
        match receive_byte fuel k.2 with
        | none => none
        | some (c, w1) =>
          if w1.m_state &&& errorFlag ≠ 0 then some (none, cmd, w1)
          else if i ≥ ATN_CMD_MAX_LENGTH then some (none, cmd, w1)
          else talk_loop fuel steps ((i + 1) % 256) (str_store i c cmd) w1
      else talk_loop fuel steps i cmd k.2

/-- The start of `check_atn` once ATN has been sampled asserted:
`pin_write(PIN_DATA, true); pin_write(PIN_CLK, false);
sleep_us(TIMING_ATN_PREDELAY);`. -/
def atn_entry (w : World) : World :=
  sleep_us TIMING_ATN_PREDELAY (pin_write PIN_CLK false (pin_write PIN_DATA true (pin_read PIN_ATTN w).2))

/-- The common exit of `check_atn`:
`sleep_us(TIMING_ATN_DELAY); cmd->strLen = i; return ret;`. -/
def atn_exit (ret : ATNCheck) (i : Nat) (cmd : ATNCmd) (w : World) :
    Option (ATNCheck × ATNCmd × World) :=
  some (ret, { cmd with strLen := (i : Int) }, sleep_us TIMING_ATN_DELAY w)

def check_atn (fuel : Nat) (cmd : ATNCmd) (w : World) :
    Option (ATNCheck × ATNCmd × World) :=
  if (pin_read PIN_ATTN w).1 then
    let w1 := pin_write PIN_DATA false (pin_read PIN_ATTN w).2
    let w2 := pin_write PIN_CLK false w1
    some (ATN_IDLE, { cmd with strLen := 0 }, w2)
  else
    match receive_byte fuel (atn_entry w) with
    | none => none
    | some (c, w1) =>
      if w1.m_state &&& errorFlag ≠ 0 then some (ATN_ERROR, cmd, w1)
      else if c = ATN_CODE_LISTEN ||| m_deviceNumber then
        match receive_byte fuel w1 with
        | none => none
        | some (c1, w2) =>
          if w2.m_state &&& errorFlag ≠ 0 then some (ATN_ERROR, cmd, w2)
          else
            let cmd1 := { cmd with code := c1 }
            if c1 &&& 0xF0 = ATN_CODE_DATA ∧ c1 &&& 0xF ≠ CMD_CHANNEL then
              atn_exit ATN_CMD_LISTEN 0 cmd1 w2
            else if c1 ≠ ATN_CODE_UNLISTEN then
              match listen_loop fuel fuel 0 cmd1 w2 with
              | none => none
              | some (none, cmd2, w3) => some (ATN_ERROR, cmd2, w3)
              | some (some i, cmd2, w3) => atn_exit ATN_CMD i cmd2 w3
            else atn_exit ATN_IDLE 0 cmd1 w2
      else if c = ATN_CODE_TALK ||| m_deviceNumber then
        match receive_byte fuel w1 with
        | none => none
        | some (c1, w2) =>
          if w2.m_state &&& errorFlag ≠ 0 then some (ATN_ERROR, cmd, w2)
          else
            let cmd1 := { cmd with code := c1 }
            match talk_loop fuel fuel 0 cmd1 w2 with
            | none => none
            | some (none, cmd2, w3) => some (ATN_ERROR, cmd2, w3)
            | some (some i, cmd2, w3) =>
              match turn_around fuel w3 with
              | none => none
              | some (false, w4) => some (ATN_ERROR, cmd2, w4)
              | some (true, w4) => atn_exit ATN_CMD_TALK i cmd2 w4
      else
        let w2 := sleep_us TIMING_ATN_DELAY w1
        let w3 := pin_write PIN_DATA false w2
        let w4 := pin_write PIN_CLK false w3
        match wait_atn_release fuel w4 with
        | none => none
        | some w5 => atn_exit ATN_IDLE 0 cmd w5

/-! ## Vocabulary for traces -/

/-- Events of `k` unsuccessful polls of `pin`, each reading `level` and
followed by a sleep of `us` microseconds. -/
def poll_events (pin : PIN) (level : Bool) (us : Nat) : Nat → List Event
  | 0 => []
  | k + 1 => Event.read pin level :: Event.sleep us :: poll_events pin level us k

/-- Events of a `timeout_wait` that ends at its `k+1`-th sample. -/
def wait_events (pin : PIN) (whileHigh : Bool) (k : Nat) : List Event :=
  poll_events pin whileHigh 2 k ++ [Event.read pin (!whileHigh)]

/-- Events of `while(!pin_read(PIN_ATTN));` when ATN reads asserted `k`
times and then released. -/
def atn_events (k : Nat) : List Event :=
  List.replicate k (Event.read PIN_ATTN false) ++ [Event.read PIN_ATTN true]

/-- The world after `n` more samples that added the events `evs`. -/
def advance (n : Nat) (evs : List Event) (w : World) : World :=
  { inp := w.inp, pos := w.pos + n, trace := w.trace ++ evs, m_state := w.m_state }

/-- The events a call added to the trace. -/
def new_events (w w1 : World) : List Event := w1.trace.drop w.trace.length

def is_write : Event → Bool
  | Event.write _ _ => true
  | _ => false

def is_read (pin : PIN) : Event → Bool
  | Event.read p _ => decide (p = pin)
  | _ => false

def sleep_total : List Event → Nat
  | [] => 0
  | Event.sleep us :: es => us + sleep_total es
  | _ :: es => sleep_total es

/-- The world in which `timeout_wait` starts its final wait for ATN: the
budget of samples is spent, CLOCK and DATA are released and the session state
is the error flag. -/
def timed_out (pin : PIN) (whileHigh : Bool) (w : World) : World :=
  { inp := w.inp, pos := w.pos + TIMING_TIMEOUT,
    trace := w.trace ++ (poll_events pin whileHigh 2 TIMING_TIMEOUT ++
      [Event.write PIN_CLK false, Event.write PIN_DATA false]),
    m_state := errorFlag }

/-- A bus on which the watched line stays low for 65000 samples, ATN then
reads asserted once and released afterwards. -/
def stuck_world : World :=
  { inp := fun k => decide (65001 ≤ k), pos := 0, trace := [], m_state := noFlags }

/-- A bus on which every line reads released. -/
def idle_world : World :=
  { inp := fun _ => true, pos := 0, trace := [], m_state := noFlags }

/-- Events of one pass of the bit loop of `receive_byte` without a timeout:
a wait for CLOCK high that ends at its `c.1 + 1`-th sample, one sample of DATA
reading `c.2.1`, a wait for CLOCK low that ends at its `c.2.2 + 1`-th sample. -/
def cycle_events (c : Nat × Bool × Nat) : List Event :=
  wait_events PIN_CLK false c.1 ++ [Event.read PIN_DATA c.2.1] ++ wait_events PIN_CLK true c.2.2

def cycles_events : List (Nat × Bool × Nat) → List Event
  | [] => []
  | c :: cs => cycle_events c ++ cycles_events cs

/-- The DATA levels sampled in a run of bit cycles, first one first. -/
def cycle_levels (cs : List (Nat × Bool × Nat)) : List Bool := cs.map (fun c => c.2.1)

/-- The DATA writes of a trace, oldest first (`true` = assert). -/
def data_writes : List Event → List Bool
  | [] => []
  | Event.write PIN_DATA d :: es => d :: data_writes es
  | _ :: es => data_writes es

/-- Number of pulses in a sequence of DATA writes: an assert followed at once
by a release. -/
def pulses : List Bool → Nat
  | true :: false :: ds => 1 + pulses ds
  | _ :: ds => pulses ds
  | [] => 0

/-- The events between the release of DATA and the ATN sample of a
`receive_byte`: `n` samples of CLOCK reading released, one more sample reading
`level`, and, when `n = 20`, the acknowledgment pulse on DATA and the wait for
CLOCK low that ends at its `k1 + 1`-th sample. -/
def eoi_events (n : Nat) (level : Bool) (k1 : Nat) : List Event :=
  poll_events PIN_CLK true 10 n ++ [Event.read PIN_CLK level] ++
    (if n = 20 then
      [Event.write PIN_DATA true, Event.sleep TIMING_BIT, Event.write PIN_DATA false] ++
        wait_events PIN_CLK true k1
     else [])

/-- A bus as a prompt talker drives it for one byte `c`: CLOCK released at the
first sample, asserted again at the next one (no EOI), the level `atn` on ATN,
and for each bit CLOCK released at once, the bit on DATA, CLOCK asserted at
once. -/
def host_byte (atn : Bool) (c : Nat) : List Bool :=
  [true, false, atn] ++ (List.range 8).flatMap (fun k => [true, c.testBit k, false])

/-- The same with the talker holding CLOCK released for 21 samples first, to
signal EOI. -/
def host_byte_eoi (atn : Bool) (c : Nat) : List Bool :=
  [true] ++ List.replicate 21 true ++ [false, atn] ++
    (List.range 8).flatMap (fun k => [true, c.testBit k, false])

/-- The world at program start on a bus that gives the listed samples and
reads released afterwards. -/
def bus_world (samples : List Bool) : World :=
  { inp := fun k => samples.getD k true, pos := 0, trace := [], m_state := noFlags }

/-- The world after `n` calls of `receive_byte`. -/
def after_bytes (fuel : Nat) : Nat → World → World
  | 0, w => w
  | n + 1, w =>
    match receive_byte fuel w with
    | none => w
    | some (_, w1) => after_bytes fuel n w1

/-- Events of the bit loop of `send_byte` for `n` bits of `data`. -/
def bit_events : Nat → Nat → List Event
  | 0, _ => []
  | n + 1, data =>
    [Event.write PIN_CLK true,
     Event.write PIN_DATA (if data &&& 1 ≠ 0 then false else true),
     Event.sleep TIMING_BIT, Event.write PIN_CLK false, Event.sleep TIMING_BIT] ++
      bit_events n (data >>> 1)

/-- The bus as a listener sees it while this device talks: whether the device
asserts CLOCK, whether it asserts DATA, and the levels the listener has
sampled so far. -/
structure Wire where
  clk : Bool
  data : Bool
  samples : List Bool

/-- The cooperating listener of the round-trip property.  It follows the pin
operations of the talker, never asserts DATA itself, and samples DATA each
time the talker releases a CLOCK it was asserting: the level is released
(`true`) exactly when the talker does not assert DATA.  A `pin_read` leaves
the pin undriven. -/
def wire_step (s : Wire) : Event → Wire
  | Event.write PIN_CLK true => { s with clk := true }
  | Event.write PIN_CLK false =>
    if s.clk then { s with clk := false, samples := s.samples ++ [!s.data] } else s
  | Event.write PIN_DATA d => { s with data := d }
  | Event.read PIN_CLK _ => { s with clk := false }
  | Event.read PIN_DATA _ => { s with data := false }
  | _ => s

/-- The levels the listener samples during the events `evs`; at the start the
talker asserts neither line. -/
def listener_samples (evs : List Event) : List Bool :=
  (evs.foldl wire_step { clk := false, data := false, samples := [] }).samples

/-- The byte the listener assembles, the way `receive_byte` does. -/
def listener_byte (evs : List Event) : Nat :=
  (listener_samples evs).foldl shift_in 0

/-- A bus as a prompt listener drives DATA while this device sends one byte
without EOI: asserted, released, and asserted after the last bit. -/
def listener_bus : List Bool := [false, true, false]

/-- A secondary byte that addresses channel `ch`: the channel is the low
nibble of `0x60|ch` (DATA), `0xE0|ch` (CLOSE) or `0xF0|ch` (OPEN). -/
def addresses_channel (s ch : Nat) : Prop :=
  (s &&& 0xF0 = ATN_CODE_DATA ∨ s &&& 0xF0 = ATN_CODE_CLOSE ∨ s &&& 0xF0 = ATN_CODE_OPEN) ∧
    s &&& 0x0F = ch

instance (s ch : Nat) : Decidable (addresses_channel s ch) := by
  unfold addresses_channel; infer_instance

/-- The bus after the bytes `cs` have arrived one after another from `w` on:
`none` unless every call of `receive_byte` returns the listed byte without the
error flag, and that byte is not an UNLISTEN received with the ATN flag. -/
def listen_run (fuel : Nat) : List Nat → World → Option World
  | [], w => some w
  | c :: cs, w =>
    match receive_byte fuel w with
    | none => none
    | some (c1, w1) =>
      if c1 = c ∧ w1.m_state &&& errorFlag = 0 ∧
          ¬ (w1.m_state &&& atnFlag ≠ 0 ∧ ATN_CODE_UNLISTEN = c1) then
        listen_run fuel cs w1
      else none

/-- The bus after the listed passes of the loop of the TALK branch, each of
which samples ATN asserted: `none` is a pass that samples CLOCK low and
receives nothing, `some c` a pass that samples CLOCK high and receives `c`
without the error flag. -/
def talk_run (fuel : Nat) : List (Option Nat) → World → Option World
  | [], w => some w
  | p :: ps, w =>
    if (pin_read PIN_ATTN w).1 then none
    else
      match p with
      | none =>
        if (pin_read PIN_CLK (pin_read PIN_ATTN w).2).1 then none
        else talk_run fuel ps (pin_read PIN_CLK (pin_read PIN_ATTN w).2).2
      | some c =>
        if (pin_read PIN_CLK (pin_read PIN_ATTN w).2).1 then
          match receive_byte fuel (pin_read PIN_CLK (pin_read PIN_ATTN w).2).2 with
          | none => none
          | some (c1, w1) =>
            if c1 = c ∧ w1.m_state &&& errorFlag = 0 then talk_run fuel ps w1 else none
        else none

/-- The bytes received in a list of passes of the TALK loop. -/
def pass_bytes : List (Option Nat) → List Nat
  | [] => []
  | none :: ps => pass_bytes ps
  | some c :: ps => c :: pass_bytes ps

/-- The command after the bytes `cs` are stored from index `i` on. -/
def store_all : Nat → List Nat → ATNCmd → ATNCmd
  | _, [], cmd => cmd
  | i, c :: cs, cmd => store_all (i + 1) cs (str_store i c cmd)

/-- A command whose array is zeroed. -/
def cmd_zero : ATNCmd := { code := 0, str := fun _ => 0, strLen := 0 }

/-- The attention sequence of the spec: ATN asserted, LISTEN|8, the secondary
byte 0x6F (DATA, channel 15), the bytes 0x41 and 0x42 with ATN released, then
UNLISTEN with ATN asserted. -/
def command_bus : World :=
  bus_world ([false] ++ host_byte false 0x28 ++ host_byte false 0x6F ++ host_byte true 0x41 ++
    host_byte true 0x42 ++ host_byte false 0x3F)

/-- Sample `j` (0 to 26) of `host_byte atn c`, computed without a list. -/
def prompt_sample (atn : Bool) (c j : Nat) : Bool :=
  if j = 0 then true else if j = 1 then false else if j = 2 then atn
  else if (j - 3) % 3 = 0 then true
  else if (j - 3) % 3 = 1 then c.testBit ((j - 3) / 3)
  else false

/-- ATN asserted, LISTEN|8, the secondary byte 0xFF (OPEN, channel 15), then
bytes 0x41 with ATN released, one after another. -/
def listen_overflow_bus : World :=
  { inp := fun k =>
      if k = 0 then false
      else if k < 28 then prompt_sample false 0x28 (k - 1)
      else if k < 55 then prompt_sample false 0xFF (k - 28)
      else prompt_sample true 0x41 ((k - 55) % 27),
    pos := 0, trace := [], m_state := noFlags }

/-- ATN asserted, TALK|8, the secondary byte 0x6F, then again and again ATN
still asserted, CLOCK high and a byte 0x41. -/
def talk_overflow_bus : World :=
  { inp := fun k =>
      if k = 0 then false
      else if k < 28 then prompt_sample false 0x48 (k - 1)
      else if k < 55 then prompt_sample false 0x6F (k - 28)
      else if (k - 55) % 29 = 0 then false
      else if (k - 55) % 29 = 1 then true
      else prompt_sample false 0x41 ((k - 55) % 29 - 2),
    pos := 0, trace := [], m_state := noFlags }

/-- ATN asserted and the address byte LISTEN|9, for another device; ATN reads
asserted twice more and then released. -/
def other_device_bus : World :=
  bus_world ([false] ++ host_byte false 0x29 ++ [false, false, true])

/-- ATN asserted, TALK|8, the secondary byte 0x6F, then ATN released and CLOCK
low once, then released. -/
def talk_bus : World :=
  bus_world ([false] ++ host_byte false 0x48 ++ host_byte false 0x6F ++ [true, false, true])

/-- ATN asserted, TALK|8, the secondary byte 0x6F, then ATN released, CLOCK
low for 65000 samples, and every line released from then on. -/
def talk_timeout_bus : World :=
  { inp := fun k =>
      if k = 0 then false
      else if k < 28 then prompt_sample false 0x48 (k - 1)
      else if k < 55 then prompt_sample false 0x6F (k - 28)
      else decide (k = 55 ∨ 65056 ≤ k),
    pos := 0, trace := [], m_state := noFlags }

/-- ATN asserted, LISTEN|8, then the secondary byte 0x62 (DATA, channel 2). -/
def data_channel_bus : World :=
  bus_world ([false] ++ host_byte false 0x28 ++ host_byte false 0x62)

/-! ## Bus dispatcher -/

/-- The bytes `listen_bus` sends with `send_byte(_, false)` when it is told to
talk on a DATA channel, in order. -/
def canned_bytes : List Nat :=
  [0x01, 0x80, 0x10, 0x08, 0x0a, 0x00, 0x99, 0x22, 0x53, 0x55, 0x43, 0x43, 0x48, 0x49, 0x41,
   0x22, 0x00]

/-- A run of `send_byte(b, false)` calls whose results are dropped. -/
def send_all (fuel : Nat) : List Nat → World → Option World
  | [], w => some w
  | b :: bs, w =>
    match send_byte fuel b false w with
    | none => none
    | some (_, w1) => send_all fuel bs w1

/-- The loop `do { receive_byte(); } while (!(m_state & errorFlag) &&
!(m_state & eoiFlag));` of `listen_bus`; the second argument bounds the number
of passes. -/
def receive_data (fuel : Nat) : Nat → World → Option World
  | 0, _ => none
  | steps + 1, w =>
    match receive_byte fuel w with
    | none => none
    | some (_, w1) =>
      if w1.m_state &&& errorFlag = 0 ∧ w1.m_state &&& eoiFlag = 0 then
        receive_data fuel steps w1
      else some w1

/-- The function `listen_bus`, with the global `m_cmd` passed in and out.  The
`printf` calls write to the diagnostic stream, which the world does not
hold.  The store `m_cmd.str[m_cmd.strLen] = 0` goes to the map `str` at the
index `strLen`, whether or not that index is below 40. -/
def listen_bus (fuel : Nat) (m_cmd : ATNCmd) (w : World) : Option (ATNCmd × World) :=
  match check_atn fuel m_cmd w with
  | none => none
  | some (retATN, cmd, w1) =>
    if retATN = ATN_ERROR then some (cmd, w1)
    else if retATN = ATN_IDLE then some (cmd, w1)
    else
      let cmd1 := { cmd with str := Function.update cmd.str cmd.strLen.toNat 0 }
      if cmd1.code &&& 0xF0 = ATN_CODE_OPEN then some (cmd1, w1)
      else if cmd1.code &&& 0xF0 = ATN_CODE_DATA then
        if retATN = ATN_CMD_TALK then
          match send_all fuel canned_bytes w1 with
          | none => none
          | some w2 =>
            match send_eoi fuel 0x00 w2 with
            | none => none
            | some (_, w3) => some (cmd1, w3)
        else if retATN = ATN_CMD_LISTEN then
          match receive_data fuel fuel w1 with
          | none => none
          | some w2 => some (cmd1, w2)
        else some (cmd1, w1)
      else some (cmd1, w1)

/-! ## More vocabulary -/

/-- The bus after `k` calls of `receive_byte`, each of which returns with
neither the error flag nor the EOI flag; `none` otherwise. -/
def quiet_run (fuel : Nat) : Nat → World → Option World
  | 0, w => some w
  | k + 1, w =>
    match receive_byte fuel w with
    | none => none
    | some (_, w1) =>
      if w1.m_state &&& errorFlag = 0 ∧ w1.m_state &&& eoiFlag = 0 then quiet_run fuel k w1
      else none

/-- The command with its fill length replaced. -/
def set_len (len : Int) (cmd : ATNCmd) : ATNCmd := { cmd with strLen := len }

/-- What a different fill length before the call does to a result of
`check_atn`: on ATN_ERROR the returned fill length is the one given, otherwise
nothing changes. -/
def relen (len : Int) (r : ATNCheck × ATNCmd × World) : ATNCheck × ATNCmd × World :=
  (r.1, (if r.1 = ATN_ERROR then set_len len r.2.1 else r.2.1), r.2.2)

/-- What every result of `check_atn` has in common: the array is the one
before the call plus `bytes` stored from index 0 on, at most 40 of them; the
fill length is the number of these bytes, except on ATN_ERROR, where it is the
one before the call; ATN_CMD_LISTEN comes with a DATA code on a channel other
than 15; ATN_RESET is never returned. -/
def result_shape (cmd : ATNCmd) (r : ATNCheck) (cmd1 : ATNCmd) (bytes : List Nat) : Prop :=
  bytes.length ≤ ATN_CMD_MAX_LENGTH ∧
  cmd1.str = (store_all 0 bytes cmd).str ∧
  (r = ATN_ERROR → cmd1.strLen = cmd.strLen) ∧
  (r ≠ ATN_ERROR → cmd1.strLen = (bytes.length : Int)) ∧
  (r = ATN_CMD_LISTEN → cmd1.code &&& 0xF0 = ATN_CODE_DATA ∧ cmd1.code &&& 0xF ≠ CMD_CHANNEL) ∧
  r ≠ ATN_RESET

/-- ATN asserted, LISTEN|8, then the secondary byte UNLISTEN. -/
def unlisten_bus : World :=
  bus_world ([false] ++ host_byte false 0x28 ++ host_byte false 0x3F)

/-- ATN asserted, LISTEN|8, then CLOCK low for 65000 samples, ATN asserted at
one more sample, and every line released from then on. -/
def secondary_timeout_bus : World :=
  { inp := fun k =>
      if k = 0 then false
      else if k < 28 then prompt_sample false 0x28 (k - 1)
      else decide (65029 ≤ k),
    pos := 0, trace := [], m_state := noFlags }

/-- The result of `check_atn` on the attention sequence of the spec, started
with a zeroed command. -/
def command_result : ATNCheck × ATNCmd × World :=
  (check_atn 3 cmd_zero command_bus).getD (ATN_IDLE, cmd_zero, command_bus)

/-- ATN asserted, LISTEN|8, the secondary byte 0x62 (DATA, channel 2), then the
byte 0x41 and, after an EOI gap, the byte 0x42. -/
def data_listen_bus : World :=
  bus_world ([false] ++ host_byte false 0x28 ++ host_byte false 0x62 ++ host_byte true 0x41 ++
    host_byte_eoi true 0x42)

/-- ATN asserted, LISTEN|8, the secondary byte 0x6F (DATA, channel 15), then 40
bytes 0x41 with ATN released, then UNLISTEN with ATN asserted. -/
def full_command_bus : World :=
  { inp := fun k =>
      if k = 0 then false
      else if k < 28 then prompt_sample false 0x28 (k - 1)
      else if k < 55 then prompt_sample false 0x6F (k - 28)
      else if k < 1135 then prompt_sample true 0x41 ((k - 55) % 27)
      else prompt_sample false 0x3F (k - 1135),
    pos := 0, trace := [], m_state := noFlags }

/-- A command whose array holds 0xFF everywhere, also past index 39. -/
def cmd_ones : ATNCmd := { code := 0, str := fun _ => 0xFF, strLen := 0 }

/-- Events of a `timeout_wait` that times out: the budget of samples of `pin`,
all reading `whileHigh`, the release of CLOCK and DATA, and the samples of ATN
up to the first one that reads released. -/
def timeout_events (pin : PIN) (whileHigh : Bool) (k : Nat) : List Event :=
  poll_events pin whileHigh 2 TIMING_TIMEOUT ++
    [Event.write PIN_CLK false, Event.write PIN_DATA false] ++ atn_events k

/-- The trace of `w1` is that of `w` with more events after it. -/
def trace_extends (w w1 : World) : Prop := ∃ evs : List Event, w1.trace = w.trace ++ evs

/-- The events added from `w` to `w1` end with a `timeout_wait` on `pin` that
timed out. -/
def ends_in_timeout (pin : PIN) (w w1 : World) : Prop :=
  ∃ (pre : List Event) (whileHigh : Bool) (k : Nat),
    w1.trace = w.trace ++ (pre ++ timeout_events pin whileHigh k)

/-- The levels a `timeout_wait` samples when it ends at its `k+1`-th sample:
`k` times the level it waits through, then the other one. -/
def wait_samples (whileHigh : Bool) (k : Nat) : List Bool :=
  List.replicate k whileHigh ++ [!whileHigh]

/-- The levels sampled in one pass of the bit loop of `receive_byte` with
the events `cycle_events c`: CLOCK low `c.1` times and then high, DATA at
`c.2.1`, CLOCK high `c.2.2` times and then low. -/
def cycle_samples (c : Nat × Bool × Nat) : List Bool :=
  wait_samples false c.1 ++ [c.2.1] ++ wait_samples true c.2.2

def cycles_samples : List (Nat × Bool × Nat) → List Bool
  | [] => []
  | c :: cs => cycle_samples c ++ cycles_samples cs

/-- The levels sampled between the release of DATA and the ATN sample of a
`receive_byte` with the events `eoi_events n level k1`. -/
def eoi_samples (n : Nat) (level : Bool) (k1 : Nat) : List Bool :=
  List.replicate n true ++ [level] ++ (if n = 20 then wait_samples true k1 else [])

/-- How a talker times one byte.  CLOCK reads low `k0` times before it reads
released; after DATA is released CLOCK reads released `n` times and then
`level`; if `n = 20` the wait for CLOCK low after the acknowledgment pulse ends
at its `k1 + 1`-th sample; ATN reads `atn`; `cycles` lists for each bit the
number of samples of CLOCK low, the level of DATA and the number of samples of
CLOCK high. -/
structure ByteTiming where
  k0 : Nat
  n : Nat
  level : Bool
  k1 : Nat
  atn : Bool
  cycles : List (Nat × Bool × Nat)

/-- Every wait of the byte ends within the budget of `TIMING_TIMEOUT`
samples; `n` counts at most the 20 polls of the EOI loop and, when it is less
than 20, the poll that ends the loop reads CLOCK asserted; there are eight bit
cycles. -/
def in_budget (t : ByteTiming) : Prop :=
  t.k0 < TIMING_TIMEOUT ∧ t.n ≤ 20 ∧ (t.n < 20 → t.level = false) ∧ t.k1 < TIMING_TIMEOUT ∧
  t.cycles.length = 8 ∧ ∀ c, c ∈ t.cycles → c.1 < TIMING_TIMEOUT ∧ c.2.2 < TIMING_TIMEOUT

instance (t : ByteTiming) : Decidable (in_budget t) := by
  unfold in_budget; infer_instance

/-- The levels the bus gives, sample after sample, for a byte timed by `t`. -/
def byte_samples (t : ByteTiming) : List Bool :=
  wait_samples false t.k0 ++ eoi_samples t.n t.level t.k1 ++ [t.atn] ++ cycles_samples t.cycles

/-- The next samples of the bus `w` are the listed ones. -/
def reads (samples : List Bool) (w : World) : Prop :=
  ∀ j, j < samples.length → samples[j]? = some (w.inp (w.pos + j))

instance (samples : List Bool) (w : World) : Decidable (reads samples w) := by
  unfold reads; infer_instance

/-- The events of a `receive_byte` for a byte timed by `t`. -/
def byte_events (t : ByteTiming) : List Event :=
  wait_events PIN_CLK false t.k0 ++ [Event.write PIN_DATA false] ++
    eoi_events t.n t.level t.k1 ++ [Event.read PIN_ATTN t.atn] ++
    cycles_events t.cycles ++ [Event.write PIN_DATA true]

/-- The byte assembled from the DATA levels of the eight cycles. -/
def byte_value (t : ByteTiming) : Nat := (cycle_levels t.cycles).foldl shift_in 0

/-- The session state after a byte timed by `t`. -/
def byte_flags (t : ByteTiming) : Nat :=
  (if t.n = 20 then noFlags ||| eoiFlag else noFlags) ||| (if t.atn = false then atnFlag else 0)

/-- The world after a `receive_byte` for a byte timed by `t`. -/
def after_byte (t : ByteTiming) (w : World) : World :=
  { inp := w.inp, pos := w.pos + (byte_samples t).length, trace := w.trace ++ byte_events t,
    m_state := byte_flags t }

/-- The timing of `host_byte atn c`: every wait ends at its first sample and
CLOCK is asserted at the first poll of the EOI loop. -/
def prompt_timing (atn : Bool) (c : Nat) : ByteTiming :=
  { k0 := 0, n := 0, level := false, k1 := 0, atn := atn,
    cycles := (List.range 8).map (fun k => (0, c.testBit k, 0)) }

/-- The timing of `host_byte_eoi atn c`: CLOCK stays released for the 20 polls
of the EOI loop and one more, and is asserted at the first sample after the
acknowledgment pulse. -/
def eoi_timing (atn : Bool) (c : Nat) : ByteTiming :=
  { k0 := 0, n := 20, level := true, k1 := 0, atn := atn,
    cycles := (List.range 8).map (fun k => (0, c.testBit k, 0)) }

/-- A talker that takes its time over the byte 0x41: CLOCK is released at the
fourth sample and asserted again at the third poll of the EOI loop, and in bit
cycle `k` CLOCK reads low `k` times before it is released and high twice
before it is asserted. -/
def slow_timing : ByteTiming :=
  { k0 := 3, n := 2, level := false, k1 := 0, atn := true,
    cycles := (List.range 8).map (fun k => (k, (0x41).testBit k, 2)) }

/-! ## The attention parser with a record of its stores -/

/-- The function `listen_loop` with one more component: the pairs (index, byte)
of every `cmd->str[i++] = c` executed so far, oldest first. -/
def listen_loop_log (fuel : Nat) :
    Nat → Nat → ATNCmd → World → List (Nat × Nat) →
      Option (Option Nat × ATNCmd × World × List (Nat × Nat))
  | 0, _, _, _, _ => none
  | steps + 1, i, cmd, w, log =>
    match receive_byte fuel w with
    | none => none
    | some (c, w1) =>
      if w1.m_state &&& errorFlag ≠ 0 then some (none, cmd, w1, log)
      else if w1.m_state &&& atnFlag ≠ 0 ∧ ATN_CODE_UNLISTEN = c then some (some i, cmd, w1, log)
      else if i ≥ ATN_CMD_MAX_LENGTH then some (none, cmd, w1, log)
      else listen_loop_log fuel steps ((i + 1) % 256) (str_store i c cmd) w1 (log ++ [(i, c)])

/-- The function `talk_loop` with the same record of stores. -/
def talk_loop_log (fuel : Nat) :
    Nat → Nat → ATNCmd → World → List (Nat × Nat) →
      Option (Option Nat × ATNCmd × World × List (Nat × Nat))
  | 0, _, _, _, _ => none
  | steps + 1, i, cmd, w, log =>
    let a := pin_read PIN_ATTN w
    if a.1 then some (some i, cmd, a.2, log)
    else
      let k := pin_read PIN_CLK a.2
      if k.1 then
        match receive_byte fuel k.2 with
        | none => none
        | some (c, w1) =>
          if w1.m_state &&& errorFlag ≠ 0 then some (none, cmd, w1, log)
          else if i ≥ ATN_CMD_MAX_LENGTH then some (none, cmd, w1, log)
          else talk_loop_log fuel steps ((i + 1) % 256) (str_store i c cmd) w1 (log ++ [(i, c)])
      else talk_loop_log fuel steps i cmd k.2 log

/-- The common exit of `check_atn`, passing the record of stores on. -/
def atn_exit_log (ret : ATNCheck) (i : Nat) (cmd : ATNCmd) (w : World) (log : List (Nat × Nat)) :
    Option (ATNCheck × ATNCmd × World × List (Nat × Nat)) :=
  some (ret, { cmd with strLen := (i : Int) }, sleep_us TIMING_ATN_DELAY w, log)

/-- The function `check_atn` with one more component in its result: the pairs
(index, byte) of every `cmd->str[i++] = c` executed during the call, oldest
first.  Outside the two loops no store is made. -/
def check_atn_log (fuel : Nat) (cmd : ATNCmd) (w : World) :
    Option (ATNCheck × ATNCmd × World × List (Nat × Nat)) :=
  if (pin_read PIN_ATTN w).1 then
    let w1 := pin_write PIN_DATA false (pin_read PIN_ATTN w).2
    let w2 := pin_write PIN_CLK false w1
    some (ATN_IDLE, { cmd with strLen := 0 }, w2, [])
  else
    match receive_byte fuel (atn_entry w) with
    | none => none
    | some (c, w1) =>
      if w1.m_state &&& errorFlag ≠ 0 then some (ATN_ERROR, cmd, w1, [])
      else if c = ATN_CODE_LISTEN ||| m_deviceNumber then
        match receive_byte fuel w1 with
        | none => none
        | some (c1, w2) =>
          if w2.m_state &&& errorFlag ≠ 0 then some (ATN_ERROR, cmd, w2, [])
          else
            let cmd1 := { cmd with code := c1 }
            if c1 &&& 0xF0 = ATN_CODE_DATA ∧ c1 &&& 0xF ≠ CMD_CHANNEL then
              atn_exit_log ATN_CMD_LISTEN 0 cmd1 w2 []
            else if c1 ≠ ATN_CODE_UNLISTEN then
              match listen_loop_log fuel fuel 0 cmd1 w2 [] with
              | none => none
              | some (none, cmd2, w3, log) => some (ATN_ERROR, cmd2, w3, log)
              | some (some i, cmd2, w3, log) => atn_exit_log ATN_CMD i cmd2 w3 log
            else atn_exit_log ATN_IDLE 0 cmd1 w2 []
      else if c = ATN_CODE_TALK ||| m_deviceNumber then
        match receive_byte fuel w1 with
        | none => none
        | some (c1, w2) =>
          if w2.m_state &&& errorFlag ≠ 0 then some (ATN_ERROR, cmd, w2, [])
          else
            let cmd1 := { cmd with code := c1 }
            match talk_loop_log fuel fuel 0 cmd1 w2 [] with
            | none => none
            | some (none, cmd2, w3, log) => some (ATN_ERROR, cmd2, w3, log)
            | some (some i, cmd2, w3, log) =>
              match turn_around fuel w3 with
              | none => none
              | some (false, w4) => some (ATN_ERROR, cmd2, w4, log)
              | some (true, w4) => atn_exit_log ATN_CMD_TALK i cmd2 w4 log
      else
        let w2 := sleep_us TIMING_ATN_DELAY w1
        let w3 := pin_write PIN_DATA false w2
        let w4 := pin_write PIN_CLK false w3
        match wait_atn_release fuel w4 with
        | none => none
        | some w5 => atn_exit_log ATN_IDLE 0 cmd w5 []

/-- A result of `check_atn_log` without the record. -/
def drop_log (r : ATNCheck × ATNCmd × World × List (Nat × Nat)) : ATNCheck × ATNCmd × World :=
  (r.1, r.2.1, r.2.2.1)

/-- The stores to `cmd->str` executed during a call of `check_atn`, oldest
first, as pairs (index, byte); empty when the call does not return. -/
def appended (fuel : Nat) (cmd : ATNCmd) (w : World) : List (Nat × Nat) :=
  ((check_atn_log fuel cmd w).map (fun r => r.2.2.2)).getD []

/-! # Theorems -/

/-! ## The timeout guard -/

theorem timeout_poll_miss (pin : PIN) (wh : Bool) :
    ∀ (n : Nat) (w : World), (∀ j, j < n → w.inp (w.pos + j) = wh) →
      timeout_poll pin wh n w = (false, advance n (poll_events pin wh 2 n) w) := by
  intro n
  induction n with
  | zero => intro w _; simp [timeout_poll, advance, poll_events]
  | succ n ih =>
    intro w h
    have h0 : w.inp w.pos = wh := by simpa using h 0 (Nat.succ_pos n)
    have hrest : ∀ j, j < n →
        (sleep_us 2 (pin_read pin w).2).inp ((sleep_us 2 (pin_read pin w).2).pos + j) = wh := by
      intro j hj
      have := h (j + 1) (Nat.succ_lt_succ hj)
      simpa [sleep_us, pin_read, Nat.add_assoc, Nat.add_comm 1 j] using this
    rw [timeout_poll]
    have hc : (if wh = true then !(pin_read pin w).1 else (pin_read pin w).1) = false := by
      cases wh <;> simp [pin_read, h0]
    simp only [hc, Bool.false_eq_true, if_false]
    rw [ih _ hrest]
    simp [advance, sleep_us, pin_read, poll_events, h0, Nat.add_assoc, Nat.add_comm 1 n]

theorem timeout_poll_hit (pin : PIN) (wh : Bool) :
    ∀ (k n : Nat) (w : World), k < n → (∀ j, j < k → w.inp (w.pos + j) = wh) →
      w.inp (w.pos + k) = (!wh) →
      timeout_poll pin wh n w = (true, advance (k + 1) (wait_events pin wh k) w) := by
  intro k
  induction k with
  | zero =>
    intro n w hn _ hk
    obtain ⟨m, rfl⟩ : ∃ m, n = m + 1 := ⟨n - 1, by omega⟩
    have h0 : w.inp w.pos = (!wh) := by simpa using hk
    rw [timeout_poll]
    have hc : (if wh = true then !(pin_read pin w).1 else (pin_read pin w).1) = true := by
      cases wh <;> simp [pin_read, h0]
    simp [hc, advance, wait_events, poll_events, pin_read, h0]
  | succ k ih =>
    intro n w hn h hk
    obtain ⟨m, rfl⟩ : ∃ m, n = m + 1 := ⟨n - 1, by omega⟩
    have h0 : w.inp w.pos = wh := by simpa using h 0 (Nat.succ_pos k)
    have hrest : ∀ j, j < k →
        (sleep_us 2 (pin_read pin w).2).inp ((sleep_us 2 (pin_read pin w).2).pos + j) = wh := by
      intro j hj
      have := h (j + 1) (Nat.succ_lt_succ hj)
      simpa [sleep_us, pin_read, Nat.add_assoc, Nat.add_comm 1 j] using this
    have hk1 : (sleep_us 2 (pin_read pin w).2).inp ((sleep_us 2 (pin_read pin w).2).pos + k) = (!wh) := by
      simpa [sleep_us, pin_read, Nat.add_assoc, Nat.add_comm 1 k] using hk
    rw [timeout_poll]
    have hc : (if wh = true then !(pin_read pin w).1 else (pin_read pin w).1) = false := by
      cases wh <;> simp [pin_read, h0]
    simp only [hc, Bool.false_eq_true, if_false]
    rw [ih m _ (by omega) hrest hk1]
    simp [advance, sleep_us, pin_read, wait_events, poll_events, h0, Nat.add_assoc, Nat.add_comm 1 k,
      Nat.add_comm 1 (k+1)]

theorem wait_atn_release_hit :
    ∀ (k fuel : Nat) (w : World), k < fuel → (∀ j, j < k → w.inp (w.pos + j) = false) →
      w.inp (w.pos + k) = true →
      wait_atn_release fuel w = some (advance (k + 1) (atn_events k) w) := by
  intro k
  induction k with
  | zero =>
    intro fuel w hf _ hk
    obtain ⟨m, rfl⟩ : ∃ m, fuel = m + 1 := ⟨fuel - 1, by omega⟩
    have h0 : w.inp w.pos = true := by simpa using hk
    simp [wait_atn_release, pin_read, h0, advance, atn_events]
  | succ k ih =>
    intro fuel w hf h hk
    obtain ⟨m, rfl⟩ : ∃ m, fuel = m + 1 := ⟨fuel - 1, by omega⟩
    have h0 : w.inp w.pos = false := by simpa using h 0 (Nat.succ_pos k)
    have hrest : ∀ j, j < k → (pin_read PIN_ATTN w).2.inp ((pin_read PIN_ATTN w).2.pos + j) = false := by
      intro j hj
      have := h (j + 1) (Nat.succ_lt_succ hj)
      simpa [pin_read, Nat.add_assoc, Nat.add_comm 1 j] using this
    have hk1 : (pin_read PIN_ATTN w).2.inp ((pin_read PIN_ATTN w).2.pos + k) = true := by
      simpa [pin_read, Nat.add_assoc, Nat.add_comm 1 k] using hk
    rw [wait_atn_release]
    have hc : (pin_read PIN_ATTN w).1 = false := by simp [pin_read, h0]
    simp only [hc, Bool.false_eq_true, if_false]
    rw [ih m _ (by omega) hrest hk1]
    simp [advance, pin_read, atn_events, h0, Nat.add_assoc, Nat.add_comm 1 k, Nat.add_comm 1 (k+1),
      List.replicate_succ]

theorem wait_atn_release_stuck :
    ∀ (fuel : Nat) (w : World), (∀ j, j < fuel → w.inp (w.pos + j) = false) →
      wait_atn_release fuel w = none := by
  intro fuel
  induction fuel with
  | zero => intro w _; rfl
  | succ m ih =>
    intro w h
    have h0 : w.inp w.pos = false := by simpa using h 0 (Nat.succ_pos m)
    have hrest : ∀ j, j < m → (pin_read PIN_ATTN w).2.inp ((pin_read PIN_ATTN w).2.pos + j) = false := by
      intro j hj
      have := h (j + 1) (Nat.succ_lt_succ hj)
      simpa [pin_read, Nat.add_assoc, Nat.add_comm 1 j] using this
    rw [wait_atn_release]
    have hc : (pin_read PIN_ATTN w).1 = false := by simp [pin_read, h0]
    simp only [hc, Bool.false_eq_true, if_false]
    exact ih _ hrest

theorem new_events_advance (n : Nat) (evs : List Event) (w : World) :
    new_events w (advance n evs w) = evs := by
  simp [new_events, advance]

theorem count_poll_events (pin : PIN) (level : Bool) (us : Nat) :
    ∀ k, (poll_events pin level us k).countP (is_read pin) = k := by
  intro k
  induction k with
  | zero => rfl
  | succ k ih => simp [poll_events, is_read, ih]

theorem sleep_poll_events (pin : PIN) (level : Bool) (us : Nat) :
    ∀ k, sleep_total (poll_events pin level us k) = us * k := by
  intro k
  induction k with
  | zero => rfl
  | succ k ih => simp [poll_events, sleep_total, ih, Nat.mul_succ, Nat.add_comm]

theorem no_write_poll_events (pin : PIN) (level : Bool) (us : Nat) :
    ∀ k e, e ∈ poll_events pin level us k → is_write e = false := by
  intro k
  induction k with
  | zero => intro e he; simp [poll_events] at he
  | succ k ih =>
    intro e he
    simp only [poll_events, List.mem_cons] at he
    rcases he with rfl | rfl | he
    · rfl
    · rfl
    · exact ih e he

theorem no_write_wait_events (pin : PIN) (wh : Bool) (k : Nat) :
    ∀ e, e ∈ wait_events pin wh k → is_write e = false := by
  intro e he
  simp only [wait_events, List.mem_append, List.mem_singleton] at he
  rcases he with he | rfl
  · exact no_write_poll_events pin wh 2 k e he
  · rfl

/-- Either some sample among the next `n` differs from `level`, and then
there is a first one, or all of them read `level`. -/
theorem first_hit (w : World) (level : Bool) (n : Nat) :
    (∃ k, k < n ∧ (∀ j, j < k → w.inp (w.pos + j) = level) ∧ w.inp (w.pos + k) = (!level)) ∨
    (∀ j, j < n → w.inp (w.pos + j) = level) := by
  by_cases h : ∃ k, k < n ∧ w.inp (w.pos + k) ≠ level
  · left
    classical
    refine ⟨Nat.find h, (Nat.find_spec h).1, ?_, ?_⟩
    · intro j hj
      have := Nat.find_min h hj
      by_contra hne
      exact this ⟨lt_trans hj (Nat.find_spec h).1, hne⟩
    · have := (Nat.find_spec h).2
      cases level <;> simpa using this
  · right
    intro j hj
    by_contra hne
    exact h ⟨j, hj, hne⟩

theorem timeout_wait_hit (fuel : Nat) (pin : PIN) (wh : Bool) (k : Nat) (w : World)
    (hk : k < TIMING_TIMEOUT) (h : ∀ j, j < k → w.inp (w.pos + j) = wh)
    (hit : w.inp (w.pos + k) = (!wh)) :
    timeout_wait fuel pin wh w = some (false, advance (k + 1) (wait_events pin wh k) w) := by
  simp [timeout_wait, timeout_poll_hit pin wh k TIMING_TIMEOUT w hk h hit]

theorem timeout_wait_expired (fuel : Nat) (pin : PIN) (wh : Bool) (w : World)
    (h : ∀ j, j < TIMING_TIMEOUT → w.inp (w.pos + j) = wh) :
    timeout_wait fuel pin wh w =
      (wait_atn_release fuel (timed_out pin wh w)).map (fun w1 => (true, w1)) := by
  simp only [timeout_wait, timeout_poll_miss pin wh TIMING_TIMEOUT w h]
  simp only [Bool.false_eq_true, if_false]
  have : ({ pin_write PIN_DATA false (pin_write PIN_CLK false
      (advance TIMING_TIMEOUT (poll_events pin wh 2 TIMING_TIMEOUT) w)) with
      m_state := errorFlag } : World) = timed_out pin wh w := by
    simp [pin_write, advance, timed_out]
  rw [this]
  cases wait_atn_release fuel (timed_out pin wh w) <;> rfl

theorem wait_atn_release_m_state :
    ∀ (fuel : Nat) (w w1 : World), wait_atn_release fuel w = some w1 → w1.m_state = w.m_state := by
  intro fuel
  induction fuel with
  | zero => intro w w1 h; simp [wait_atn_release] at h
  | succ m ih =>
    intro w w1 h
    rw [wait_atn_release] at h
    split at h
    · cases h; rfl
    · exact ih (pin_read PIN_ATTN w).2 w1 h

/-- The two outcomes of `timeout_wait`: it ends at the `k+1`-th sample, for
every fuel, or it times out and whatever it returns carries the error flag. -/
theorem timeout_wait_cases (fuel : Nat) (pin : PIN) (wh : Bool) (w : World) :
    (∃ k, k < TIMING_TIMEOUT ∧ (∀ j, j < k → w.inp (w.pos + j) = wh) ∧
        w.inp (w.pos + k) = (!wh) ∧
        ∀ f, timeout_wait f pin wh w = some (false, advance (k + 1) (wait_events pin wh k) w)) ∨
    ((∀ j, j < TIMING_TIMEOUT → w.inp (w.pos + j) = wh) ∧
      ∀ r w1, timeout_wait fuel pin wh w = some (r, w1) → r = true ∧ w1.m_state = errorFlag) := by
  rcases first_hit w wh TIMING_TIMEOUT with ⟨k, hk, h, hit⟩ | h
  · exact Or.inl ⟨k, hk, h, hit, fun f => timeout_wait_hit f pin wh k w hk h hit⟩
  · refine Or.inr ⟨h, ?_⟩
    intro r w1 hr
    rw [timeout_wait_expired fuel pin wh w h] at hr
    cases hw : wait_atn_release fuel (timed_out pin wh w) with
    | none => simp [hw] at hr
    | some w2 =>
      simp [hw] at hr
      obtain ⟨rfl, rfl⟩ := hr
      exact ⟨rfl, by rw [wait_atn_release_m_state fuel _ _ hw]; rfl⟩

/-- The outcomes of `timeout_wait`, by what the watched line does within the
budget of samples. -/
theorem timeout_wait_outcomes (fuel : Nat) (pin : PIN) (whileHigh : Bool) (w : World) :
    ((∀ j, j < TIMING_TIMEOUT → w.inp (w.pos + j) = whileHigh) →
      (∀ k, k < fuel →
        (∀ j, j < k → w.inp (w.pos + TIMING_TIMEOUT + j) = false) →
        w.inp (w.pos + TIMING_TIMEOUT + k) = true →
        timeout_wait fuel pin whileHigh w =
          some (true,
            { inp := w.inp, pos := w.pos + TIMING_TIMEOUT + (k + 1),
              trace := w.trace ++ (poll_events pin whileHigh 2 TIMING_TIMEOUT ++
                [Event.write PIN_CLK false, Event.write PIN_DATA false]) ++ atn_events k,
              m_state := errorFlag })) ∧
      ((∀ j, j < fuel → w.inp (w.pos + TIMING_TIMEOUT + j) = false) →
        timeout_wait fuel pin whileHigh w = none) ∧
      (∀ r w1, timeout_wait fuel pin whileHigh w = some (r, w1) →
        r = true ∧ w1.m_state = errorFlag ∧
        ∃ k, k < fuel ∧ w.inp (w.pos + TIMING_TIMEOUT + k) = true ∧
          new_events w w1 = poll_events pin whileHigh 2 TIMING_TIMEOUT ++
            [Event.write PIN_CLK false, Event.write PIN_DATA false] ++ atn_events k)) ∧
    (∀ k, k < TIMING_TIMEOUT →
      (∀ j, j < k → w.inp (w.pos + j) = whileHigh) →
      w.inp (w.pos + k) = (!whileHigh) →
      ∃ w1, timeout_wait fuel pin whileHigh w = some (false, w1) ∧
        w1.m_state = w.m_state ∧ w1.pos = w.pos + (k + 1) ∧
        new_events w w1 = wait_events pin whileHigh k ∧
        ∀ e, e ∈ new_events w w1 → is_write e = false) := by
  constructor
  · intro hmiss
    have hexp := timeout_wait_expired fuel pin whileHigh w hmiss
    have hrel : ∀ k, k < fuel →
        (∀ j, j < k → w.inp (w.pos + TIMING_TIMEOUT + j) = false) →
        w.inp (w.pos + TIMING_TIMEOUT + k) = true →
        timeout_wait fuel pin whileHigh w =
          some (true,
            { inp := w.inp, pos := w.pos + TIMING_TIMEOUT + (k + 1),
              trace := w.trace ++ (poll_events pin whileHigh 2 TIMING_TIMEOUT ++
                [Event.write PIN_CLK false, Event.write PIN_DATA false]) ++ atn_events k,
              m_state := errorFlag }) := by
      intro k hk hlow hhigh
      rw [hexp, wait_atn_release_hit k fuel (timed_out pin whileHigh w) hk hlow hhigh]
      simp [advance, timed_out, Nat.add_assoc]
    have hstuck : (∀ j, j < fuel → w.inp (w.pos + TIMING_TIMEOUT + j) = false) →
        timeout_wait fuel pin whileHigh w = none := by
      intro hlow
      rw [hexp, wait_atn_release_stuck fuel (timed_out pin whileHigh w) hlow]
      rfl
    refine ⟨hrel, hstuck, ?_⟩
    intro r w1 hret
    rcases first_hit (timed_out pin whileHigh w) false fuel with ⟨k, hk, hlow, hhigh⟩ | hlow
    · have heq := hrel k hk hlow (by simpa using hhigh)
      rw [heq] at hret
      simp only [Option.some.injEq, Prod.mk.injEq] at hret
      obtain ⟨rfl, rfl⟩ := hret
      refine ⟨rfl, rfl, k, hk, by simpa using hhigh, ?_⟩
      simp [new_events, List.append_assoc]
    · rw [hstuck hlow] at hret
      cases hret
  · intro k hk hlow hhit
    refine ⟨_, timeout_wait_hit fuel pin whileHigh k w hk hlow hhit, rfl, rfl, ?_, ?_⟩
    · exact new_events_advance _ _ _
    · intro e he
      rw [new_events_advance] at he
      exact no_write_wait_events pin whileHigh k e he

/-- C8: when the watched line stays away from the awaited level for the whole
budget, `timeout_wait` releases CLOCK and DATA, sets the session state to the
error flag and then samples ATN until it reads released: it returns `true`
right after the first such sample, and does not return while ATN reads
asserted.  When the line gets to the awaited level at the `k+1`-th sample,
`timeout_wait` returns `false` right after that sample, with no pin write and
the session state unchanged. -/
theorem timeout_wait_contract (fuel : Nat) (pin : PIN) (whileHigh : Bool) (w : World) :
    ((∀ j, j < TIMING_TIMEOUT → w.inp (w.pos + j) = whileHigh) →
      (∀ k, k < fuel →
        (∀ j, j < k → w.inp (w.pos + TIMING_TIMEOUT + j) = false) →
        w.inp (w.pos + TIMING_TIMEOUT + k) = true →
        timeout_wait fuel pin whileHigh w =
          some (true,
            { inp := w.inp, pos := w.pos + TIMING_TIMEOUT + (k + 1),
              trace := w.trace ++ (poll_events pin whileHigh 2 TIMING_TIMEOUT ++
                [Event.write PIN_CLK false, Event.write PIN_DATA false]) ++ atn_events k,
              m_state := errorFlag })) ∧
      ((∀ j, j < fuel → w.inp (w.pos + TIMING_TIMEOUT + j) = false) →
        timeout_wait fuel pin whileHigh w = none) ∧
      (∀ r w1, timeout_wait fuel pin whileHigh w = some (r, w1) →
        r = true ∧ w1.m_state = errorFlag ∧
        ∃ k, k < fuel ∧ w.inp (w.pos + TIMING_TIMEOUT + k) = true ∧
          new_events w w1 = poll_events pin whileHigh 2 TIMING_TIMEOUT ++
            [Event.write PIN_CLK false, Event.write PIN_DATA false] ++ atn_events k)) ∧
    (∀ k, k < TIMING_TIMEOUT →
      (∀ j, j < k → w.inp (w.pos + j) = whileHigh) →
      w.inp (w.pos + k) = (!whileHigh) →
      ∃ w1, timeout_wait fuel pin whileHigh w = some (false, w1) ∧
        w1.m_state = w.m_state ∧ w1.pos = w.pos + (k + 1) ∧
        new_events w w1 = wait_events pin whileHigh k ∧
        ∀ e, e ∈ new_events w w1 → is_write e = false) :=
  timeout_wait_outcomes fuel pin whileHigh w

/-- C8, on two buses: CLOCK stuck low for the whole budget with ATN released
at the second sample after it, and CLOCK high at the first sample. -/
theorem timeout_wait_contract_witness :
    timeout_wait 3 PIN_CLK false stuck_world =
        some (true,
          { inp := stuck_world.inp, pos := stuck_world.pos + TIMING_TIMEOUT + (1 + 1),
            trace := stuck_world.trace ++ (poll_events PIN_CLK false 2 TIMING_TIMEOUT ++
              [Event.write PIN_CLK false, Event.write PIN_DATA false]) ++ atn_events 1,
            m_state := errorFlag }) ∧
    ∃ w1, timeout_wait 3 PIN_CLK false idle_world = some (false, w1) ∧
      w1.m_state = idle_world.m_state ∧ w1.pos = idle_world.pos + (0 + 1) ∧
      new_events idle_world w1 = wait_events PIN_CLK false 0 ∧
      ∀ e, e ∈ new_events idle_world w1 → is_write e = false :=
  ⟨((timeout_wait_contract 3 PIN_CLK false stuck_world).1
      (by intro j hj; simp [stuck_world, TIMING_TIMEOUT] at hj ⊢; omega)).1 1 (by decide)
      (by intro j hj; simp [stuck_world, TIMING_TIMEOUT]; omega)
      (by simp [stuck_world, TIMING_TIMEOUT]),
   (timeout_wait_contract 3 PIN_CLK false idle_world).2 0 (by decide)
      (by intro j hj; omega) (by simp [idle_world])⟩

/-- C9, as the code has it: when the watched line never gets to the awaited
level, `timeout_wait` samples it exactly 65000 times (`TIMING_TIMEOUT` counts
passes of the loop), sleeping 2 µs after each sample, 130000 µs in all, before
it releases the lines and declares the timeout. -/
theorem timeout_budget (pin : PIN) (whileHigh : Bool) (w : World)
    (hmiss : ∀ j, j < TIMING_TIMEOUT → w.inp (w.pos + j) = whileHigh) :
    timeout_poll pin whileHigh TIMING_TIMEOUT w =
        (false, advance TIMING_TIMEOUT (poll_events pin whileHigh 2 TIMING_TIMEOUT) w) ∧
    (poll_events pin whileHigh 2 TIMING_TIMEOUT).countP (is_read pin) = 65000 ∧
    sleep_total (poll_events pin whileHigh 2 TIMING_TIMEOUT) = 130000 ∧
    ∀ fuel r w1, timeout_wait fuel pin whileHigh w = some (r, w1) →
      r = true ∧ ∃ k, new_events w w1 = poll_events pin whileHigh 2 TIMING_TIMEOUT ++
        [Event.write PIN_CLK false, Event.write PIN_DATA false] ++ atn_events k := by
  refine ⟨timeout_poll_miss pin whileHigh TIMING_TIMEOUT w hmiss, ?_, ?_, ?_⟩
  · rw [count_poll_events]; rfl
  · rw [sleep_poll_events]; rfl
  · intro fuel r w1 hret
    obtain ⟨hr, -, k, -, -, hk⟩ :=
      ((timeout_wait_outcomes fuel pin whileHigh w).1 hmiss).2.2 r w1 hret
    exact ⟨hr, k, hk⟩

theorem timeout_budget_witness :
    timeout_poll PIN_CLK false TIMING_TIMEOUT stuck_world =
        (false, advance TIMING_TIMEOUT (poll_events PIN_CLK false 2 TIMING_TIMEOUT) stuck_world) ∧
    (poll_events PIN_CLK false 2 TIMING_TIMEOUT).countP (is_read PIN_CLK) = 65000 ∧
    sleep_total (poll_events PIN_CLK false 2 TIMING_TIMEOUT) = 130000 ∧
    ∀ fuel r w1, timeout_wait fuel PIN_CLK false stuck_world = some (r, w1) →
      r = true ∧ ∃ k, new_events stuck_world w1 = poll_events PIN_CLK false 2 TIMING_TIMEOUT ++
        [Event.write PIN_CLK false, Event.write PIN_DATA false] ++ atn_events k :=
  timeout_budget PIN_CLK false stuck_world
    (by intro j hj; simp [stuck_world, TIMING_TIMEOUT] at hj ⊢; omega)

/-- C9 as the spec words it fails: on a bus whose CLOCK stays low, the polling
loop of `timeout_wait` takes 65000 samples, twice the 32500 of the spec, and
sleeps 130000 µs, twice the 65000 µs (65 ms) of the spec. -/
theorem timeout_budget_is_not_65ms :
    ∃ w1, timeout_poll PIN_CLK false TIMING_TIMEOUT stuck_world = (false, w1) ∧
      (new_events stuck_world w1).countP (is_read PIN_CLK) = 2 * 32500 ∧
      sleep_total (new_events stuck_world w1) = 2 * 65000 ∧
      ¬ ((new_events stuck_world w1).countP (is_read PIN_CLK) < 2 * 32500) ∧
      ¬ (sleep_total (new_events stuck_world w1) < 2 * 65000) := by
  have hmiss : ∀ j, j < TIMING_TIMEOUT → stuck_world.inp (stuck_world.pos + j) = false := by
    intro j hj; simp [stuck_world, TIMING_TIMEOUT] at hj ⊢; omega
  refine ⟨_, timeout_poll_miss PIN_CLK false TIMING_TIMEOUT stuck_world hmiss, ?_⟩
  rw [new_events_advance, count_poll_events, sleep_poll_events]
  decide

/-! ## receive_byte -/

theorem eoi_poll_low :
    ∀ (k r n : Nat) (w : World), n + k < 20 → k < r →
      (∀ j, j < k → w.inp (w.pos + j) = true) → w.inp (w.pos + k) = false →
      eoi_poll r n w =
        (n + k, advance (k + 1) (poll_events PIN_CLK true 10 k ++ [Event.read PIN_CLK false]) w) := by
  intro k
  induction k with
  | zero =>
    intro r n w _ hr _ hk
    obtain ⟨m, rfl⟩ : ∃ m, r = m + 1 := ⟨r - 1, by omega⟩
    have h0 : w.inp w.pos = false := by simpa using hk
    simp [eoi_poll, pin_read, h0, advance, poll_events]
  | succ k ih =>
    intro r n w hn hr h hk
    obtain ⟨m, rfl⟩ : ∃ m, r = m + 1 := ⟨r - 1, by omega⟩
    have h0 : w.inp w.pos = true := by simpa using h 0 (Nat.succ_pos k)
    have hrest : ∀ j, j < k →
        (sleep_us 10 (pin_read PIN_CLK w).2).inp ((sleep_us 10 (pin_read PIN_CLK w).2).pos + j) = true := by
      intro j hj
      have := h (j + 1) (Nat.succ_lt_succ hj)
      simpa [sleep_us, pin_read, Nat.add_assoc, Nat.add_comm 1 j] using this
    have hk1 : (sleep_us 10 (pin_read PIN_CLK w).2).inp
        ((sleep_us 10 (pin_read PIN_CLK w).2).pos + k) = false := by
      simpa [sleep_us, pin_read, Nat.add_assoc, Nat.add_comm 1 k] using hk
    have hn20 : n < 20 := by omega
    have hmod : (n + 1) % 256 = n + 1 := Nat.mod_eq_of_lt (by omega)
    rw [eoi_poll]
    have hc : ((pin_read PIN_CLK w).1 && decide (n < 20)) = true := by simp [pin_read, h0, hn20]
    simp only [hc, if_true, hmod]
    rw [ih m (n + 1) _ (by omega) (by omega) hrest hk1]
    simp [advance, sleep_us, pin_read, poll_events, h0, Nat.add_assoc, Nat.add_comm 1 k,
      Nat.add_comm 1 (k + 1)]

theorem eoi_poll_full :
    ∀ (k r n : Nat) (w : World), n + k = 20 → k < r →
      (∀ j, j < k → w.inp (w.pos + j) = true) →
      eoi_poll r n w =
        (20, advance (k + 1)
          (poll_events PIN_CLK true 10 k ++ [Event.read PIN_CLK (w.inp (w.pos + k))]) w) := by
  intro k
  induction k with
  | zero =>
    intro r n w hn hr _
    obtain ⟨m, rfl⟩ : ∃ m, r = m + 1 := ⟨r - 1, by omega⟩
    have hn20 : n = 20 := by omega
    subst hn20
    simp [eoi_poll, pin_read, advance, poll_events]
  | succ k ih =>
    intro r n w hn hr h
    obtain ⟨m, rfl⟩ : ∃ m, r = m + 1 := ⟨r - 1, by omega⟩
    have h0 : w.inp w.pos = true := by simpa using h 0 (Nat.succ_pos k)
    have hrest : ∀ j, j < k →
        (sleep_us 10 (pin_read PIN_CLK w).2).inp ((sleep_us 10 (pin_read PIN_CLK w).2).pos + j) = true := by
      intro j hj
      have := h (j + 1) (Nat.succ_lt_succ hj)
      simpa [sleep_us, pin_read, Nat.add_assoc, Nat.add_comm 1 j] using this
    have hn20 : n < 20 := by omega
    have hmod : (n + 1) % 256 = n + 1 := Nat.mod_eq_of_lt (by omega)
    rw [eoi_poll]
    have hc : ((pin_read PIN_CLK w).1 && decide (n < 20)) = true := by simp [pin_read, h0, hn20]
    simp only [hc, if_true, hmod]
    rw [ih m (n + 1) _ (by omega) (by omega) hrest]
    simp [advance, sleep_us, pin_read, poll_events, h0, Nat.add_assoc, Nat.add_comm 1 k,
      Nat.add_comm 1 (k + 1)]

theorem errorFlag_and_self : errorFlag &&& errorFlag ≠ 0 := by decide

/-- What the bit loop of `receive_byte` can return: a timeout with the error
flag, or `n` complete bit cycles, for every fuel. -/
theorem receive_bits_cases (fuel : Nat) :
    ∀ (n data : Nat) (w : World) (r : Option Nat) (w1 : World),
      receive_bits fuel n data w = some (r, w1) →
      (r = none ∧ w1.m_state = errorFlag) ∨
      (∃ cycles : List (Nat × Bool × Nat), cycles.length = n ∧
        r = some ((cycle_levels cycles).foldl shift_in data) ∧
        w1.trace = w.trace ++ cycles_events cycles ∧
        w1.m_state = w.m_state ∧ w1.inp = w.inp ∧
        ∀ f, receive_bits f n data w = some (r, w1)) := by
  intro n
  induction n with
  | zero =>
    intro data w r w1 h
    simp only [receive_bits, Option.some.injEq, Prod.mk.injEq] at h
    obtain ⟨rfl, rfl⟩ := h
    exact Or.inr ⟨[], rfl, rfl, by simp [cycles_events], rfl, rfl, fun f => rfl⟩
  | succ n ih =>
    intro data w r w1 h
    rw [receive_bits] at h
    rcases timeout_wait_cases fuel PIN_CLK false w with ⟨k, -, -, -, hhit⟩ | ⟨-, hto⟩
    · rw [hhit fuel] at h
      simp only at h
      rcases timeout_wait_cases fuel PIN_CLK true
          (pin_read PIN_DATA (advance (k + 1) (wait_events PIN_CLK false k) w)).2 with
        ⟨j, -, -, -, hhit2⟩ | ⟨-, hto2⟩
      · rw [hhit2 fuel] at h
        simp only at h
        rcases ih _ _ _ _ h with ⟨hr, hm⟩ | ⟨cycles, hlen, hr, htr, hm, hinp, hf⟩
        · exact Or.inl ⟨hr, hm⟩
        · refine Or.inr ⟨(k, (pin_read PIN_DATA
            (advance (k + 1) (wait_events PIN_CLK false k) w)).1, j) :: cycles, ?_, ?_, ?_, ?_, ?_, ?_⟩
          · simp [hlen]
          · simpa [cycle_levels] using hr
          · rw [htr]
            simp [advance, pin_read, cycles_events, cycle_events, List.append_assoc]
          · rw [hm]; rfl
          · rw [hinp]; rfl
          · intro f
            rw [receive_bits, hhit f]
            simp only
            rw [hhit2 f]
            exact hf f
      · cases hw : timeout_wait fuel PIN_CLK true
            (pin_read PIN_DATA (advance (k + 1) (wait_events PIN_CLK false k) w)).2 with
        | none => rw [hw] at h; cases h
        | some p =>
          obtain ⟨r2, w2⟩ := p
          obtain ⟨hr2, hm2⟩ := hto2 r2 w2 hw
          subst hr2
          rw [hw] at h
          simp only [Option.some.injEq, Prod.mk.injEq] at h
          obtain ⟨rfl, rfl⟩ := h
          exact Or.inl ⟨rfl, hm2⟩
    · cases hw : timeout_wait fuel PIN_CLK false w with
      | none => rw [hw] at h; cases h
      | some p =>
        obtain ⟨r2, w2⟩ := p
        obtain ⟨hr2, hm2⟩ := hto r2 w2 hw
        subst hr2
        rw [hw] at h
        simp only [Option.some.injEq, Prod.mk.injEq] at h
        obtain ⟨rfl, rfl⟩ := h
        exact Or.inl ⟨rfl, hm2⟩

theorem receive_tail_cases (fuel : Nat) (w : World) (b : Nat) (w1 : World)
    (h : receive_tail fuel w = some (b, w1)) :
    (b = 0 ∧ w1.m_state = errorFlag) ∨
    (∃ (cycles : List (Nat × Bool × Nat)) (atn : Bool), cycles.length = 8 ∧
      b = (cycle_levels cycles).foldl shift_in 0 ∧
      atn = w.inp w.pos ∧
      w1.trace = w.trace ++ ([Event.read PIN_ATTN atn] ++ cycles_events cycles ++
        [Event.write PIN_DATA true]) ∧
      w1.m_state = (if atn = false then w.m_state ||| atnFlag else w.m_state) ∧
      w1.inp = w.inp ∧
      ∀ f, receive_tail f w = some (b, w1)) := by
  unfold receive_tail at h
  simp only at h
  cases hb : receive_bits fuel 8 0
      (if (pin_read PIN_ATTN w).1 = false then
        { (pin_read PIN_ATTN w).2 with m_state := (pin_read PIN_ATTN w).2.m_state ||| atnFlag }
       else (pin_read PIN_ATTN w).2) with
  | none => rw [hb] at h; cases h
  | some p =>
    obtain ⟨r, w2⟩ := p
    rw [hb] at h
    rcases receive_bits_cases fuel _ _ _ _ _ hb with ⟨hr, hm⟩ | ⟨cycles, hlen, hr, htr, hm, hinp, hf⟩
    · subst hr
      simp only [Option.some.injEq, Prod.mk.injEq] at h
      obtain ⟨rfl, rfl⟩ := h
      exact Or.inl ⟨rfl, hm⟩
    · subst hr
      simp only [Option.some.injEq, Prod.mk.injEq] at h
      obtain ⟨rfl, rfl⟩ := h
      refine Or.inr ⟨cycles, w.inp w.pos, hlen, rfl, rfl, ?_, ?_, ?_, ?_⟩
      · simp only [pin_write, htr]
        by_cases ha : w.inp w.pos = false <;> simp [pin_read, ha, List.append_assoc]
      · simp only [pin_write, hm]
        by_cases ha : w.inp w.pos = false <;> simp [pin_read, ha]
      · simp only [pin_write, hinp]
        by_cases ha : w.inp w.pos = false <;> simp [pin_read, ha]
      · intro f
        unfold receive_tail
        simp only
        rw [hf f]

/-- What `receive_byte` can return: a timeout, with byte 0 and the error flag
alone, or a complete transfer, for every fuel. -/
theorem receive_byte_cases (fuel : Nat) (w : World) (b : Nat) (w1 : World)
    (h : receive_byte fuel w = some (b, w1)) :
    (b = 0 ∧ w1.m_state = errorFlag) ∨
    (∃ (k0 n k1 : Nat) (cycles : List (Nat × Bool × Nat)),
      k0 < TIMING_TIMEOUT ∧ (∀ j, j < k0 → w.inp (w.pos + j) = false) ∧
      w.inp (w.pos + k0) = true ∧
      n ≤ 20 ∧ (∀ j, j < n → w.inp (w.pos + (k0 + 1) + j) = true) ∧
      (n < 20 → w.inp (w.pos + (k0 + 1) + n) = false) ∧
      cycles.length = 8 ∧
      b = (cycle_levels cycles).foldl shift_in 0 ∧
      (∃ atn : Bool,
        new_events w w1 = wait_events PIN_CLK false k0 ++ [Event.write PIN_DATA false] ++
          eoi_events n (w.inp (w.pos + (k0 + 1) + n)) k1 ++ [Event.read PIN_ATTN atn] ++
          cycles_events cycles ++ [Event.write PIN_DATA true] ∧
        w1.m_state = ((if n = 20 then noFlags ||| eoiFlag else noFlags) |||
          (if atn = false then atnFlag else 0))) ∧
      w1.inp = w.inp ∧
      ∀ f, receive_byte f w = some (b, w1)) := by
  unfold receive_byte at h
  simp only at h
  rcases timeout_wait_cases fuel PIN_CLK false { w with m_state := noFlags } with
    ⟨k0, hk0, hlow, hhit, hw0⟩ | ⟨-, hto⟩
  · rw [hw0 fuel] at h
    simp only at h
    -- the samples that follow the release of DATA
    rcases first_hit (pin_write PIN_DATA false
        (advance (k0 + 1) (wait_events PIN_CLK false k0) { w with m_state := noFlags })) true 20 with
      ⟨n, hn, hhigh, hfall⟩ | hhigh
    · -- CLOCK goes low at sample n < 20: no EOI
      have hp := eoi_poll_low n 21 0 _ (by omega) (by omega) hhigh (by simpa using hfall)
      rw [hp] at h
      have hthr : ¬ (0 + n ≥ TIMING_EOI_THRESH) := by simp [TIMING_EOI_THRESH]; omega
      simp only [hthr, if_false] at h
      rcases receive_tail_cases fuel _ b w1 h with ⟨hb, hm⟩ | ⟨cycles, atn, hlen, hb, -, htr, hm, hinp, hf⟩
      · exact Or.inl ⟨hb, hm⟩
      · refine Or.inr ⟨k0, n, 0, cycles, hk0, hlow, hhit, by omega, ?_, ?_, hlen, hb, ?_, ?_, ?_⟩
        · intro j hj
          simpa [pin_write, advance, Nat.add_assoc] using hhigh j hj
        · intro _
          simpa [pin_write, advance, Nat.add_assoc] using hfall
        · refine ⟨atn, ?_, ?_⟩
          · have hfall1 : w.inp (w.pos + (k0 + 1) + n) = false := by
              simpa [pin_write, advance, Nat.add_assoc] using hfall
            have hn20 : ¬ n = 20 := by omega
            simp [new_events, htr, pin_write, advance, eoi_events, hfall1, hn20, List.append_assoc]
          · have hn20 : ¬ n = 20 := by omega
            rw [hm]
            cases atn <;> simp [pin_write, advance, hn20, noFlags]
        · rw [hinp]; rfl
        · intro f
          unfold receive_byte
          simp only
          rw [hw0 f]
          simp only
          rw [hp]
          simp only [hthr, if_false]
          exact hf f
    · -- CLOCK stays released for 20 samples: EOI
      have hp := eoi_poll_full 20 21 0 _ (by omega) (by omega) hhigh
      rw [hp] at h
      have hthr : (20 : Nat) ≥ TIMING_EOI_THRESH := by simp [TIMING_EOI_THRESH]
      simp only [hthr, if_true] at h
      rcases timeout_wait_cases fuel PIN_CLK true
        (pin_write PIN_DATA false (sleep_us TIMING_BIT (pin_write PIN_DATA true
          { (advance (20 + 1) (poll_events PIN_CLK true 10 20 ++
              [Event.read PIN_CLK ((pin_write PIN_DATA false (advance (k0 + 1)
                (wait_events PIN_CLK false k0) { w with m_state := noFlags })).inp
                ((pin_write PIN_DATA false (advance (k0 + 1)
                (wait_events PIN_CLK false k0) { w with m_state := noFlags })).pos + 20))])
              (pin_write PIN_DATA false (advance (k0 + 1) (wait_events PIN_CLK false k0)
                { w with m_state := noFlags }))) with
            m_state := (advance (20 + 1) (poll_events PIN_CLK true 10 20 ++
              [Event.read PIN_CLK ((pin_write PIN_DATA false (advance (k0 + 1)
                (wait_events PIN_CLK false k0) { w with m_state := noFlags })).inp
                ((pin_write PIN_DATA false (advance (k0 + 1)
                (wait_events PIN_CLK false k0) { w with m_state := noFlags })).pos + 20))])
              (pin_write PIN_DATA false (advance (k0 + 1) (wait_events PIN_CLK false k0)
                { w with m_state := noFlags }))).m_state ||| eoiFlag }))) with
        ⟨k1, -, -, -, hw1⟩ | ⟨-, hto1⟩
      · rw [hw1 fuel] at h
        simp only at h
        rcases receive_tail_cases fuel _ b w1 h with ⟨hb, hm⟩ | ⟨cycles, atn, hlen, hb, -, htr, hm, hinp, hf⟩
        · exact Or.inl ⟨hb, hm⟩
        · refine Or.inr ⟨k0, 20, k1, cycles, hk0, hlow, hhit, by omega, ?_, ?_, hlen, hb, ?_, ?_, ?_⟩
          · intro j hj
            simpa [pin_write, advance, Nat.add_assoc] using hhigh j hj
          · intro hlt; omega
          · refine ⟨atn, ?_, ?_⟩
            · simp [new_events, htr, pin_write, sleep_us, advance, eoi_events, List.append_assoc,
                Nat.add_assoc]
            · rw [hm]
              cases atn <;> simp [pin_write, sleep_us, advance]
          · rw [hinp]; rfl
          · intro f
            unfold receive_byte
            simp only
            rw [hw0 f]
            simp only
            rw [hp]
            simp only [hthr, if_true]
            rw [hw1 f]
            exact hf f
      · revert h
        generalize timeout_wait fuel PIN_CLK true _ = res at hto1 ⊢
        intro h
        cases res with
        | none => cases h
        | some p =>
          obtain ⟨r2, w2⟩ := p
          obtain ⟨hr2, hm2⟩ := hto1 r2 w2 rfl
          subst hr2
          simp only [Option.some.injEq, Prod.mk.injEq] at h
          obtain ⟨rfl, rfl⟩ := h
          exact Or.inl ⟨rfl, hm2⟩
  · cases hw : timeout_wait fuel PIN_CLK false { w with m_state := noFlags } with
    | none => rw [hw] at h; cases h
    | some p =>
      obtain ⟨r2, w2⟩ := p
      obtain ⟨hr2, hm2⟩ := hto r2 w2 hw
      subst hr2
      rw [hw] at h
      simp only [Option.some.injEq, Prod.mk.injEq] at h
      obtain ⟨rfl, rfl⟩ := h
      exact Or.inl ⟨rfl, hm2⟩

theorem first_hit_unique (w : World) (level : Bool) (k k1 : Nat)
    (h : ∀ j, j < k → w.inp (w.pos + j) = level) (hk : w.inp (w.pos + k) = (!level))
    (h1 : ∀ j, j < k1 → w.inp (w.pos + j) = level) (hk1 : w.inp (w.pos + k1) = (!level)) :
    k = k1 := by
  rcases Nat.lt_trichotomy k k1 with hlt | heq | hgt
  · have := h1 k hlt
    rw [hk] at this
    cases level <;> simp at this
  · exact heq
  · have := h k1 hgt
    rw [hk1] at this
    cases level <;> simp at this

theorem data_writes_append (l1 l2 : List Event) :
    data_writes (l1 ++ l2) = data_writes l1 ++ data_writes l2 := by
  induction l1 with
  | nil => rfl
  | cons e es ih =>
    cases e with
    | read p l => simpa [data_writes] using ih
    | sleep us => simpa [data_writes] using ih
    | write p d => cases p <;> simpa [data_writes] using ih

theorem data_writes_of_no_write (l : List Event) (h : ∀ e, e ∈ l → is_write e = false) :
    data_writes l = [] := by
  induction l with
  | nil => rfl
  | cons e es ih =>
    have he := h e (List.mem_cons_self _ _)
    have hes := ih (fun e1 h1 => h e1 (List.mem_cons_of_mem _ h1))
    cases e with
    | read p l => simpa [data_writes] using hes
    | sleep us => simpa [data_writes] using hes
    | write p d => simp [is_write] at he

theorem no_write_cycles_events :
    ∀ (cs : List (Nat × Bool × Nat)) (e : Event), e ∈ cycles_events cs → is_write e = false := by
  intro cs
  induction cs with
  | nil => intro e he; simp [cycles_events] at he
  | cons c cs ih =>
    intro e he
    simp only [cycles_events, cycle_events, List.mem_append, List.mem_singleton] at he
    rcases he with ((he | rfl) | he) | he
    · exact no_write_wait_events _ _ _ e he
    · rfl
    · exact no_write_wait_events _ _ _ e he
    · exact ih e he

theorem count_data_poll_events (level : Bool) (us : Nat) :
    ∀ k, (poll_events PIN_CLK level us k).countP (is_read PIN_DATA) = 0 := by
  intro k
  induction k with
  | zero => rfl
  | succ k ih => simp [poll_events, is_read, ih]

theorem count_data_wait_events (wh : Bool) (k : Nat) :
    (wait_events PIN_CLK wh k).countP (is_read PIN_DATA) = 0 := by
  simp [wait_events, count_data_poll_events, is_read]

theorem count_data_cycles_events :
    ∀ cs : List (Nat × Bool × Nat), (cycles_events cs).countP (is_read PIN_DATA) = cs.length := by
  intro cs
  induction cs with
  | nil => rfl
  | cons c cs ih =>
    simp [cycles_events, cycle_events, count_data_wait_events, is_read, ih, Nat.add_comm]

theorem count_data_eoi_events (n : Nat) (level : Bool) (k1 : Nat) :
    (eoi_events n level k1).countP (is_read PIN_DATA) = 0 := by
  unfold eoi_events
  split <;> simp [count_data_poll_events, count_data_wait_events, is_read]

theorem shift_in_bits (l0 l1 l2 l3 l4 l5 l6 l7 : Bool) :
    ∀ k, k < 8 →
      ((List.foldl shift_in 0 [l0, l1, l2, l3, l4, l5, l6, l7]).testBit k = true ↔
        [l0, l1, l2, l3, l4, l5, l6, l7][k]? = some true) := by
  cases l0 <;> cases l1 <;> cases l2 <;> cases l3 <;> cases l4 <;> cases l5 <;> cases l6 <;>
    cases l7 <;> decide

theorem shift_in_lt (data : Nat) (level : Bool) : shift_in data level < 256 :=
  Nat.mod_lt _ (by decide)

theorem eight_elements {α : Type} (l : List α) (h : l.length = 8) :
    ∃ a0 a1 a2 a3 a4 a5 a6 a7, l = [a0, a1, a2, a3, a4, a5, a6, a7] := by
  match l, h with
  | [a0, a1, a2, a3, a4, a5, a6, a7], _ => exact ⟨a0, a1, a2, a3, a4, a5, a6, a7, rfl⟩

/-! ## A byte that arrives without a timeout

The lemma `receive_byte_run` derives the return of `receive_byte` from the
samples on the bus.  Further down `receive_byte_timing` is the converse: every
return without the error flag comes from a bus of this kind. -/

theorem reads_get (samples : List Bool) (w : World) (h : reads samples w) (j : Nat) (v : Bool)
    (hj : samples[j]? = some v) : w.inp (w.pos + j) = v := by
  have hlt : j < samples.length := by
    by_contra hge
    rw [List.getElem?_eq_none (by omega)] at hj
    cases hj
  have := h j hlt
  rw [hj] at this
  exact (Option.some.inj this).symm

theorem reads_append_left (l1 l2 : List Bool) (w : World) (h : reads (l1 ++ l2) w) :
    reads l1 w := by
  intro j hj
  have := h j (by rw [List.length_append]; omega)
  rwa [List.getElem?_append_left hj] at this

theorem reads_append_right (l1 l2 : List Bool) (w w1 : World) (h : reads (l1 ++ l2) w)
    (hinp : w1.inp = w.inp) (hpos : w1.pos = w.pos + l1.length) : reads l2 w1 := by
  intro j hj
  have := h (l1.length + j) (by rw [List.length_append]; omega)
  rw [List.getElem?_append_right (by omega)] at this
  rw [hinp, hpos, Nat.add_assoc]
  simpa using this

theorem reads_wait (wh : Bool) (k : Nat) (w : World) (h : reads (wait_samples wh k) w) :
    (∀ j, j < k → w.inp (w.pos + j) = wh) ∧ w.inp (w.pos + k) = (!wh) := by
  constructor
  · intro j hj
    apply reads_get _ w h j wh
    unfold wait_samples
    rw [List.getElem?_append_left (by simpa using hj)]
    simp [hj]
  · apply reads_get _ w h k (!wh)
    unfold wait_samples
    rw [List.getElem?_append_right (by simp)]
    simp

theorem reads_replicate (v : Bool) (k : Nat) (w : World) (h : reads (List.replicate k v) w) :
    ∀ j, j < k → w.inp (w.pos + j) = v := by
  intro j hj
  apply reads_get _ w h j v
  simp [hj]

theorem length_wait_samples (wh : Bool) (k : Nat) : (wait_samples wh k).length = k + 1 := by
  simp [wait_samples]

/-- A wait whose samples are on the bus ends at its `k+1`-th sample. -/
theorem timeout_wait_run (fuel : Nat) (pin : PIN) (wh : Bool) (k : Nat) (w : World)
    (hk : k < TIMING_TIMEOUT) (h : reads (wait_samples wh k) w) :
    timeout_wait fuel pin wh w = some (false, advance (k + 1) (wait_events pin wh k) w) :=
  timeout_wait_hit fuel pin wh k w hk (reads_wait wh k w h).1 (reads_wait wh k w h).2

theorem advance_advance (n m : Nat) (e1 e2 : List Event) (w : World) :
    advance m e2 (advance n e1 w) = advance (n + m) (e1 ++ e2) w := by
  simp [advance, Nat.add_assoc, List.append_assoc]

theorem pin_read_advance (pin : PIN) (w : World) :
    pin_read pin w = (w.inp w.pos, advance 1 [Event.read pin (w.inp w.pos)] w) := rfl

theorem advance_zero (w : World) : advance 0 [] w = w := by
  simp [advance]

/-- The bit loop on a bus that gives the samples of the listed cycles: it goes
through all of them, for every fuel. -/
theorem receive_bits_run (fuel : Nat) :
    ∀ (cycles : List (Nat × Bool × Nat)) (data : Nat) (w : World),
      (∀ c, c ∈ cycles → c.1 < TIMING_TIMEOUT ∧ c.2.2 < TIMING_TIMEOUT) →
      reads (cycles_samples cycles) w →
      receive_bits fuel cycles.length data w =
        some (some ((cycle_levels cycles).foldl shift_in data),
          advance (cycles_samples cycles).length (cycles_events cycles) w) := by
  intro cycles
  induction cycles with
  | nil =>
    intro data w _ _
    simp [receive_bits, cycle_levels, cycles_samples, cycles_events, advance_zero]
  | cons c cs ih =>
    intro data w hb hr
    obtain ⟨k, d, j⟩ := c
    have hkj := hb (k, d, j) (List.mem_cons_self _ _)
    simp only [cycles_samples, cycle_samples] at hr
    have h1 : reads (wait_samples false k) w :=
      reads_append_left _ _ w (reads_append_left _ _ w (reads_append_left _ _ w hr))
    have h2 : reads [d] (advance (k + 1) (wait_events PIN_CLK false k) w) :=
      reads_append_right _ _ w _ (reads_append_left _ _ w (reads_append_left _ _ w hr)) rfl
        (by simp [advance, length_wait_samples])
    have hd : w.inp (w.pos + (k + 1)) = d := by
      have := reads_get _ _ h2 0 d rfl
      simpa [advance] using this
    have h3 : reads (wait_samples true j)
        (advance (k + 1 + 1) (wait_events PIN_CLK false k ++ [Event.read PIN_DATA d]) w) :=
      reads_append_right _ _ w _ (reads_append_left _ _ w hr) rfl
        (by simp [advance, length_wait_samples])
    have h4 : reads (cycles_samples cs)
        (advance (k + 1 + 1 + (j + 1)) (wait_events PIN_CLK false k ++ [Event.read PIN_DATA d] ++
          wait_events PIN_CLK true j) w) :=
      reads_append_right _ _ w _ hr rfl (by simp [advance, length_wait_samples]; omega)
    rw [List.length_cons, receive_bits, timeout_wait_run fuel PIN_CLK false k w hkj.1 h1]
    simp only
    rw [pin_read_advance]
    simp only [advance_advance]
    have hd1 : (advance (k + 1) (wait_events PIN_CLK false k) w).inp
        (advance (k + 1) (wait_events PIN_CLK false k) w).pos = d := by
      simpa [advance] using hd
    rw [hd1, timeout_wait_run fuel PIN_CLK true j _ hkj.2 h3]
    simp only [advance_advance]
    rw [ih _ _ (fun c hc => hb c (List.mem_cons_of_mem _ hc)) h4]
    simp [advance, cycle_levels, cycles_samples, cycle_samples, cycles_events, cycle_events,
      length_wait_samples, Nat.add_assoc, List.append_assoc]
    omega

theorem receive_tail_run (fuel : Nat) (atn : Bool) (cycles : List (Nat × Bool × Nat)) (w : World)
    (hlen : cycles.length = 8)
    (hb : ∀ c, c ∈ cycles → c.1 < TIMING_TIMEOUT ∧ c.2.2 < TIMING_TIMEOUT)
    (hr : reads ([atn] ++ cycles_samples cycles) w) :
    receive_tail fuel w =
      some ((cycle_levels cycles).foldl shift_in 0,
        { inp := w.inp, pos := w.pos + (1 + (cycles_samples cycles).length),
          trace := w.trace ++ ([Event.read PIN_ATTN atn] ++ cycles_events cycles ++
            [Event.write PIN_DATA true]),
          m_state := if atn = false then w.m_state ||| atnFlag else w.m_state }) := by
  have ha : w.inp w.pos = atn := by
    have := reads_get _ w hr 0 atn (by simp)
    simpa using this
  unfold receive_tail
  simp only
  have hr1 : reads (cycles_samples cycles)
      (if (pin_read PIN_ATTN w).1 = false then
        { (pin_read PIN_ATTN w).2 with m_state := (pin_read PIN_ATTN w).2.m_state ||| atnFlag }
       else (pin_read PIN_ATTN w).2) := by
    refine reads_append_right [atn] _ w _ hr ?_ ?_
    · split <;> rfl
    · split <;> rfl
  have := receive_bits_run fuel cycles 0 _ hb hr1
  rw [hlen] at this
  rw [this]
  cases atn <;> simp [pin_read, pin_write, advance, ha, List.append_assoc, Nat.add_assoc]

/-- On a bus that gives the samples of a byte timed within the budget,
`receive_byte` returns, for every fuel, the byte of the eight DATA levels in
the world `after_byte`. -/
theorem receive_byte_run (fuel : Nat) (t : ByteTiming) (w : World) (hb : in_budget t)
    (hr : reads (byte_samples t) w) :
    receive_byte fuel w = some (byte_value t, after_byte t w) := by
  obtain ⟨hk0, hn, hlevel, hk1, hlen, hcyc⟩ := hb
  unfold byte_samples at hr
  have h1 : reads (wait_samples false t.k0) { w with m_state := noFlags } :=
    reads_append_right [] _ w _
      (reads_append_left _ _ w (reads_append_left _ _ w (reads_append_left _ _ w hr))) rfl rfl
  unfold receive_byte
  simp only
  rw [timeout_wait_run fuel PIN_CLK false t.k0 _ hk0 h1]
  simp only
  have h2 : reads (eoi_samples t.n t.level t.k1)
      (pin_write PIN_DATA false
        (advance (t.k0 + 1) (wait_events PIN_CLK false t.k0) { w with m_state := noFlags })) :=
    reads_append_right _ _ w _ (reads_append_left _ _ w (reads_append_left _ _ w hr)) rfl
      (by simp [pin_write, advance, length_wait_samples])
  unfold eoi_samples at h2
  have hhigh := reads_replicate true t.n _
    (reads_append_left _ _ _ (reads_append_left _ _ _ h2))
  have hlev := reads_get _ _ (reads_append_left _ _ _ h2) t.n t.level
    (by rw [List.getElem?_append_right (by simp)]; simp)
  by_cases hn20 : t.n = 20
  · -- CLOCK stays released for 20 polls: EOI
    rw [hn20] at hhigh hlev
    have hp := eoi_poll_full 20 21 0 _ (by omega) (by omega) hhigh
    rw [hp, hlev]
    have hthr : (20 : Nat) ≥ TIMING_EOI_THRESH := by simp [TIMING_EOI_THRESH]
    simp only [hthr, if_true]
    simp only [hn20, if_true] at h2
    have h3 : reads (wait_samples true t.k1)
        (pin_write PIN_DATA false (sleep_us TIMING_BIT (pin_write PIN_DATA true
          { (advance (20 + 1) (poll_events PIN_CLK true 10 20 ++ [Event.read PIN_CLK t.level])
              (pin_write PIN_DATA false (advance (t.k0 + 1) (wait_events PIN_CLK false t.k0)
                { w with m_state := noFlags }))) with
            m_state := (advance (20 + 1) (poll_events PIN_CLK true 10 20 ++
              [Event.read PIN_CLK t.level])
              (pin_write PIN_DATA false (advance (t.k0 + 1) (wait_events PIN_CLK false t.k0)
                { w with m_state := noFlags }))).m_state ||| eoiFlag }))) :=
      reads_append_right _ _ _ _ h2 rfl (by simp [pin_write, sleep_us, advance])
    rw [timeout_wait_run fuel PIN_CLK true t.k1 _ hk1 h3]
    simp only
    have h4 : reads ([t.atn] ++ cycles_samples t.cycles)
        (advance (t.k1 + 1) (wait_events PIN_CLK true t.k1)
        (pin_write PIN_DATA false (sleep_us TIMING_BIT (pin_write PIN_DATA true
          { (advance (20 + 1) (poll_events PIN_CLK true 10 20 ++ [Event.read PIN_CLK t.level])
              (pin_write PIN_DATA false (advance (t.k0 + 1) (wait_events PIN_CLK false t.k0)
                { w with m_state := noFlags }))) with
            m_state := (advance (20 + 1) (poll_events PIN_CLK true 10 20 ++
              [Event.read PIN_CLK t.level])
              (pin_write PIN_DATA false (advance (t.k0 + 1) (wait_events PIN_CLK false t.k0)
                { w with m_state := noFlags }))).m_state ||| eoiFlag })))) := by
      rw [List.append_assoc] at hr
      refine reads_append_right _ _ w _ hr rfl ?_
      simp [pin_write, sleep_us, advance, length_wait_samples, eoi_samples, hn20]
      omega
    rw [receive_tail_run fuel t.atn t.cycles _ hlen hcyc h4]
    simp only [byte_value, after_byte, byte_samples, byte_events, byte_flags, eoi_samples,
      eoi_events, hn20, if_true, Option.some.injEq, Prod.mk.injEq, true_and]
    cases t.atn <;>
      simp [pin_write, sleep_us, advance, length_wait_samples, List.append_assoc, Nat.add_assoc,
        noFlags] <;> omega
  · -- CLOCK is asserted at poll n < 20: no EOI
    have hlt : t.n < 20 := by omega
    rw [hlevel hlt] at hlev
    have hp := eoi_poll_low t.n 21 0 _ (by omega) (by omega) hhigh hlev
    rw [hp]
    have hthr : ¬ (0 + t.n ≥ TIMING_EOI_THRESH) := by simp [TIMING_EOI_THRESH]; omega
    simp only [hthr, if_false]
    have h4 : reads ([t.atn] ++ cycles_samples t.cycles)
        (advance (t.n + 1) (poll_events PIN_CLK true 10 t.n ++ [Event.read PIN_CLK false])
          (pin_write PIN_DATA false
            (advance (t.k0 + 1) (wait_events PIN_CLK false t.k0) { w with m_state := noFlags }))) := by
      rw [List.append_assoc] at hr
      refine reads_append_right _ _ w _ hr rfl ?_
      simp [pin_write, advance, length_wait_samples, eoi_samples, hn20]
      omega
    rw [receive_tail_run fuel t.atn t.cycles _ hlen hcyc h4]
    simp only [byte_value, after_byte, byte_samples, byte_events, byte_flags, eoi_samples,
      eoi_events, hn20, if_false, hlevel hlt, Option.some.injEq, Prod.mk.injEq, true_and]
    cases t.atn <;>
      simp [pin_write, advance, length_wait_samples, List.append_assoc, Nat.add_assoc,
        noFlags] <;> omega

/-- A `receive_byte` that returns without the error flag has gone through
exactly eight bit cycles, each a wait for CLOCK released, one sample of DATA and
a wait for CLOCK asserted; no other sample of DATA is taken; bit `k` of the
returned byte is 1 exactly when the `k`-th sample read released; the last thing
it does is assert DATA.  The result is the same for every fuel. -/
theorem eight_cycles_of_return (fuel : Nat) (w : World) (b : Nat) (w1 : World)
    (h : receive_byte fuel w = some (b, w1)) (hok : w1.m_state &&& errorFlag = 0) :
    ∃ (pre : List Event) (cycles : List (Nat × Bool × Nat)),
      cycles.length = 8 ∧
      new_events w w1 = pre ++ cycles_events cycles ++ [Event.write PIN_DATA true] ∧
      pre.countP (is_read PIN_DATA) = 0 ∧
      (new_events w w1).countP (is_read PIN_DATA) = 8 ∧
      (∀ k, k < 8 → (b.testBit k = true ↔ (cycle_levels cycles)[k]? = some true)) ∧
      b < 256 ∧
      ∀ f, receive_byte f w = some (b, w1) := by
  rcases receive_byte_cases fuel w b w1 h with ⟨-, hm⟩ | ⟨k0, n, k1, cycles, -, -, -, -, -, -, hlen, hb,
      ⟨atn, htr, -⟩, -, hf⟩
  · rw [hm] at hok
    exact absurd hok errorFlag_and_self
  · have hpre : (wait_events PIN_CLK false k0 ++ [Event.write PIN_DATA false] ++
        eoi_events n (w.inp (w.pos + (k0 + 1) + n)) k1 ++
        [Event.read PIN_ATTN atn]).countP (is_read PIN_DATA) = 0 := by
      simp [count_data_wait_events, count_data_eoi_events, is_read]
    refine ⟨_, cycles, hlen, htr, hpre, ?_, ?_, ?_, hf⟩
    · rw [htr, List.countP_append, List.countP_append, hpre, count_data_cycles_events, hlen]
      simp [is_read]
    · obtain ⟨c0, c1, c2, c3, c4, c5, c6, c7, rfl⟩ := eight_elements cycles hlen
      intro k hk
      rw [hb]
      exact shift_in_bits c0.2.1 c1.2.1 c2.2.1 c3.2.1 c4.2.1 c5.2.1 c6.2.1 c7.2.1 k hk
    · obtain ⟨c0, c1, c2, c3, c4, c5, c6, c7, rfl⟩ := eight_elements cycles hlen
      rw [hb]
      exact shift_in_lt _ _

/-- Let the first wait of `receive_byte` end at its `k0+1`-th sample, so
that DATA is released right after it, and let the call return without the
error flag.  If the next 20 samples (all of CLOCK) read released, the EOI flag
is set on return and the DATA writes of the call are release, assert, release,
assert: one pulse, issued before any sample of DATA, and the final byte
acknowledgment.  If one of these 20 samples reads asserted, the EOI flag is
clear and the DATA writes are the release and the final acknowledgment only. -/
theorem eoi_flag_of_return (fuel : Nat) (w : World) (b : Nat) (w1 : World) (k0 : Nat)
    (hlow : ∀ j, j < k0 → w.inp (w.pos + j) = false) (hhit : w.inp (w.pos + k0) = true)
    (h : receive_byte fuel w = some (b, w1)) (hok : w1.m_state &&& errorFlag = 0) :
    ((∀ j, j < TIMING_EOI_THRESH → w.inp (w.pos + (k0 + 1) + j) = true) →
      w1.m_state &&& eoiFlag ≠ 0 ∧
      data_writes (new_events w w1) = [false, true, false, true] ∧
      pulses (data_writes (new_events w w1)) = 1 ∧
      ∃ (level : Bool) (post : List Event),
        new_events w w1 =
          wait_events PIN_CLK false k0 ++ [Event.write PIN_DATA false] ++
            poll_events PIN_CLK true 10 20 ++ [Event.read PIN_CLK level] ++
            [Event.write PIN_DATA true, Event.sleep TIMING_BIT, Event.write PIN_DATA false] ++
            post ∧
        post.countP (is_read PIN_DATA) = 8) ∧
    ((∃ j, j < TIMING_EOI_THRESH ∧ w.inp (w.pos + (k0 + 1) + j) = false) →
      w1.m_state &&& eoiFlag = 0 ∧
      data_writes (new_events w w1) = [false, true] ∧
      pulses (data_writes (new_events w w1)) = 0) := by
  rcases receive_byte_cases fuel w b w1 h with ⟨-, hm⟩ | ⟨k, n, k1, cycles, -, hlow1, hhit1, hn, hhigh,
      hfall, hlen, -, ⟨atn, htr, hm⟩, -, -⟩
  · rw [hm] at hok
    exact absurd hok errorFlag_and_self
  · have hk : k0 = k :=
      first_hit_unique w false k0 k hlow (by simpa using hhit) hlow1 (by simpa using hhit1)
    subst hk
    have hdw : ∀ l : List Event, (∀ e, e ∈ l → is_write e = false) → data_writes l = [] :=
      data_writes_of_no_write
    constructor
    · intro hall
      have hn20 : n = 20 := by
        by_contra hne
        have hlt : n < 20 := by omega
        have := hall n (by simpa [TIMING_EOI_THRESH] using hlt)
        rw [hfall hlt] at this
        cases this
      subst hn20
      have hw : data_writes (new_events w w1) = [false, true, false, true] := by
        rw [htr]
        simp only [eoi_events, if_true, data_writes_append,
          hdw _ (no_write_wait_events _ _ _), hdw _ (no_write_poll_events _ _ _ _),
          hdw _ (no_write_cycles_events _)]
        rfl
      refine ⟨?_, hw, by rw [hw]; rfl, w.inp (w.pos + (k0 + 1) + 20),
        wait_events PIN_CLK true k1 ++ [Event.read PIN_ATTN atn] ++ cycles_events cycles ++
          [Event.write PIN_DATA true], ?_, ?_⟩
      · rw [hm]
        cases atn <;> decide
      · rw [htr]
        simp [eoi_events, List.append_assoc]
      · simp [count_data_wait_events, count_data_cycles_events, is_read, hlen]
    · rintro ⟨j, hj, hjlow⟩
      have hn20 : n < 20 := by
        by_contra hge
        have hjn : j < n := by simp [TIMING_EOI_THRESH] at hj; omega
        rw [hhigh j hjn] at hjlow
        cases hjlow
      have hne : ¬ n = 20 := by omega
      have hw : data_writes (new_events w w1) = [false, true] := by
        rw [htr]
        simp only [eoi_events, hne, if_false, data_writes_append,
          hdw _ (no_write_wait_events _ _ _), hdw _ (no_write_poll_events _ _ _ _),
          hdw _ (no_write_cycles_events _)]
        rfl
      refine ⟨?_, hw, by rw [hw]; rfl⟩
      rw [hm]
      simp only [hne, if_false]
      cases atn <;> decide

theorem byte_flags_ok (t : ByteTiming) : byte_flags t &&& errorFlag = 0 := by
  unfold byte_flags
  by_cases hn : t.n = 20 <;> cases t.atn <;> simp [hn] <;> decide

theorem new_events_after_byte (t : ByteTiming) (w : World) :
    new_events w (after_byte t w) = byte_events t := by
  simp [new_events, after_byte]

/-- C7: on a bus that gives the samples of a byte timed by `t`, every wait
ending within the budget, `receive_byte` returns for every fuel, without the
error flag.  What it did before returning is: the events up to the ATN sample,
none of them a sample of DATA; the eight bit cycles of `t`, each a wait for
CLOCK released, one sample of DATA and a wait for CLOCK asserted; the assert
of DATA.  DATA is sampled 8 times in all, and bit `k` of the returned byte is
1 exactly when the `k`-th of these samples read released. -/
theorem receive_byte_eight_cycles (t : ByteTiming) (w : World) (hb : in_budget t)
    (hr : reads (byte_samples t) w) :
    (∀ fuel, receive_byte fuel w = some (byte_value t, after_byte t w)) ∧
    (after_byte t w).m_state &&& errorFlag = 0 ∧
    t.cycles.length = 8 ∧
    new_events w (after_byte t w) =
      (wait_events PIN_CLK false t.k0 ++ [Event.write PIN_DATA false] ++
        eoi_events t.n t.level t.k1 ++ [Event.read PIN_ATTN t.atn]) ++
        cycles_events t.cycles ++ [Event.write PIN_DATA true] ∧
    (wait_events PIN_CLK false t.k0 ++ [Event.write PIN_DATA false] ++
      eoi_events t.n t.level t.k1 ++ [Event.read PIN_ATTN t.atn]).countP (is_read PIN_DATA) = 0 ∧
    (new_events w (after_byte t w)).countP (is_read PIN_DATA) = 8 ∧
    (∀ k, k < 8 → ((byte_value t).testBit k = true ↔ (cycle_levels t.cycles)[k]? = some true)) ∧
    byte_value t < 256 := by
  have hlen : t.cycles.length = 8 := hb.2.2.2.2.1
  have hpre : (wait_events PIN_CLK false t.k0 ++ [Event.write PIN_DATA false] ++
      eoi_events t.n t.level t.k1 ++ [Event.read PIN_ATTN t.atn]).countP (is_read PIN_DATA) = 0 := by
    simp [count_data_wait_events, count_data_eoi_events, is_read]
  refine ⟨fun fuel => receive_byte_run fuel t w hb hr, byte_flags_ok t, hlen, ?_, hpre, ?_, ?_, ?_⟩
  · rw [new_events_after_byte]
    simp [byte_events, List.append_assoc]
  · rw [new_events_after_byte]
    unfold byte_events
    rw [List.countP_append, List.countP_append, hpre, count_data_cycles_events, hlen]
    simp [is_read]
  · obtain ⟨c0, c1, c2, c3, c4, c5, c6, c7, hc⟩ := eight_elements t.cycles hlen
    intro k hk
    unfold byte_value
    rw [hc]
    exact shift_in_bits c0.2.1 c1.2.1 c2.2.1 c3.2.1 c4.2.1 c5.2.1 c6.2.1 c7.2.1 k hk
  · obtain ⟨c0, c1, c2, c3, c4, c5, c6, c7, hc⟩ := eight_elements t.cycles hlen
    unfold byte_value
    rw [hc]
    exact shift_in_lt _ _

/-- C6: on a bus that gives the samples of a byte timed by `t`, every wait
ending within the budget, `receive_byte` returns for every fuel, without the
error flag; DATA is released right after the first wait, which takes `k0 + 1`
samples.  If the next 20 samples (all of CLOCK) read released, the EOI flag is
set on return and the DATA writes of the call are release, assert, release,
assert: one pulse, issued before any sample of DATA, and the final byte
acknowledgment.  If one of these 20 samples reads asserted, the EOI flag is
clear and the DATA writes are the release and the final acknowledgment only. -/
theorem receive_byte_eoi (t : ByteTiming) (w : World) (hb : in_budget t)
    (hr : reads (byte_samples t) w) :
    (∀ fuel, receive_byte fuel w = some (byte_value t, after_byte t w)) ∧
    (after_byte t w).m_state &&& errorFlag = 0 ∧
    ((∀ j, j < TIMING_EOI_THRESH → w.inp (w.pos + (t.k0 + 1) + j) = true) →
      (after_byte t w).m_state &&& eoiFlag ≠ 0 ∧
      data_writes (new_events w (after_byte t w)) = [false, true, false, true] ∧
      pulses (data_writes (new_events w (after_byte t w))) = 1 ∧
      ∃ (level : Bool) (post : List Event),
        new_events w (after_byte t w) =
          wait_events PIN_CLK false t.k0 ++ [Event.write PIN_DATA false] ++
            poll_events PIN_CLK true 10 20 ++ [Event.read PIN_CLK level] ++
            [Event.write PIN_DATA true, Event.sleep TIMING_BIT, Event.write PIN_DATA false] ++
            post ∧
        post.countP (is_read PIN_DATA) = 8) ∧
    ((∃ j, j < TIMING_EOI_THRESH ∧ w.inp (w.pos + (t.k0 + 1) + j) = false) →
      (after_byte t w).m_state &&& eoiFlag = 0 ∧
      data_writes (new_events w (after_byte t w)) = [false, true] ∧
      pulses (data_writes (new_events w (after_byte t w))) = 0) := by
  have h0 : reads (wait_samples false t.k0) w := by
    unfold byte_samples at hr
    exact reads_append_left _ _ w (reads_append_left _ _ w (reads_append_left _ _ w hr))
  have hw := reads_wait false t.k0 w h0
  have hret := receive_byte_run 0 t w hb hr
  have hold := eoi_flag_of_return 0 w (byte_value t) (after_byte t w) t.k0 hw.1
    (by simpa using hw.2) hret (byte_flags_ok t)
  exact ⟨fun fuel => receive_byte_run fuel t w hb hr, byte_flags_ok t, hold.1, hold.2⟩

/-- C7 on a bus that sends 0x41 with delays before every change of CLOCK. -/
theorem receive_byte_eight_cycles_witness :
    in_budget slow_timing ∧
    reads (byte_samples slow_timing) (bus_world (byte_samples slow_timing)) ∧
    byte_value slow_timing = 0x41 ∧
    (∀ fuel, receive_byte fuel (bus_world (byte_samples slow_timing)) =
        some (0x41, after_byte slow_timing (bus_world (byte_samples slow_timing)))) ∧
    (new_events (bus_world (byte_samples slow_timing))
      (after_byte slow_timing (bus_world (byte_samples slow_timing)))).countP
        (is_read PIN_DATA) = 8 :=
  ⟨by decide, by decide, by decide,
    (receive_byte_eight_cycles slow_timing (bus_world (byte_samples slow_timing))
      (by decide) (by decide)).1,
    (receive_byte_eight_cycles slow_timing (bus_world (byte_samples slow_timing))
      (by decide) (by decide)).2.2.2.2.2.1⟩

/-- C6 on two buses that send 0x41: one keeps CLOCK released for 21 samples
after DATA is released, the other asserts it at once. -/
theorem receive_byte_eoi_witness :
    (in_budget (eoi_timing true 0x41) ∧
      reads (byte_samples (eoi_timing true 0x41)) (bus_world (host_byte_eoi true 0x41)) ∧
      (∀ fuel, receive_byte fuel (bus_world (host_byte_eoi true 0x41)) =
        some (0x41, after_byte (eoi_timing true 0x41) (bus_world (host_byte_eoi true 0x41)))) ∧
      (after_byte (eoi_timing true 0x41) (bus_world (host_byte_eoi true 0x41))).m_state &&&
        eoiFlag ≠ 0 ∧
      data_writes (new_events (bus_world (host_byte_eoi true 0x41))
        (after_byte (eoi_timing true 0x41) (bus_world (host_byte_eoi true 0x41)))) =
          [false, true, false, true] ∧
      pulses (data_writes (new_events (bus_world (host_byte_eoi true 0x41))
        (after_byte (eoi_timing true 0x41) (bus_world (host_byte_eoi true 0x41))))) = 1) ∧
    (in_budget (prompt_timing true 0x41) ∧
      reads (byte_samples (prompt_timing true 0x41)) (bus_world (host_byte true 0x41)) ∧
      (∀ fuel, receive_byte fuel (bus_world (host_byte true 0x41)) =
        some (0x41, after_byte (prompt_timing true 0x41) (bus_world (host_byte true 0x41)))) ∧
      (after_byte (prompt_timing true 0x41) (bus_world (host_byte true 0x41))).m_state &&&
        eoiFlag = 0 ∧
      data_writes (new_events (bus_world (host_byte true 0x41))
        (after_byte (prompt_timing true 0x41) (bus_world (host_byte true 0x41)))) =
          [false, true] ∧
      pulses (data_writes (new_events (bus_world (host_byte true 0x41))
        (after_byte (prompt_timing true 0x41) (bus_world (host_byte true 0x41))))) = 0) := by
  have r := receive_byte_eoi (eoi_timing true 0x41) (bus_world (host_byte_eoi true 0x41))
    (by decide) (by decide)
  have r1 := r.2.2.1
    (by intro j hj; simp only [TIMING_EOI_THRESH] at hj; interval_cases j <;> rfl)
  have q := receive_byte_eoi (prompt_timing true 0x41) (bus_world (host_byte true 0x41))
    (by decide) (by decide)
  have q1 := q.2.2.2 ⟨0, by decide, rfl⟩
  exact ⟨⟨by decide, by decide, r.1, r1.1, r1.2.1, r1.2.2.1⟩,
    ⟨by decide, by decide, q.1, q1.1, q1.2.1, q1.2.2⟩⟩

/-! ## Every return without the error flag is a byte timed within the budget -/

theorem reads_append (l1 l2 : List Bool) (w w1 : World) (h1 : reads l1 w) (h2 : reads l2 w1)
    (hinp : w1.inp = w.inp) (hpos : w1.pos = w.pos + l1.length) : reads (l1 ++ l2) w := by
  intro j hj
  by_cases hlt : j < l1.length
  · rw [List.getElem?_append_left hlt]
    exact h1 j hlt
  · rw [List.getElem?_append_right (by omega)]
    have := h2 (j - l1.length) (by rw [List.length_append] at hj; omega)
    rw [this, hinp, hpos]
    congr 2
    omega

theorem reads_wait_of (wh : Bool) (k : Nat) (w : World)
    (h : ∀ j, j < k → w.inp (w.pos + j) = wh) (hit : w.inp (w.pos + k) = (!wh)) :
    reads (wait_samples wh k) w := by
  intro j hj
  rw [length_wait_samples] at hj
  unfold wait_samples
  by_cases hlt : j < k
  · rw [List.getElem?_append_left (by simpa using hlt), h j hlt]
    simp [hlt]
  · have hjk : j = k := by omega
    subst hjk
    rw [List.getElem?_append_right (by simp), hit]
    simp

theorem reads_replicate_of (v : Bool) (k : Nat) (w : World)
    (h : ∀ j, j < k → w.inp (w.pos + j) = v) : reads (List.replicate k v) w := by
  intro j hj
  have hlt : j < k := by simpa using hj
  rw [h j hlt]
  simp [hlt]

theorem reads_one (w : World) : reads [w.inp w.pos] w := by
  intro j hj
  have : j = 0 := by simpa using hj
  subst this
  rfl

/-- A bit loop that completes went through cycles timed within the budget. -/
theorem receive_bits_timing (fuel : Nat) :
    ∀ (n data : Nat) (w : World) (d : Nat) (w1 : World),
      receive_bits fuel n data w = some (some d, w1) →
      ∃ cycles : List (Nat × Bool × Nat), cycles.length = n ∧
        (∀ c, c ∈ cycles → c.1 < TIMING_TIMEOUT ∧ c.2.2 < TIMING_TIMEOUT) ∧
        reads (cycles_samples cycles) w := by
  intro n
  induction n with
  | zero =>
    intro data w d w1 _
    exact ⟨[], rfl, by simp, by intro j hj; simp [cycles_samples] at hj⟩
  | succ n ih =>
    intro data w d w1 h
    rw [receive_bits] at h
    rcases timeout_wait_cases fuel PIN_CLK false w with ⟨k, hk, hlow, hhit, hw⟩ | ⟨-, hto⟩
    · rw [hw fuel] at h
      simp only at h
      rcases timeout_wait_cases fuel PIN_CLK true
          (pin_read PIN_DATA (advance (k + 1) (wait_events PIN_CLK false k) w)).2 with
        ⟨j, hj, hlow2, hhit2, hw2⟩ | ⟨-, hto2⟩
      · rw [hw2 fuel] at h
        simp only at h
        obtain ⟨cycles, hlen, hbud, hrd⟩ := ih _ _ _ _ h
        refine ⟨(k, w.inp (w.pos + (k + 1)), j) :: cycles, by simp [hlen], ?_, ?_⟩
        · intro c hc
          rcases List.mem_cons.1 hc with rfl | hc
          · exact ⟨hk, hj⟩
          · exact hbud c hc
        · simp only [cycles_samples, cycle_samples]
          refine reads_append _ _ w _ ?_ hrd rfl
            (by simp [advance, pin_read, length_wait_samples]; omega)
          refine reads_append _ _ w _ ?_ (reads_wait_of true j _ hlow2 hhit2) rfl
            (by simp [advance, pin_read, length_wait_samples]; omega)
          refine reads_append _ _ w (advance (k + 1) (wait_events PIN_CLK false k) w)
            (reads_wait_of false k w hlow hhit) ?_ rfl (by simp [advance, length_wait_samples])
          exact reads_one (advance (k + 1) (wait_events PIN_CLK false k) w)
      · cases hx : timeout_wait fuel PIN_CLK true
            (pin_read PIN_DATA (advance (k + 1) (wait_events PIN_CLK false k) w)).2 with
        | none => rw [hx] at h; cases h
        | some p =>
          obtain ⟨r2, w2⟩ := p
          obtain ⟨hr2, -⟩ := hto2 r2 w2 hx
          subst hr2
          rw [hx] at h
          cases h
    · cases hx : timeout_wait fuel PIN_CLK false w with
      | none => rw [hx] at h; cases h
      | some p =>
        obtain ⟨r2, w2⟩ := p
        obtain ⟨hr2, -⟩ := hto r2 w2 hx
        subst hr2
        rw [hx] at h
        cases h

theorem receive_tail_timing (fuel : Nat) (w : World) (b : Nat) (w1 : World)
    (h : receive_tail fuel w = some (b, w1)) (hok : w1.m_state &&& errorFlag = 0) :
    ∃ cycles : List (Nat × Bool × Nat), cycles.length = 8 ∧
      (∀ c, c ∈ cycles → c.1 < TIMING_TIMEOUT ∧ c.2.2 < TIMING_TIMEOUT) ∧
      reads ([w.inp w.pos] ++ cycles_samples cycles) w := by
  unfold receive_tail at h
  simp only at h
  cases hb : receive_bits fuel 8 0
      (if (pin_read PIN_ATTN w).1 = false then
        { (pin_read PIN_ATTN w).2 with m_state := (pin_read PIN_ATTN w).2.m_state ||| atnFlag }
       else (pin_read PIN_ATTN w).2) with
  | none => rw [hb] at h; cases h
  | some p =>
    obtain ⟨r, w2⟩ := p
    rw [hb] at h
    cases r with
    | none =>
      simp only [Option.some.injEq, Prod.mk.injEq] at h
      obtain ⟨-, rfl⟩ := h
      rcases receive_bits_cases fuel _ _ _ _ _ hb with ⟨-, hm⟩ | ⟨cycles, -, hr, -⟩
      · rw [hm] at hok
        exact absurd hok errorFlag_and_self
      · cases hr
    | some d =>
      obtain ⟨cycles, hlen, hbud, hrd⟩ := receive_bits_timing fuel _ _ _ _ _ hb
      refine ⟨cycles, hlen, hbud, reads_append _ _ w _ (reads_one w) hrd ?_ ?_⟩
      · split <;> rfl
      · split <;> rfl

/-- A `receive_byte` that returns without the error flag has met a byte timed
within the budget: the bus gave the samples of some timing `t`, and the result
is the byte and the world of `t`. -/
theorem receive_byte_timing (fuel : Nat) (w : World) (b : Nat) (w1 : World)
    (h : receive_byte fuel w = some (b, w1)) (hok : w1.m_state &&& errorFlag = 0) :
    ∃ t : ByteTiming, in_budget t ∧ reads (byte_samples t) w ∧ b = byte_value t ∧
      w1 = after_byte t w := by
  suffices hex : ∃ t : ByteTiming, in_budget t ∧ reads (byte_samples t) w by
    obtain ⟨t, hb, hr⟩ := hex
    have := receive_byte_run fuel t w hb hr
    rw [h] at this
    simp only [Option.some.injEq, Prod.mk.injEq] at this
    exact ⟨t, hb, hr, this.1, this.2⟩
  unfold receive_byte at h
  simp only at h
  rcases timeout_wait_cases fuel PIN_CLK false { w with m_state := noFlags } with
    ⟨k0, hk0, hlow, hhit, hw0⟩ | ⟨-, hto⟩
  · rw [hw0 fuel] at h
    simp only at h
    have hA : reads (wait_samples false k0) w :=
      reads_append_right [] _ { w with m_state := noFlags } w
        (reads_wait_of false k0 _ hlow hhit) rfl rfl
    generalize hwA : pin_write PIN_DATA false
      (advance (k0 + 1) (wait_events PIN_CLK false k0) { w with m_state := noFlags }) = wA at h
    have hinpA : wA.inp = w.inp := by rw [← hwA]; rfl
    have hposA : wA.pos = w.pos + (wait_samples false k0).length := by
      rw [← hwA, length_wait_samples]; rfl
    rcases first_hit wA true 20 with ⟨n, hn, hhigh, hfall⟩ | hhigh
    · -- CLOCK goes low at sample n < 20: no EOI
      have hp := eoi_poll_low n 21 0 wA (by omega) (by omega) hhigh (by simpa using hfall)
      rw [hp] at h
      have hthr : ¬ (0 + n ≥ TIMING_EOI_THRESH) := by simp [TIMING_EOI_THRESH]; omega
      simp only [hthr, if_false] at h
      generalize hwB : advance (n + 1)
        (poll_events PIN_CLK true 10 n ++ [Event.read PIN_CLK false]) wA = wB at h
      have hinpB : wB.inp = wA.inp := by rw [← hwB]; rfl
      have hposB : wB.pos = wA.pos + (n + 1) := by rw [← hwB]; rfl
      obtain ⟨cycles, hlen, hbud, hrd⟩ := receive_tail_timing fuel wB b w1 h hok
      have hne : ¬ n = 20 := by omega
      have hE : reads (eoi_samples n false 0) wA := by
        unfold eoi_samples
        simp only [hne, if_false, List.append_nil]
        refine reads_append _ _ wA (advance n [] wA) (reads_replicate_of true n wA hhigh) ?_ rfl
          (by simp [advance])
        have := reads_one (advance n [] wA)
        have hf : wA.inp (wA.pos + n) = false := by simpa using hfall
        simpa [advance, hf] using this
      refine ⟨ByteTiming.mk k0 n false 0 (wB.inp wB.pos) cycles, ?_, ?_⟩
      · exact ⟨hk0, Nat.le_of_lt hn, fun _ => rfl, (by decide : 0 < TIMING_TIMEOUT), hlen, hbud⟩
      · show reads (wait_samples false k0 ++ eoi_samples n false 0 ++ [wB.inp wB.pos] ++
          cycles_samples cycles) w
        rw [List.append_assoc]
        refine reads_append _ _ w wB (reads_append _ _ w wA hA hE hinpA hposA) hrd
          (by rw [hinpB, hinpA]) ?_
        rw [hposB, hposA, List.length_append]
        simp [eoi_samples, hne, Nat.add_assoc]
    · -- CLOCK stays released for 20 samples: EOI
      have hp := eoi_poll_full 20 21 0 wA (by omega) (by omega) hhigh
      rw [hp] at h
      have hthr : (20 : Nat) ≥ TIMING_EOI_THRESH := by simp [TIMING_EOI_THRESH]
      simp only [hthr, if_true] at h
      generalize hwC : pin_write PIN_DATA false (sleep_us TIMING_BIT (pin_write PIN_DATA true
          { (advance (20 + 1) (poll_events PIN_CLK true 10 20 ++
              [Event.read PIN_CLK (wA.inp (wA.pos + 20))]) wA) with
            m_state := (advance (20 + 1) (poll_events PIN_CLK true 10 20 ++
              [Event.read PIN_CLK (wA.inp (wA.pos + 20))]) wA).m_state ||| eoiFlag })) = wC at h
      have hinpC : wC.inp = wA.inp := by rw [← hwC]; rfl
      have hposC : wC.pos = wA.pos + 21 := by rw [← hwC]; rfl
      rcases timeout_wait_cases fuel PIN_CLK true wC with ⟨k1, hk1, hlow1, hhit1, hw1⟩ | ⟨-, hto1⟩
      · rw [hw1 fuel] at h
        simp only at h
        generalize hwB : advance (k1 + 1) (wait_events PIN_CLK true k1) wC = wB at h
        have hinpB : wB.inp = wC.inp := by rw [← hwB]; rfl
        have hposB : wB.pos = wC.pos + (k1 + 1) := by rw [← hwB]; rfl
        obtain ⟨cycles, hlen, hbud, hrd⟩ := receive_tail_timing fuel wB b w1 h hok
        have hE : reads (eoi_samples 20 (wA.inp (wA.pos + 20)) k1) wA := by
          unfold eoi_samples
          simp only [if_true]
          refine reads_append _ _ wA wC ?_ (reads_wait_of true k1 wC hlow1 hhit1) hinpC
            (by rw [hposC]; simp)
          refine reads_append _ _ wA (advance 20 [] wA) (reads_replicate_of true 20 wA hhigh) ?_ rfl
            (by simp [advance])
          have := reads_one (advance 20 [] wA)
          simpa [advance] using this
        refine ⟨ByteTiming.mk k0 20 (wA.inp (wA.pos + 20)) k1 (wB.inp wB.pos) cycles, ?_, ?_⟩
        · exact ⟨hk0, Nat.le_refl 20, fun hlt => absurd hlt (Nat.lt_irrefl 20), hk1, hlen, hbud⟩
        · show reads (wait_samples false k0 ++ eoi_samples 20 (wA.inp (wA.pos + 20)) k1 ++
            [wB.inp wB.pos] ++ cycles_samples cycles) w
          rw [List.append_assoc]
          refine reads_append _ _ w wB (reads_append _ _ w wA hA hE hinpA hposA) hrd
            (by rw [hinpB, hinpC, hinpA]) ?_
          rw [hposB, hposC, hposA, List.length_append]
          simp [eoi_samples, length_wait_samples, Nat.add_assoc]
          omega
      · cases hx : timeout_wait fuel PIN_CLK true wC with
        | none => rw [hx] at h; cases h
        | some p =>
          obtain ⟨r2, w2⟩ := p
          obtain ⟨hr2, hm2⟩ := hto1 r2 w2 hx
          subst hr2
          rw [hx] at h
          simp only [Option.some.injEq, Prod.mk.injEq] at h
          obtain ⟨-, rfl⟩ := h
          rw [hm2] at hok
          exact absurd hok errorFlag_and_self
  · cases hx : timeout_wait fuel PIN_CLK false { w with m_state := noFlags } with
    | none => rw [hx] at h; cases h
    | some p =>
      obtain ⟨r2, w2⟩ := p
      obtain ⟨hr2, hm2⟩ := hto r2 w2 hx
      subst hr2
      rw [hx] at h
      simp only [Option.some.injEq, Prod.mk.injEq] at h
      obtain ⟨-, rfl⟩ := h
      rw [hm2] at hok
      exact absurd hok errorFlag_and_self

/-! ## send_byte -/

theorem send_bits_eq : ∀ (n data : Nat) (w : World),
    send_bits n data w = advance 0 (bit_events n data) w := by
  intro n
  induction n with
  | zero => intro data w; simp [send_bits, bit_events, advance]
  | succ n ih =>
    intro data w
    rw [send_bits, ih]
    simp [advance, pin_write, sleep_us, bit_events, List.append_assoc]

theorem wire_poll_events (level : Bool) (us : Nat) :
    ∀ (k : Nat) (s : Wire), 0 < k →
      (poll_events PIN_DATA level us k).foldl wire_step s = { s with data := false } := by
  intro k
  induction k with
  | zero => intro s hk; omega
  | succ k ih =>
    intro s _
    have hstep : (poll_events PIN_DATA level us (k + 1)).foldl wire_step s =
        (poll_events PIN_DATA level us k).foldl wire_step { s with data := false } := rfl
    rw [hstep]
    rcases Nat.eq_zero_or_pos k with rfl | hk
    · rfl
    · rw [ih _ hk]

theorem wire_wait_events (wh : Bool) (k : Nat) (s : Wire) :
    (wait_events PIN_DATA wh k).foldl wire_step s = { s with data := false } := by
  unfold wait_events
  rw [List.foldl_append]
  rcases Nat.eq_zero_or_pos k with rfl | hk
  · rfl
  · rw [wire_poll_events wh 2 k s hk]
    rfl

set_option maxRecDepth 100000 in
theorem wire_bits : ∀ b, b < 256 →
    ((bit_events 8 b ++ [Event.write PIN_CLK true, Event.write PIN_DATA false,
        Event.sleep TIMING_STABLE_WAIT]).foldl wire_step
          { clk := false, data := false, samples := [] }).samples.foldl shift_in 0 = b ∧
    ((bit_events 8 b ++ [Event.write PIN_CLK true, Event.write PIN_DATA false,
        Event.sleep TIMING_STABLE_WAIT]).foldl wire_step
          { clk := false, data := false, samples := [] }).samples.length = 8 := by
  decide

/-- A `send_byte` without EOI that returns success: the three waits on DATA
ended within their budgets, and the pin operations are the handshake, the
eight bit cells and the final release. -/
theorem send_byte_cases (fuel b : Nat) (w w1 : World)
    (h : send_byte fuel b false w = some (true, w1)) :
    ∃ k1 k2 k3 : Nat,
      new_events w w1 =
        wait_events PIN_DATA true k1 ++ [Event.write PIN_CLK false] ++
          wait_events PIN_DATA false k2 ++ [Event.sleep TIMING_NO_EOI] ++
          (bit_events 8 b ++ [Event.write PIN_CLK true, Event.write PIN_DATA false,
            Event.sleep TIMING_STABLE_WAIT]) ++
          wait_events PIN_DATA true k3 ∧
      ∀ f, send_byte f b false w = some (true, w1) := by
  unfold send_byte at h
  rcases timeout_wait_cases fuel PIN_DATA true w with ⟨k1, -, -, -, hw1⟩ | ⟨-, hto⟩
  · rw [hw1 fuel] at h
    simp only at h
    rcases timeout_wait_cases fuel PIN_DATA false
        (pin_write PIN_CLK false (advance (k1 + 1) (wait_events PIN_DATA true k1) w)) with
      ⟨k2, -, -, -, hw2⟩ | ⟨-, hto⟩
    · rw [hw2 fuel] at h
      simp only [Bool.false_eq_true, if_false] at h
      unfold send_tail at h
      simp only [send_bits_eq] at h
      rcases timeout_wait_cases fuel PIN_DATA true
          (sleep_us TIMING_STABLE_WAIT (pin_write PIN_DATA false (pin_write PIN_CLK true
            (advance 0 (bit_events 8 b) (sleep_us TIMING_NO_EOI
              (advance (k2 + 1) (wait_events PIN_DATA false k2)
                (pin_write PIN_CLK false
                  (advance (k1 + 1) (wait_events PIN_DATA true k1) w)))))))) with
        ⟨k3, -, -, -, hw3⟩ | ⟨-, hto⟩
      · rw [hw3 fuel] at h
        simp only [Option.some.injEq, Prod.mk.injEq, true_and] at h
        subst h
        refine ⟨k1, k2, k3, ?_, ?_⟩
        · simp [new_events, advance, pin_write, sleep_us, List.append_assoc]
        · intro f
          unfold send_byte
          rw [hw1 f]
          simp only
          rw [hw2 f]
          simp only [Bool.false_eq_true, if_false]
          unfold send_tail
          simp only [send_bits_eq]
          rw [hw3 f]
      · revert h
        generalize timeout_wait fuel PIN_DATA true _ = res at hto ⊢
        intro h
        cases res with
        | none => cases h
        | some p =>
          obtain ⟨r2, w2⟩ := p
          obtain ⟨hr2, -⟩ := hto r2 w2 rfl
          subst hr2
          simp at h
    · revert h
      generalize timeout_wait fuel PIN_DATA false _ = res at hto ⊢
      intro h
      cases res with
      | none => cases h
      | some p =>
        obtain ⟨r2, w2⟩ := p
        obtain ⟨hr2, -⟩ := hto r2 w2 rfl
        subst hr2
        simp at h
  · revert h
    generalize timeout_wait fuel PIN_DATA true w = res at hto ⊢
    intro h
    cases res with
    | none => cases h
    | some p =>
      obtain ⟨r2, w2⟩ := p
      obtain ⟨hr2, -⟩ := hto r2 w2 rfl
      subst hr2
      simp at h

/-- The listener's state after the events of a successful `send_byte`. -/
theorem wire_send_events (b k1 k2 k3 : Nat) :
    (wait_events PIN_DATA true k1 ++ [Event.write PIN_CLK false] ++
        wait_events PIN_DATA false k2 ++ [Event.sleep TIMING_NO_EOI] ++
        (bit_events 8 b ++ [Event.write PIN_CLK true, Event.write PIN_DATA false,
          Event.sleep TIMING_STABLE_WAIT]) ++
        wait_events PIN_DATA true k3).foldl wire_step
          { clk := false, data := false, samples := [] } =
      { ((bit_events 8 b ++ [Event.write PIN_CLK true, Event.write PIN_DATA false,
          Event.sleep TIMING_STABLE_WAIT]).foldl wire_step
            { clk := false, data := false, samples := [] }) with data := false } := by
  simp only [List.foldl_append, wire_wait_events]
  rfl

/-- C1: for every byte `b`, when `send_byte(b, false)` returns success (no
wait timed out), the listener that samples DATA at each release of a CLOCK the
talker was asserting takes exactly eight samples, and shifting them in the way
`receive_byte` does gives `b`.  The result is the same for every fuel. -/
theorem send_byte_round_trip (fuel b : Nat) (w w1 : World) (hb : b < 256)
    (h : send_byte fuel b false w = some (true, w1)) :
    listener_byte (new_events w w1) = b ∧
    (listener_samples (new_events w w1)).length = 8 ∧
    ∀ f, send_byte f b false w = some (true, w1) := by
  obtain ⟨k1, k2, k3, htr, hf⟩ := send_byte_cases fuel b w w1 h
  have hbits := wire_bits b hb
  refine ⟨?_, ?_, hf⟩
  · unfold listener_byte listener_samples
    rw [htr, wire_send_events]
    exact hbits.1
  · unfold listener_samples
    rw [htr, wire_send_events]
    exact hbits.2

/-- C1 for the byte 0xA5 on a bus whose listener answers at once; the world
after the call is spelled out. -/
theorem send_byte_round_trip_witness :
    listener_byte (new_events (bus_world listener_bus)
      (advance 3 (wait_events PIN_DATA true 0 ++ [Event.write PIN_CLK false] ++
          wait_events PIN_DATA false 0 ++ [Event.sleep TIMING_NO_EOI] ++
          (bit_events 8 0xA5 ++ [Event.write PIN_CLK true, Event.write PIN_DATA false,
            Event.sleep TIMING_STABLE_WAIT]) ++
          wait_events PIN_DATA true 0) (bus_world listener_bus))) = 0xA5 :=
  (send_byte_round_trip 3 0xA5 (bus_world listener_bus) _ (by decide) rfl).1

/-! ## check_atn -/

theorem store_all_code : ∀ (cs : List Nat) (i : Nat) (cmd : ATNCmd),
    (store_all i cs cmd).code = cmd.code ∧ (store_all i cs cmd).strLen = cmd.strLen := by
  intro cs
  induction cs with
  | nil => intro i cmd; exact ⟨rfl, rfl⟩
  | cons c cs ih => intro i cmd; rw [store_all]; exact ih (i + 1) (str_store i c cmd)

theorem store_all_outside : ∀ (cs : List Nat) (i : Nat) (cmd : ATNCmd) (k : Nat),
    (k < i ∨ i + cs.length ≤ k) → (store_all i cs cmd).str k = cmd.str k := by
  intro cs
  induction cs with
  | nil => intro i cmd k _; rfl
  | cons c cs ih =>
    intro i cmd k hk
    rw [store_all, ih (i + 1) _ k (by simp only [List.length_cons] at hk; omega)]
    have : k ≠ i := by simp only [List.length_cons] at hk; omega
    simp [str_store, Function.update, this]

theorem store_all_inside : ∀ (cs : List Nat) (i : Nat) (cmd : ATNCmd) (k : Nat)
    (hk : k < cs.length), (store_all i cs cmd).str (i + k) = cs[k] := by
  intro cs
  induction cs with
  | nil => intro i cmd k hk; simp at hk
  | cons c cs ih =>
    intro i cmd k hk
    rw [store_all]
    cases k with
    | zero =>
      have := store_all_outside cs (i + 1) (str_store i c cmd) i (Or.inl (Nat.lt_succ_self i))
      simpa [str_store] using this
    | succ k =>
      have := ih (i + 1) (str_store i c cmd) k (by simpa using hk)
      simpa [Nat.add_assoc, Nat.add_comm 1 k] using this

theorem listen_loop_run (fuel : Nat) :
    ∀ (cs : List Nat) (steps i : Nat) (cmd : ATNCmd) (w w1 : World),
      listen_run fuel cs w = some w1 → i + cs.length ≤ ATN_CMD_MAX_LENGTH →
      listen_loop fuel (cs.length + steps) i cmd w =
        listen_loop fuel steps (i + cs.length) (store_all i cs cmd) w1 := by
  intro cs
  induction cs with
  | nil =>
    intro steps i cmd w w1 h _
    simp only [listen_run, Option.some.injEq] at h
    subst h
    simp [store_all]
  | cons c cs ih =>
    intro steps i cmd w w1 h hlen
    rw [listen_run] at h
    cases hr : receive_byte fuel w with
    | none => rw [hr] at h; cases h
    | some p =>
      obtain ⟨c1, w2⟩ := p
      rw [hr] at h
      simp only at h
      split at h
      · rename_i hcond
        obtain ⟨hc, hok, hterm⟩ := hcond
        subst hc
        simp only [List.length_cons, ATN_CMD_MAX_LENGTH] at hlen
        have hi : ¬ (i ≥ ATN_CMD_MAX_LENGTH) := by simp [ATN_CMD_MAX_LENGTH]; omega
        have hmod : (i + 1) % 256 = i + 1 := Nat.mod_eq_of_lt (by omega)
        have hsteps : (c1 :: cs).length + steps = (cs.length + steps) + 1 := by
          simp only [List.length_cons]; omega
        rw [hsteps, listen_loop, hr]
        simp only
        rw [if_neg (by simpa using hok), if_neg hterm, if_neg hi, hmod,
          ih steps (i + 1) _ w2 w1 h (by simp [ATN_CMD_MAX_LENGTH]; omega)]
        simp [store_all, Nat.add_assoc, Nat.add_comm 1 cs.length]
      · cases h

theorem listen_run_append (fuel : Nat) :
    ∀ (cs ds : List Nat) (w : World),
      listen_run fuel (cs ++ ds) w = (listen_run fuel cs w).bind (listen_run fuel ds) := by
  intro cs
  induction cs with
  | nil => intro ds w; simp [listen_run]
  | cons c cs ih =>
    intro ds w
    simp only [List.cons_append, listen_run]
    cases receive_byte fuel w with
    | none => rfl
    | some p =>
      obtain ⟨c1, w2⟩ := p
      simp only
      split
      · exact ih ds w2
      · rfl

theorem pass_bytes_append : ∀ (ps qs : List (Option Nat)),
    pass_bytes (ps ++ qs) = pass_bytes ps ++ pass_bytes qs := by
  intro ps
  induction ps with
  | nil => intro qs; rfl
  | cons p ps ih =>
    intro qs
    cases p with
    | none => simpa [pass_bytes] using ih qs
    | some c => simpa [pass_bytes] using ih qs

theorem talk_run_append (fuel : Nat) :
    ∀ (ps qs : List (Option Nat)) (w : World),
      talk_run fuel (ps ++ qs) w = (talk_run fuel ps w).bind (talk_run fuel qs) := by
  intro ps
  induction ps with
  | nil => intro qs w; simp [talk_run]
  | cons p ps ih =>
    intro qs w
    simp only [List.cons_append, talk_run]
    split
    · rfl
    · cases p with
      | none =>
        simp only
        split
        · rfl
        · exact ih qs _
      | some c =>
        simp only
        split
        · cases receive_byte fuel (pin_read PIN_CLK (pin_read PIN_ATTN w).2).2 with
          | none => rfl
          | some r =>
            obtain ⟨c1, w2⟩ := r
            simp only
            split
            · exact ih qs w2
            · rfl
        · rfl

theorem talk_loop_run (fuel : Nat) :
    ∀ (ps : List (Option Nat)) (steps i : Nat) (cmd : ATNCmd) (w w1 : World),
      talk_run fuel ps w = some w1 → i + (pass_bytes ps).length ≤ ATN_CMD_MAX_LENGTH →
      talk_loop fuel (ps.length + steps) i cmd w =
        talk_loop fuel steps (i + (pass_bytes ps).length) (store_all i (pass_bytes ps) cmd) w1 := by
  intro ps
  induction ps with
  | nil =>
    intro steps i cmd w w1 h _
    simp only [talk_run, Option.some.injEq] at h
    subst h
    simp [store_all, pass_bytes]
  | cons p ps ih =>
    intro steps i cmd w w1 h hlen
    have hsteps : (p :: ps).length + steps = (ps.length + steps) + 1 := by
      simp only [List.length_cons]; omega
    unfold talk_run at h
    split at h
    · cases h
    · rename_i hatn
      cases p with
      | none =>
        simp only at h
        split at h
        · cases h
        · rename_i hclk
          rw [hsteps, talk_loop]
          simp only [hatn, hclk, if_false, Bool.false_eq_true]
          rw [ih steps i cmd _ w1 h (by simpa [pass_bytes] using hlen)]
          simp [pass_bytes]
      | some c =>
        simp only at h
        split at h
        · rename_i hclk
          cases hr : receive_byte fuel (pin_read PIN_CLK (pin_read PIN_ATTN w).2).2 with
          | none => rw [hr] at h; cases h
          | some r =>
            obtain ⟨c1, w2⟩ := r
            rw [hr] at h
            simp only at h
            split at h
            · rename_i hcond
              obtain ⟨hc, hok⟩ := hcond
              subst hc
              simp only [pass_bytes, List.length_cons, ATN_CMD_MAX_LENGTH] at hlen
              have hi : ¬ (i ≥ ATN_CMD_MAX_LENGTH) := by simp [ATN_CMD_MAX_LENGTH]; omega
              have hmod : (i + 1) % 256 = i + 1 := Nat.mod_eq_of_lt (by omega)
              rw [hsteps, talk_loop]
              simp only [hatn, hclk, if_true, if_false, Bool.false_eq_true, hr]
              rw [if_neg (by simpa using hok), if_neg hi, hmod,
                ih steps (i + 1) _ w2 w1 h (by simp [ATN_CMD_MAX_LENGTH]; omega)]
              simp [store_all, pass_bytes, Nat.add_assoc, Nat.add_comm 1 (pass_bytes ps).length]
            · cases h
        · cases h

/-- The rest of `check_atn` after the address byte LISTEN|device and a secondary byte
`s`, both received without error. -/
theorem check_atn_listen (fuel : Nat) (cmd : ATNCmd) (w wa wb : World) (s : Nat)
    (hatn : w.inp w.pos = false)
    (haddr : receive_byte fuel (atn_entry w) = some (ATN_CODE_LISTEN ||| m_deviceNumber, wa))
    (haok : wa.m_state &&& errorFlag = 0)
    (hsec : receive_byte fuel wa = some (s, wb)) (hsok : wb.m_state &&& errorFlag = 0) :
    check_atn fuel cmd w =
      if s &&& 0xF0 = ATN_CODE_DATA ∧ s &&& 0xF ≠ CMD_CHANNEL then
        atn_exit ATN_CMD_LISTEN 0 { cmd with code := s } wb
      else if s ≠ ATN_CODE_UNLISTEN then
        match listen_loop fuel fuel 0 { cmd with code := s } wb with
        | none => none
        | some (none, cmd2, w3) => some (ATN_ERROR, cmd2, w3)
        | some (some i, cmd2, w3) => atn_exit ATN_CMD i cmd2 w3
      else atn_exit ATN_IDLE 0 { cmd with code := s } wb := by
  have h1 : (pin_read PIN_ATTN w).1 = false := hatn
  unfold check_atn
  rw [if_neg (by simp [h1]), haddr]
  simp only [haok, hsok, hsec, ne_eq, not_true_eq_false, if_true, if_false]

/-- The rest of `check_atn` after the address byte TALK|device and a secondary byte `s`,
both received without error. -/
theorem check_atn_talk (fuel : Nat) (cmd : ATNCmd) (w wa wb : World) (s : Nat)
    (hatn : w.inp w.pos = false)
    (haddr : receive_byte fuel (atn_entry w) = some (ATN_CODE_TALK ||| m_deviceNumber, wa))
    (haok : wa.m_state &&& errorFlag = 0)
    (hsec : receive_byte fuel wa = some (s, wb)) (hsok : wb.m_state &&& errorFlag = 0) :
    check_atn fuel cmd w =
      match talk_loop fuel fuel 0 { cmd with code := s } wb with
      | none => none
      | some (none, cmd2, w3) => some (ATN_ERROR, cmd2, w3)
      | some (some i, cmd2, w3) =>
        match turn_around fuel w3 with
        | none => none
        | some (false, w4) => some (ATN_ERROR, cmd2, w4)
        | some (true, w4) => atn_exit ATN_CMD_TALK i cmd2 w4 := by
  have h1 : (pin_read PIN_ATTN w).1 = false := hatn
  have hne : ¬ (ATN_CODE_TALK ||| m_deviceNumber = ATN_CODE_LISTEN ||| m_deviceNumber) := by decide
  unfold check_atn
  rw [if_neg (by simp [h1]), haddr]
  simp only [haok, hsok, hsec, hne, ne_eq, not_true_eq_false, if_true, if_false]

/-- C2: ATN is asserted at entry, the address byte is LISTEN|device, the
secondary byte `s` addresses the command channel, the bytes of `payload` (at
most 40) follow, none of them an UNLISTEN with the ATN flag, then UNLISTEN
arrives with the ATN flag, all without error.  Then `check_atn` returns
ATN_CMD right after the post-ATN delay, with `strLen` the number of payload
bytes, `str` holding them in order from index 0 (and untouched above), and
`code = s`. -/
theorem check_atn_command (fuel : Nat) (cmd : ATNCmd) (w wa wb wc wd : World) (s : Nat)
    (payload : List Nat)
    (hatn : w.inp w.pos = false)
    (haddr : receive_byte fuel (atn_entry w) = some (ATN_CODE_LISTEN ||| m_deviceNumber, wa))
    (haok : wa.m_state &&& errorFlag = 0)
    (hsec : receive_byte fuel wa = some (s, wb)) (hsok : wb.m_state &&& errorFlag = 0)
    (hchan : addresses_channel s CMD_CHANNEL)
    (hrun : listen_run fuel payload wb = some wc)
    (hlen : payload.length ≤ ATN_CMD_MAX_LENGTH)
    (hunl : receive_byte fuel wc = some (ATN_CODE_UNLISTEN, wd))
    (hdok : wd.m_state &&& errorFlag = 0) (hdatn : wd.m_state &&& atnFlag ≠ 0)
    (hfuel : payload.length < fuel) :
    ∃ cmd1, check_atn fuel cmd w = some (ATN_CMD, cmd1, sleep_us TIMING_ATN_DELAY wd) ∧
      cmd1.strLen = (payload.length : Int) ∧ cmd1.code = s ∧
      (∀ k (hk : k < payload.length), cmd1.str k = payload[k]) ∧
      (∀ k, payload.length ≤ k → cmd1.str k = cmd.str k) := by
  obtain ⟨hhi, hlo⟩ := hchan
  have hnl : ¬ (s &&& 0xF0 = ATN_CODE_DATA ∧ s &&& 0xF ≠ CMD_CHANNEL) := by
    rintro ⟨-, h2⟩; exact h2 hlo
  have hnu : s ≠ ATN_CODE_UNLISTEN := by
    rintro rfl
    revert hhi
    decide
  obtain ⟨m, hm⟩ : ∃ m, fuel = payload.length + (m + 1) := ⟨fuel - payload.length - 1, by omega⟩
  have hloop : listen_loop fuel fuel 0 { cmd with code := s } wb =
      some (some (0 + payload.length), store_all 0 payload { cmd with code := s }, wd) := by
    have hstep := listen_loop_run fuel payload (m + 1) 0 { cmd with code := s } wb wc hrun
      (by omega)
    rw [← hm] at hstep
    rw [hstep, listen_loop, hunl]
    simp only [hdok, hdatn, ne_eq, not_true_eq_false, not_false_eq_true, and_self, if_true,
      if_false]
  rw [check_atn_listen fuel cmd w wa wb s hatn haddr haok hsec hsok, if_neg hnl, if_pos hnu, hloop]
  refine ⟨_, rfl, ?_, ?_, ?_, ?_⟩
  · simp
  · exact (store_all_code payload 0 _).1
  · intro k hk
    have := store_all_inside payload 0 { cmd with code := s } k hk
    simpa using this
  · intro k hk
    have := store_all_outside payload 0 { cmd with code := s } k (Or.inr (by omega))
    simpa using this

/-- C2 on the attention sequence of the spec: payload 0x41, 0x42 gives the
string "AB" of length 2. -/
theorem check_atn_command_witness :
    ∃ cmd1, check_atn 3 cmd_zero command_bus =
        some (ATN_CMD, cmd1, sleep_us TIMING_ATN_DELAY (after_bytes 3 5 (atn_entry command_bus))) ∧
      cmd1.strLen = 2 ∧ cmd1.code = 0x6F ∧ cmd1.str 0 = 0x41 ∧ cmd1.str 1 = 0x42 := by
  obtain ⟨cmd1, h1, h2, h3, h4, -⟩ :=
    check_atn_command 3 cmd_zero command_bus
      (after_bytes 3 1 (atn_entry command_bus)) (after_bytes 3 2 (atn_entry command_bus))
      (after_bytes 3 4 (atn_entry command_bus)) (after_bytes 3 5 (atn_entry command_bus))
      0x6F [0x41, 0x42] rfl rfl rfl rfl rfl (by decide) rfl (by decide) rfl rfl (by decide)
      (by decide)
  exact ⟨cmd1, h1, h2, h3, h4 0 (by decide), h4 1 (by decide)⟩

/-- C3: in the LISTEN branch (secondary byte `s` neither a data channel other
than 15 nor UNLISTEN) and in the TALK branch, once 40 bytes are stored and one
more byte `c` arrives without error (in the LISTEN loop not as the terminating
UNLISTEN), `check_atn` returns ATN_ERROR in the very world in which that
byte was received: no further pin operation, no further byte.  The command
is the one held before that byte arrived: the 40 stored bytes at indexes
0..39, nothing written at an index from 40 on. -/
theorem check_atn_overflow (fuel : Nat) (cmd : ATNCmd) (w wa wb wd : World) (s c : Nat)
    (payload : List Nat)
    (hatn : w.inp w.pos = false)
    (haok : wa.m_state &&& errorFlag = 0)
    (hsec : receive_byte fuel wa = some (s, wb)) (hsok : wb.m_state &&& errorFlag = 0)
    (hlen : payload.length = ATN_CMD_MAX_LENGTH) :
    (receive_byte fuel (atn_entry w) = some (ATN_CODE_LISTEN ||| m_deviceNumber, wa) →
      ¬ (s &&& 0xF0 = ATN_CODE_DATA ∧ s &&& 0xF ≠ CMD_CHANNEL) → s ≠ ATN_CODE_UNLISTEN →
      listen_run fuel (payload ++ [c]) wb = some wd → payload.length < fuel →
      check_atn fuel cmd w =
        some (ATN_ERROR, store_all 0 payload { cmd with code := s }, wd)) ∧
    (∀ passes : List (Option Nat),
      receive_byte fuel (atn_entry w) = some (ATN_CODE_TALK ||| m_deviceNumber, wa) →
      pass_bytes passes = payload →
      talk_run fuel (passes ++ [some c]) wb = some wd → passes.length < fuel →
      check_atn fuel cmd w =
        some (ATN_ERROR, store_all 0 payload { cmd with code := s }, wd)) ∧
    (∀ k (hk : k < payload.length),
      (store_all 0 payload { cmd with code := s }).str k = payload[k]) ∧
    (∀ k, ATN_CMD_MAX_LENGTH ≤ k →
      (store_all 0 payload { cmd with code := s }).str k = cmd.str k) := by
  refine ⟨?_, ?_, ?_, ?_⟩
  · intro haddr hnl hnu hrun hfuel
    rw [listen_run_append] at hrun
    cases hwc : listen_run fuel payload wb with
    | none => rw [hwc] at hrun; cases hrun
    | some wc =>
      rw [hwc] at hrun
      simp only [Option.some_bind, listen_run] at hrun
      cases hr : receive_byte fuel wc with
      | none => rw [hr] at hrun; cases hrun
      | some p =>
        obtain ⟨c1, w2⟩ := p
        rw [hr] at hrun
        simp only at hrun
        split at hrun
        · rename_i hcond
          obtain ⟨-, hok, hterm⟩ := hcond
          simp only [Option.some.injEq] at hrun
          subst hrun
          obtain ⟨m, hm⟩ : ∃ m, fuel = payload.length + (m + 1) :=
            ⟨fuel - payload.length - 1, by omega⟩
          have hstep := listen_loop_run fuel payload (m + 1) 0 { cmd with code := s } wb wc hwc
            (by omega)
          rw [← hm] at hstep
          have hi : 0 + payload.length ≥ ATN_CMD_MAX_LENGTH := by omega
          rw [check_atn_listen fuel cmd w wa wb s hatn haddr haok hsec hsok, if_neg hnl,
            if_pos hnu, hstep, listen_loop, hr]
          simp only
          rw [if_neg (by simpa using hok), if_neg hterm, if_pos hi]
        · cases hrun
  · intro passes haddr hbytes hrun hfuel
    rw [talk_run_append] at hrun
    cases hwc : talk_run fuel passes wb with
    | none => rw [hwc] at hrun; cases hrun
    | some wc =>
      rw [hwc] at hrun
      simp only [Option.some_bind] at hrun
      unfold talk_run at hrun
      split at hrun
      · cases hrun
      · rename_i hatn1
        simp only at hrun
        split at hrun
        · rename_i hclk
          cases hr : receive_byte fuel (pin_read PIN_CLK (pin_read PIN_ATTN wc).2).2 with
          | none => rw [hr] at hrun; cases hrun
          | some p =>
            obtain ⟨c1, w2⟩ := p
            rw [hr] at hrun
            simp only at hrun
            split at hrun
            · rename_i hcond
              obtain ⟨-, hok⟩ := hcond
              simp only [talk_run, Option.some.injEq] at hrun
              subst hrun
              obtain ⟨m, hm⟩ : ∃ m, fuel = passes.length + (m + 1) :=
                ⟨fuel - passes.length - 1, by omega⟩
              have hstep := talk_loop_run fuel passes (m + 1) 0 { cmd with code := s } wb wc hwc
                (by rw [hbytes]; omega)
              rw [← hm, hbytes] at hstep
              have hi : 0 + payload.length ≥ ATN_CMD_MAX_LENGTH := by omega
              rw [check_atn_talk fuel cmd w wa wb s hatn haddr haok hsec hsok, hstep, talk_loop]
              simp only [hatn1, hclk, if_true, if_false, Bool.false_eq_true, hr]
              rw [if_neg (by simpa using hok), if_pos hi]
            · cases hrun
        · cases hrun
  · intro k hk
    have := store_all_inside payload 0 { cmd with code := s } k hk
    simpa using this
  · intro k hk
    exact store_all_outside payload 0 { cmd with code := s } k (Or.inr (by omega))

theorem option_eq_some_getD {α : Type} (o : Option α) (d : α) (h : o.isSome = true) :
    o = some (o.getD d) := by
  cases o with
  | none => cases h
  | some a => rfl

set_option maxRecDepth 1000000 in
set_option maxHeartbeats 4000000 in
/-- C3 on two buses that send 41 bytes, one after LISTEN|8 and the secondary
byte 0xFF, one after TALK|8 and the secondary byte 0x6F. -/
theorem check_atn_overflow_witness :
    check_atn 42 cmd_zero listen_overflow_bus =
        some (ATN_ERROR, store_all 0 (List.replicate 40 0x41) { cmd_zero with code := 0xFF },
          (listen_run 42 (List.replicate 40 0x41 ++ [0x41])
            (after_bytes 42 2 (atn_entry listen_overflow_bus))).getD listen_overflow_bus) ∧
    check_atn 42 cmd_zero talk_overflow_bus =
        some (ATN_ERROR, store_all 0 (List.replicate 40 0x41) { cmd_zero with code := 0x6F },
          (talk_run 42 (List.replicate 40 (some 0x41) ++ [some 0x41])
            (after_bytes 42 2 (atn_entry talk_overflow_bus))).getD talk_overflow_bus) :=
  ⟨(check_atn_overflow 42 cmd_zero listen_overflow_bus
      (after_bytes 42 1 (atn_entry listen_overflow_bus))
      (after_bytes 42 2 (atn_entry listen_overflow_bus))
      ((listen_run 42 (List.replicate 40 0x41 ++ [0x41])
        (after_bytes 42 2 (atn_entry listen_overflow_bus))).getD listen_overflow_bus)
      0xFF 0x41 (List.replicate 40 0x41)
      rfl rfl rfl rfl rfl).1 rfl (by decide) (by decide)
      (option_eq_some_getD _ _ rfl) (by decide),
   (check_atn_overflow 42 cmd_zero talk_overflow_bus
      (after_bytes 42 1 (atn_entry talk_overflow_bus))
      (after_bytes 42 2 (atn_entry talk_overflow_bus))
      ((talk_run 42 (List.replicate 40 (some 0x41) ++ [some 0x41])
        (after_bytes 42 2 (atn_entry talk_overflow_bus))).getD talk_overflow_bus)
      0x6F 0x41 (List.replicate 40 0x41)
      rfl rfl rfl rfl rfl).2.1 (List.replicate 40 (some 0x41)) rfl rfl
      (option_eq_some_getD _ _ rfl) (by decide)⟩

/-- C4: ATN is asserted at entry and the address byte `a`, received without
error, is neither LISTEN|device nor TALK|device; the host releases ATN at the
`k+1`-th sample after it.  Then `check_atn` returns ATN_IDLE with
`strLen = 0` and the rest of the command untouched, and all it does after the
address byte is: delay, release DATA, release CLOCK, sample ATN until it
reads released, delay.  No DATA or CLOCK sample, hence no byte, follows the
address byte. -/
theorem check_atn_other_address (fuel : Nat) (cmd : ATNCmd) (w wa : World) (a k : Nat)
    (hatn : w.inp w.pos = false)
    (haddr : receive_byte fuel (atn_entry w) = some (a, wa))
    (haok : wa.m_state &&& errorFlag = 0)
    (hl : a ≠ ATN_CODE_LISTEN ||| m_deviceNumber) (ht : a ≠ ATN_CODE_TALK ||| m_deviceNumber)
    (hk : k < fuel) (hlow : ∀ j, j < k → wa.inp (wa.pos + j) = false)
    (hrel : wa.inp (wa.pos + k) = true) :
    ∃ w1, check_atn fuel cmd w = some (ATN_IDLE, { cmd with strLen := 0 }, w1) ∧
      new_events wa w1 =
        [Event.sleep TIMING_ATN_DELAY, Event.write PIN_DATA false, Event.write PIN_CLK false] ++
          atn_events k ++ [Event.sleep TIMING_ATN_DELAY] ∧
      w1.pos = wa.pos + (k + 1) ∧
      (∀ e, e ∈ new_events wa w1 → is_read PIN_DATA e = false ∧ is_read PIN_CLK e = false) := by
  have h1 : (pin_read PIN_ATTN w).1 = false := hatn
  have hrun := wait_atn_release_hit k fuel
    (pin_write PIN_CLK false (pin_write PIN_DATA false (sleep_us TIMING_ATN_DELAY wa))) hk hlow hrel
  have hev : new_events wa (sleep_us TIMING_ATN_DELAY (advance (k + 1) (atn_events k)
      (pin_write PIN_CLK false (pin_write PIN_DATA false (sleep_us TIMING_ATN_DELAY wa))))) =
      [Event.sleep TIMING_ATN_DELAY, Event.write PIN_DATA false, Event.write PIN_CLK false] ++
        atn_events k ++ [Event.sleep TIMING_ATN_DELAY] := by
    simp [new_events, advance, pin_write, sleep_us, List.append_assoc]
  refine ⟨sleep_us TIMING_ATN_DELAY (advance (k + 1) (atn_events k)
    (pin_write PIN_CLK false (pin_write PIN_DATA false (sleep_us TIMING_ATN_DELAY wa)))),
    ?_, hev, rfl, ?_⟩
  · unfold check_atn
    rw [if_neg (by simp [h1]), haddr]
    simp only [haok, hl, ht, ne_eq, not_true_eq_false, if_false, hrun, atn_exit]
    rfl
  · intro e he
    rw [hev] at he
    simp only [atn_events, List.mem_append, List.mem_cons, List.mem_singleton,
      List.mem_replicate, List.not_mem_nil, or_false] at he
    rcases he with ((rfl | rfl | rfl) | (⟨-, rfl⟩ | rfl)) | rfl <;> exact ⟨rfl, rfl⟩

/-- C5: ATN is asserted at entry, the address byte is TALK|device and the
secondary byte `s` is received without error; the next sample, of ATN, reads
released.  If CLOCK then reads released at the `k+1`-th sample of
`turn_around`'s wait, `check_atn` returns ATN_CMD_TALK with `code = s` and
`strLen = 0`, and after that wait it releases DATA, then asserts CLOCK, each
followed by a bit time, and ends with the post-ATN delay.  If CLOCK stays low
for the whole budget of that wait, `check_atn` can only return ATN_ERROR, and
does so once ATN reads released. -/
theorem check_atn_talk_turn_around (fuel : Nat) (cmd : ATNCmd) (w wa wb : World) (s : Nat)
    (hatn : w.inp w.pos = false)
    (haddr : receive_byte fuel (atn_entry w) = some (ATN_CODE_TALK ||| m_deviceNumber, wa))
    (haok : wa.m_state &&& errorFlag = 0)
    (hsec : receive_byte fuel wa = some (s, wb)) (hsok : wb.m_state &&& errorFlag = 0)
    (hrel : wb.inp wb.pos = true) (hfuel : 0 < fuel) :
    (∀ k, k < TIMING_TIMEOUT → (∀ j, j < k → wb.inp (wb.pos + 1 + j) = false) →
      wb.inp (wb.pos + 1 + k) = true →
      ∃ w1, check_atn fuel cmd w =
          some (ATN_CMD_TALK, { cmd with code := s, strLen := 0 }, w1) ∧
        new_events wb w1 =
          [Event.read PIN_ATTN true] ++ wait_events PIN_CLK false k ++
            [Event.write PIN_DATA false, Event.sleep TIMING_BIT,
             Event.write PIN_CLK true, Event.sleep TIMING_BIT] ++
            [Event.sleep TIMING_ATN_DELAY]) ∧
    ((∀ j, j < TIMING_TIMEOUT → wb.inp (wb.pos + 1 + j) = false) →
      (∀ r, check_atn fuel cmd w = some r → r.1 = ATN_ERROR) ∧
      (∀ ka, ka < fuel → (∀ j, j < ka → wb.inp (wb.pos + 1 + TIMING_TIMEOUT + j) = false) →
        wb.inp (wb.pos + 1 + TIMING_TIMEOUT + ka) = true →
        ∃ w1, check_atn fuel cmd w = some (ATN_ERROR, { cmd with code := s }, w1) ∧
          w1.m_state = errorFlag)) := by
  obtain ⟨m, rfl⟩ : ∃ m, fuel = m + 1 := ⟨fuel - 1, by omega⟩
  have hloop : talk_loop (m + 1) (m + 1) 0 { cmd with code := s } wb =
      some (some 0, { cmd with code := s }, (pin_read PIN_ATTN wb).2) := by
    have h1 : (pin_read PIN_ATTN wb).1 = true := hrel
    rw [talk_loop]
    simp only [h1, if_true]
  have hcheck := check_atn_talk (m + 1) cmd w wa wb s hatn haddr haok hsec hsok
  rw [hloop] at hcheck
  simp only at hcheck
  constructor
  · intro k hk hlow hhit
    have hw := timeout_wait_hit (m + 1) PIN_CLK false k (pin_read PIN_ATTN wb).2 hk
      (by intro j hj; simpa [pin_read] using hlow j hj) (by simpa [pin_read] using hhit)
    refine ⟨sleep_us TIMING_ATN_DELAY (sleep_us TIMING_BIT (pin_write PIN_CLK true
      (sleep_us TIMING_BIT (pin_write PIN_DATA false
        (advance (k + 1) (wait_events PIN_CLK false k) (pin_read PIN_ATTN wb).2))))), ?_, ?_⟩
    · rw [hcheck]
      unfold turn_around
      rw [hw]
      simp only [atn_exit]
      rfl
    · simp [new_events, advance, pin_read, pin_write, sleep_us, hrel, List.append_assoc]
  · intro hmiss
    have hmiss1 : ∀ j, j < TIMING_TIMEOUT →
        (pin_read PIN_ATTN wb).2.inp ((pin_read PIN_ATTN wb).2.pos + j) = false := by
      intro j hj; simpa [pin_read] using hmiss j hj
    have hc := (timeout_wait_outcomes (m + 1) PIN_CLK false (pin_read PIN_ATTN wb).2).1 hmiss1
    constructor
    · intro r hr
      rw [hcheck] at hr
      unfold turn_around at hr
      cases hw : timeout_wait (m + 1) PIN_CLK false (pin_read PIN_ATTN wb).2 with
      | none => rw [hw] at hr; cases hr
      | some p =>
        obtain ⟨r2, w2⟩ := p
        obtain ⟨hr2, -⟩ := hc.2.2 r2 w2 hw
        subst hr2
        rw [hw] at hr
        simp only [Option.some.injEq] at hr
        subst hr
        rfl
    · intro ka hka hlow hhit
      have hw := hc.1 ka hka (by intro j hj; simpa [pin_read] using hlow j hj)
        (by simpa [pin_read] using hhit)
      obtain ⟨w1, hw1, hm1⟩ : ∃ w1, timeout_wait (m + 1) PIN_CLK false (pin_read PIN_ATTN wb).2 =
          some (true, w1) ∧ w1.m_state = errorFlag := ⟨_, hw, rfl⟩
      refine ⟨w1, ?_, hm1⟩
      rw [hcheck]
      unfold turn_around
      rw [hw1]

/-- C10: in the LISTEN branch, with the secondary byte `s` received without
error, `check_atn` returns ATN_CMD_LISTEN exactly when the high nibble of `s`
is DATA (0x60) and its low nibble is not 15; it then returns at once, with
`code = s`, `strLen = 0` and only the post-ATN delay after the secondary byte.
For `s = 0x6F` the result is that of the accumulation loop, which is never
ATN_CMD_LISTEN. -/
theorem check_atn_listen_data_channel (fuel : Nat) (cmd : ATNCmd) (w wa wb : World) (s : Nat)
    (hatn : w.inp w.pos = false)
    (haddr : receive_byte fuel (atn_entry w) = some (ATN_CODE_LISTEN ||| m_deviceNumber, wa))
    (haok : wa.m_state &&& errorFlag = 0)
    (hsec : receive_byte fuel wa = some (s, wb)) (hsok : wb.m_state &&& errorFlag = 0) :
    ((s &&& 0xF0 = ATN_CODE_DATA ∧ s &&& 0xF ≠ CMD_CHANNEL) ↔
      ∃ cmd1 w1, check_atn fuel cmd w = some (ATN_CMD_LISTEN, cmd1, w1)) ∧
    ((s &&& 0xF0 = ATN_CODE_DATA ∧ s &&& 0xF ≠ CMD_CHANNEL) →
      check_atn fuel cmd w =
        some (ATN_CMD_LISTEN, { cmd with code := s, strLen := 0 }, sleep_us TIMING_ATN_DELAY wb)) ∧
    (s = 0x6F →
      check_atn fuel cmd w =
        match listen_loop fuel fuel 0 { cmd with code := s } wb with
        | none => none
        | some (none, cmd2, w3) => some (ATN_ERROR, cmd2, w3)
        | some (some i, cmd2, w3) => atn_exit ATN_CMD i cmd2 w3) := by
  have hcheck := check_atn_listen fuel cmd w wa wb s hatn haddr haok hsec hsok
  have hyes : (s &&& 0xF0 = ATN_CODE_DATA ∧ s &&& 0xF ≠ CMD_CHANNEL) →
      check_atn fuel cmd w =
        some (ATN_CMD_LISTEN, { cmd with code := s, strLen := 0 },
          sleep_us TIMING_ATN_DELAY wb) := by
    intro hc
    rw [hcheck, if_pos hc]
    rfl
  refine ⟨⟨fun hc => ⟨_, _, hyes hc⟩, ?_⟩, hyes, ?_⟩
  · rintro ⟨cmd1, w1, hret⟩
    by_contra hc
    rw [hcheck, if_neg hc] at hret
    split at hret
    · split at hret
      · cases hret
      · simp at hret
      · simp [atn_exit] at hret
    · simp [atn_exit] at hret
  · intro hs
    have hc : ¬ (s &&& 0xF0 = ATN_CODE_DATA ∧ s &&& 0xF ≠ CMD_CHANNEL) := by
      subst hs; decide
    have hu : s ≠ ATN_CODE_UNLISTEN := by subst hs; decide
    rw [hcheck, if_neg hc, if_pos hu]

/-- C4 on a bus that addresses device 9 and releases ATN at the third
sample after the address byte. -/
theorem check_atn_other_address_witness :
    ∃ w1, check_atn 3 cmd_zero other_device_bus =
        some (ATN_IDLE, { cmd_zero with strLen := 0 }, w1) ∧
      new_events (after_bytes 3 1 (atn_entry other_device_bus)) w1 =
        [Event.sleep TIMING_ATN_DELAY, Event.write PIN_DATA false, Event.write PIN_CLK false] ++
          atn_events 2 ++ [Event.sleep TIMING_ATN_DELAY] ∧
      w1.pos = (after_bytes 3 1 (atn_entry other_device_bus)).pos + (2 + 1) ∧
      (∀ e, e ∈ new_events (after_bytes 3 1 (atn_entry other_device_bus)) w1 →
        is_read PIN_DATA e = false ∧ is_read PIN_CLK e = false) :=
  check_atn_other_address 3 cmd_zero other_device_bus
    (after_bytes 3 1 (atn_entry other_device_bus)) 0x29 2 rfl rfl rfl (by decide) (by decide)
    (by decide) (by intro j hj; interval_cases j <;> rfl) rfl

/-- C5 on a bus whose CLOCK is released at the second sample of
`turn_around`, and on a bus whose CLOCK stays low for 65000 samples. -/
theorem check_atn_talk_turn_around_witness :
    (∃ w1, check_atn 3 cmd_zero talk_bus =
        some (ATN_CMD_TALK, { cmd_zero with code := 0x6F, strLen := 0 }, w1) ∧
      new_events (after_bytes 3 2 (atn_entry talk_bus)) w1 =
        [Event.read PIN_ATTN true] ++ wait_events PIN_CLK false 1 ++
          [Event.write PIN_DATA false, Event.sleep TIMING_BIT,
           Event.write PIN_CLK true, Event.sleep TIMING_BIT] ++
          [Event.sleep TIMING_ATN_DELAY]) ∧
    (∃ w1, check_atn 3 cmd_zero talk_timeout_bus =
        some (ATN_ERROR, { cmd_zero with code := 0x6F }, w1) ∧ w1.m_state = errorFlag) := by
  have hp : (after_bytes 3 2 (atn_entry talk_timeout_bus)).pos = 55 := rfl
  have hi : (after_bytes 3 2 (atn_entry talk_timeout_bus)).inp = talk_timeout_bus.inp := rfl
  exact ⟨(check_atn_talk_turn_around 3 cmd_zero talk_bus
      (after_bytes 3 1 (atn_entry talk_bus)) (after_bytes 3 2 (atn_entry talk_bus)) 0x6F
      rfl rfl rfl rfl rfl rfl (by decide)).1 1 (by decide)
      (by intro j hj; interval_cases j; rfl) rfl,
    ((check_atn_talk_turn_around 3 cmd_zero talk_timeout_bus
      (after_bytes 3 1 (atn_entry talk_timeout_bus))
      (after_bytes 3 2 (atn_entry talk_timeout_bus)) 0x6F
      rfl rfl rfl rfl rfl rfl (by decide)).2
      (by
        intro j hj
        rw [hi, hp]
        simp only [TIMING_TIMEOUT] at hj
        simp only [talk_timeout_bus]
        rw [if_neg (by omega), if_neg (by omega), if_neg (by omega)]
        simp
        omega)).2 0 (by decide) (by intro j hj; omega)
      (by rw [hi, hp]; simp [talk_timeout_bus, TIMING_TIMEOUT])⟩

/-- C10 on a bus that opens data channel 2. -/
theorem check_atn_listen_data_channel_witness :
    check_atn 3 cmd_zero data_channel_bus =
      some (ATN_CMD_LISTEN, { cmd_zero with code := 0x62, strLen := 0 },
        sleep_us TIMING_ATN_DELAY (after_bytes 3 2 (atn_entry data_channel_bus))) :=
  (check_atn_listen_data_channel 3 cmd_zero data_channel_bus
    (after_bytes 3 1 (atn_entry data_channel_bus)) (after_bytes 3 2 (atn_entry data_channel_bus))
    0x62 rfl rfl rfl rfl rfl).2.1 (by decide)

/-! ## Invariants of the accumulation loops -/

/-- Whatever the LISTEN loop returns, the command is the one it started with
plus bytes stored at consecutive indexes below 40, and a normal exit returns
the index after the last of them. -/
theorem listen_loop_shape (fuel : Nat) :
    ∀ (steps i : Nat) (cmd : ATNCmd) (w : World) (res : Option Nat) (cmd1 : ATNCmd) (w1 : World),
      listen_loop fuel steps i cmd w = some (res, cmd1, w1) → i ≤ ATN_CMD_MAX_LENGTH →
      ∃ bytes : List Nat, i + bytes.length ≤ ATN_CMD_MAX_LENGTH ∧
        cmd1 = store_all i bytes cmd ∧ (∀ j, res = some j → j = i + bytes.length) := by
  intro steps
  induction steps with
  | zero => intro i cmd w res cmd1 w1 h _; simp [listen_loop] at h
  | succ steps ih =>
    intro i cmd w res cmd1 w1 h hi
    rw [listen_loop] at h
    cases hr : receive_byte fuel w with
    | none => rw [hr] at h; cases h
    | some p =>
      obtain ⟨c, w2⟩ := p
      rw [hr] at h
      simp only at h
      split at h
      · simp only [Option.some.injEq, Prod.mk.injEq] at h
        obtain ⟨rfl, rfl, -⟩ := h
        exact ⟨[], by simpa using hi, rfl, by intro j hj; cases hj⟩
      · split at h
        · simp only [Option.some.injEq, Prod.mk.injEq] at h
          obtain ⟨rfl, rfl, -⟩ := h
          exact ⟨[], by simpa using hi, rfl, by intro j hj; cases hj; rfl⟩
        · split at h
          · simp only [Option.some.injEq, Prod.mk.injEq] at h
            obtain ⟨rfl, rfl, -⟩ := h
            exact ⟨[], by simpa using hi, rfl, by intro j hj; cases hj⟩
          · rename_i hlt
            have hi40 : i < 40 := by simpa [ATN_CMD_MAX_LENGTH] using hlt
            have hmod : (i + 1) % 256 = i + 1 := Nat.mod_eq_of_lt (by omega)
            rw [hmod] at h
            obtain ⟨bytes, hb, hcmd, hres⟩ := ih (i + 1) _ w2 res cmd1 w1 h
              (by simp [ATN_CMD_MAX_LENGTH]; omega)
            refine ⟨c :: bytes, ?_, ?_, ?_⟩
            · simp only [List.length_cons]; omega
            · rw [hcmd]; rfl
            · intro j hj
              rw [hres j hj]
              simp only [List.length_cons]; omega

/-- The same for the loop of the TALK branch. -/
theorem talk_loop_shape (fuel : Nat) :
    ∀ (steps i : Nat) (cmd : ATNCmd) (w : World) (res : Option Nat) (cmd1 : ATNCmd) (w1 : World),
      talk_loop fuel steps i cmd w = some (res, cmd1, w1) → i ≤ ATN_CMD_MAX_LENGTH →
      ∃ bytes : List Nat, i + bytes.length ≤ ATN_CMD_MAX_LENGTH ∧
        cmd1 = store_all i bytes cmd ∧ (∀ j, res = some j → j = i + bytes.length) := by
  intro steps
  induction steps with
  | zero => intro i cmd w res cmd1 w1 h _; simp [talk_loop] at h
  | succ steps ih =>
    intro i cmd w res cmd1 w1 h hi
    rw [talk_loop] at h
    simp only at h
    split at h
    · simp only [Option.some.injEq, Prod.mk.injEq] at h
      obtain ⟨rfl, rfl, -⟩ := h
      exact ⟨[], by simpa using hi, rfl, by intro j hj; cases hj; rfl⟩
    · split at h
      · cases hr : receive_byte fuel (pin_read PIN_CLK (pin_read PIN_ATTN w).2).2 with
        | none => rw [hr] at h; cases h
        | some p =>
          obtain ⟨c, w2⟩ := p
          rw [hr] at h
          simp only at h
          split at h
          · simp only [Option.some.injEq, Prod.mk.injEq] at h
            obtain ⟨rfl, rfl, -⟩ := h
            exact ⟨[], by simpa using hi, rfl, by intro j hj; cases hj⟩
          · split at h
            · simp only [Option.some.injEq, Prod.mk.injEq] at h
              obtain ⟨rfl, rfl, -⟩ := h
              exact ⟨[], by simpa using hi, rfl, by intro j hj; cases hj⟩
            · rename_i hlt
              have hi40 : i < 40 := by simpa [ATN_CMD_MAX_LENGTH] using hlt
              have hmod : (i + 1) % 256 = i + 1 := Nat.mod_eq_of_lt (by omega)
              rw [hmod] at h
              obtain ⟨bytes, hb, hcmd, hres⟩ := ih (i + 1) _ w2 res cmd1 w1 h
                (by simp [ATN_CMD_MAX_LENGTH]; omega)
              refine ⟨c :: bytes, ?_, ?_, ?_⟩
              · simp only [List.length_cons]; omega
              · rw [hcmd]; rfl
              · intro j hj
                rw [hres j hj]
                simp only [List.length_cons]; omega
      · exact ih i cmd _ res cmd1 w1 h hi

theorem store_all_set_len (len : Int) : ∀ (cs : List Nat) (i : Nat) (cmd : ATNCmd),
    store_all i cs (set_len len cmd) = set_len len (store_all i cs cmd) := by
  intro cs
  induction cs with
  | nil => intro i cmd; rfl
  | cons c cs ih =>
    intro i cmd
    simp only [store_all]
    exact ih (i + 1) (str_store i c cmd)

/-- The LISTEN loop does not look at the fill length. -/
theorem listen_loop_set_len (fuel : Nat) (len : Int) :
    ∀ (steps i : Nat) (cmd : ATNCmd) (w : World),
      listen_loop fuel steps i (set_len len cmd) w =
        (listen_loop fuel steps i cmd w).map (fun p => (p.1, set_len len p.2.1, p.2.2)) := by
  intro steps
  induction steps with
  | zero => intro i cmd w; rfl
  | succ steps ih =>
    intro i cmd w
    simp only [listen_loop]
    cases receive_byte fuel w with
    | none => rfl
    | some p =>
      obtain ⟨c, w2⟩ := p
      simp only
      split
      · rfl
      · split
        · rfl
        · split
          · rfl
          · exact ih _ (str_store i c cmd) w2

/-- The loop of the TALK branch does not look at the fill length. -/
theorem talk_loop_set_len (fuel : Nat) (len : Int) :
    ∀ (steps i : Nat) (cmd : ATNCmd) (w : World),
      talk_loop fuel steps i (set_len len cmd) w =
        (talk_loop fuel steps i cmd w).map (fun p => (p.1, set_len len p.2.1, p.2.2)) := by
  intro steps
  induction steps with
  | zero => intro i cmd w; rfl
  | succ steps ih =>
    intro i cmd w
    simp only [talk_loop]
    split
    · rfl
    · split
      · cases receive_byte fuel (pin_read PIN_CLK (pin_read PIN_ATTN w).2).2 with
        | none => rfl
        | some p =>
          obtain ⟨c, w2⟩ := p
          simp only
          split
          · rfl
          · split
            · rfl
            · exact ih _ (str_store i c cmd) w2
      · exact ih i cmd _

theorem store_all_str_congr : ∀ (cs : List Nat) (i : Nat) (cmd cmd1 : ATNCmd),
    cmd.str = cmd1.str → (store_all i cs cmd).str = (store_all i cs cmd1).str := by
  intro cs
  induction cs with
  | nil => intro i cmd cmd1 h; exact h
  | cons c cs ih =>
    intro i cmd cmd1 h
    simp only [store_all]
    exact ih (i + 1) _ _ (by simp [str_store, h])

theorem shape_error (cmd : ATNCmd) (c : Nat) (bytes : List Nat)
    (hb : bytes.length ≤ ATN_CMD_MAX_LENGTH) :
    result_shape cmd ATN_ERROR (store_all 0 bytes { cmd with code := c }) bytes :=
  ⟨hb, store_all_str_congr bytes 0 _ _ rfl, fun _ => (store_all_code bytes 0 _).2,
    fun h => absurd rfl h, (by intro h; cases h), by decide⟩

theorem shape_error_start (cmd : ATNCmd) : result_shape cmd ATN_ERROR cmd [] :=
  ⟨by simp, rfl, fun _ => rfl, fun h => absurd rfl h, (by intro h; cases h), by decide⟩

theorem shape_exit (cmd : ATNCmd) (r : ATNCheck) (c : Nat) (bytes : List Nat)
    (hb : bytes.length ≤ ATN_CMD_MAX_LENGTH) (hr : r ≠ ATN_ERROR) (hr1 : r ≠ ATN_RESET)
    (hl : r = ATN_CMD_LISTEN → c &&& 0xF0 = ATN_CODE_DATA ∧ c &&& 0xF ≠ CMD_CHANNEL) :
    result_shape cmd r
      { store_all 0 bytes { cmd with code := c } with strLen := (bytes.length : Int) } bytes :=
  ⟨hb, store_all_str_congr bytes 0 _ _ rfl, fun h => absurd h hr, fun _ => rfl,
    fun h => by
      have := hl h
      simpa [(store_all_code bytes 0 { cmd with code := c }).1] using this,
    hr1⟩

/-- Every result of `check_atn` has the common shape. -/
theorem check_atn_shape (fuel : Nat) (cmd : ATNCmd) (w : World) (r : ATNCheck) (cmd1 : ATNCmd)
    (w1 : World) (h : check_atn fuel cmd w = some (r, cmd1, w1)) :
    ∃ bytes, result_shape cmd r cmd1 bytes := by
  unfold check_atn at h
  split at h
  · -- ATN not asserted
    simp only [Option.some.injEq, Prod.mk.injEq] at h
    obtain ⟨rfl, rfl, -⟩ := h
    exact ⟨[], by simp, rfl, (by intro h; cases h), fun _ => rfl, (by intro h; cases h), by decide⟩
  · split at h
    · cases h
    · rename_i c wa _
      split at h
      · simp only [Option.some.injEq, Prod.mk.injEq] at h
        obtain ⟨rfl, rfl, -⟩ := h
        exact ⟨[], shape_error_start cmd⟩
      · split at h
        · -- LISTEN
          split at h
          · cases h
          · rename_i s wb _
            split at h
            · simp only [Option.some.injEq, Prod.mk.injEq] at h
              obtain ⟨rfl, rfl, -⟩ := h
              exact ⟨[], shape_error_start cmd⟩
            · simp only at h
              split at h
              · rename_i hcond
                simp only [atn_exit, Option.some.injEq, Prod.mk.injEq] at h
                obtain ⟨rfl, rfl, -⟩ := h
                exact ⟨[], shape_exit cmd ATN_CMD_LISTEN s [] (by simp) (by decide) (by decide)
                  (fun _ => hcond)⟩
              · split at h
                · split at h
                  · cases h
                  · rename_i cmd2 w3 hloop
                    simp only [Option.some.injEq, Prod.mk.injEq] at h
                    obtain ⟨rfl, rfl, -⟩ := h
                    obtain ⟨bytes, hb, hcmd, -⟩ := listen_loop_shape fuel fuel 0 _ wb _ _ _ hloop
                      (by simp)
                    rw [hcmd]
                    exact ⟨bytes, shape_error cmd s bytes (by omega)⟩
                  · rename_i i cmd2 w3 hloop
                    simp only [atn_exit, Option.some.injEq, Prod.mk.injEq] at h
                    obtain ⟨rfl, rfl, -⟩ := h
                    obtain ⟨bytes, hb, hcmd, hres⟩ := listen_loop_shape fuel fuel 0 _ wb _ _ _ hloop
                      (by simp)
                    have hi : i = bytes.length := by simpa using hres i rfl
                    rw [hcmd, hi]
                    exact ⟨bytes, shape_exit cmd ATN_CMD s bytes (by omega) (by decide) (by decide)
                      ((by intro h; cases h))⟩
                · simp only [atn_exit, Option.some.injEq, Prod.mk.injEq] at h
                  obtain ⟨rfl, rfl, -⟩ := h
                  exact ⟨[], shape_exit cmd ATN_IDLE s [] (by simp) (by decide) (by decide)
                    ((by intro h; cases h))⟩
        · split at h
          · -- TALK
            split at h
            · cases h
            · rename_i s wb _
              split at h
              · simp only [Option.some.injEq, Prod.mk.injEq] at h
                obtain ⟨rfl, rfl, -⟩ := h
                exact ⟨[], shape_error_start cmd⟩
              · simp only at h
                split at h
                · cases h
                · rename_i cmd2 w3 hloop
                  simp only [Option.some.injEq, Prod.mk.injEq] at h
                  obtain ⟨rfl, rfl, -⟩ := h
                  obtain ⟨bytes, hb, hcmd, -⟩ := talk_loop_shape fuel fuel 0 _ wb _ _ _ hloop
                    (by simp)
                  rw [hcmd]
                  exact ⟨bytes, shape_error cmd s bytes (by omega)⟩
                · rename_i i cmd2 w3 hloop
                  obtain ⟨bytes, hb, hcmd, hres⟩ := talk_loop_shape fuel fuel 0 _ wb _ _ _ hloop
                    (by simp)
                  have hi : i = bytes.length := by simpa using hres i rfl
                  split at h
                  · cases h
                  · simp only [Option.some.injEq, Prod.mk.injEq] at h
                    obtain ⟨rfl, rfl, -⟩ := h
                    rw [hcmd]
                    exact ⟨bytes, shape_error cmd s bytes (by omega)⟩
                  · simp only [atn_exit, Option.some.injEq, Prod.mk.injEq] at h
                    obtain ⟨rfl, rfl, -⟩ := h
                    rw [hcmd, hi]
                    exact ⟨bytes, shape_exit cmd ATN_CMD_TALK s bytes (by omega) (by decide)
                      (by decide) ((by intro h; cases h))⟩
          · -- another address
            simp only at h
            split at h
            · cases h
            · simp only [atn_exit, Option.some.injEq, Prod.mk.injEq] at h
              obtain ⟨rfl, rfl, -⟩ := h
              exact ⟨[], by simp, rfl, (by intro h; cases h), fun _ => rfl, (by intro h; cases h),
                by decide⟩

/-- A different fill length before the call changes nothing in the result of
`check_atn`, except the fill length returned with ATN_ERROR. -/
theorem check_atn_set_len (fuel : Nat) (len : Int) (cmd : ATNCmd) (w : World) :
    check_atn fuel (set_len len cmd) w = (check_atn fuel cmd w).map (relen len) := by
  unfold check_atn
  by_cases hatn : (pin_read PIN_ATTN w).1 = true
  · simp [hatn, relen, set_len]
  · simp only [hatn, if_false, Bool.false_eq_true]
    cases receive_byte fuel (atn_entry w) with
    | none => rfl
    | some p =>
      obtain ⟨c, wa⟩ := p
      simp only
      by_cases herr : wa.m_state &&& errorFlag ≠ 0
      · simp [herr, relen]
      · simp only [herr, if_false]
        by_cases hl : c = ATN_CODE_LISTEN ||| m_deviceNumber
        · simp only [hl, if_true]
          cases receive_byte fuel wa with
          | none => rfl
          | some q =>
            obtain ⟨s, wb⟩ := q
            simp only
            by_cases herr2 : wb.m_state &&& errorFlag ≠ 0
            · simp [herr2, relen]
            · simp only [herr2, if_false]
              by_cases hc : s &&& 0xF0 = ATN_CODE_DATA ∧ s &&& 0xF ≠ CMD_CHANNEL
              · simp only [if_pos hc]
                simp [atn_exit, relen, set_len]
              · simp only [if_neg hc]
                by_cases hu : s ≠ ATN_CODE_UNLISTEN
                · simp only [if_pos hu]
                  have hloop := listen_loop_set_len fuel len fuel 0 { cmd with code := s } wb
                  simp only [set_len] at hloop ⊢
                  rw [hloop]
                  cases listen_loop fuel fuel 0 { cmd with code := s } wb with
                  | none => rfl
                  | some t =>
                    obtain ⟨res, cmd2, w3⟩ := t
                    cases res with
                    | none => simp [relen, set_len]
                    | some i => simp [atn_exit, relen]
                · simp only [if_neg hu]
                  simp [atn_exit, relen, set_len]
        · simp only [hl, if_false]
          by_cases ht : c = ATN_CODE_TALK ||| m_deviceNumber
          · simp only [ht, if_true]
            cases receive_byte fuel wa with
            | none => rfl
            | some q =>
              obtain ⟨s, wb⟩ := q
              simp only
              by_cases herr2 : wb.m_state &&& errorFlag ≠ 0
              · simp [herr2, relen]
              · simp only [herr2, if_false]
                have hloop := talk_loop_set_len fuel len fuel 0 { cmd with code := s } wb
                simp only [set_len] at hloop ⊢
                rw [hloop]
                cases talk_loop fuel fuel 0 { cmd with code := s } wb with
                | none => rfl
                | some t =>
                  obtain ⟨res, cmd2, w3⟩ := t
                  cases res with
                  | none => simp [relen, set_len]
                  | some i =>
                    simp only [Option.map_some']
                    cases turn_around fuel w3 with
                    | none => rfl
                    | some u =>
                      obtain ⟨ok, w4⟩ := u
                      cases ok <;> simp [atn_exit, relen, set_len]
          · simp only [ht, if_false]
            cases wait_atn_release fuel
                (pin_write PIN_CLK false (pin_write PIN_DATA false (sleep_us TIMING_ATN_DELAY wa))) with
            | none => rfl
            | some w5 => simp [atn_exit, relen, set_len]

/-! ## The record of stores -/

/-- Without the record, `listen_loop_log` is `listen_loop`. -/
theorem listen_loop_log_erase (fuel : Nat) :
    ∀ (steps i : Nat) (cmd : ATNCmd) (w : World) (log : List (Nat × Nat)),
      (listen_loop_log fuel steps i cmd w log).map (fun r => (r.1, r.2.1, r.2.2.1)) =
        listen_loop fuel steps i cmd w := by
  intro steps
  induction steps with
  | zero => intro i cmd w log; rfl
  | succ steps ih =>
    intro i cmd w log
    simp only [listen_loop, listen_loop_log]
    cases receive_byte fuel w with
    | none => rfl
    | some p =>
      obtain ⟨c, w2⟩ := p
      simp only
      split
      · rfl
      · split
        · rfl
        · split
          · rfl
          · exact ih _ _ w2 _

/-- Without the record, `talk_loop_log` is `talk_loop`. -/
theorem talk_loop_log_erase (fuel : Nat) :
    ∀ (steps i : Nat) (cmd : ATNCmd) (w : World) (log : List (Nat × Nat)),
      (talk_loop_log fuel steps i cmd w log).map (fun r => (r.1, r.2.1, r.2.2.1)) =
        talk_loop fuel steps i cmd w := by
  intro steps
  induction steps with
  | zero => intro i cmd w log; rfl
  | succ steps ih =>
    intro i cmd w log
    simp only [talk_loop, talk_loop_log]
    split
    · rfl
    · split
      · cases receive_byte fuel (pin_read PIN_CLK (pin_read PIN_ATTN w).2).2 with
        | none => rfl
        | some p =>
          obtain ⟨c, w2⟩ := p
          simp only
          split
          · rfl
          · split
            · rfl
            · exact ih _ _ w2 _
      · exact ih i cmd _ log

/-- The record of the LISTEN loop grows by one pair for each byte stored: the
bytes stored are at consecutive indexes from `i` on, and the record ends with
these indexes paired with the bytes. -/
theorem listen_loop_log_shape (fuel : Nat) :
    ∀ (steps i : Nat) (cmd : ATNCmd) (w : World) (log : List (Nat × Nat)) (res : Option Nat)
      (cmd1 : ATNCmd) (w1 : World) (log1 : List (Nat × Nat)),
      listen_loop_log fuel steps i cmd w log = some (res, cmd1, w1, log1) →
      i ≤ ATN_CMD_MAX_LENGTH →
      ∃ bytes : List Nat, i + bytes.length ≤ ATN_CMD_MAX_LENGTH ∧
        cmd1 = store_all i bytes cmd ∧ (∀ j, res = some j → j = i + bytes.length) ∧
        log1 = log ++ List.enumFrom i bytes := by
  intro steps
  induction steps with
  | zero => intro i cmd w log res cmd1 w1 log1 h _; simp [listen_loop_log] at h
  | succ steps ih =>
    intro i cmd w log res cmd1 w1 log1 h hi
    rw [listen_loop_log] at h
    cases hr : receive_byte fuel w with
    | none => rw [hr] at h; cases h
    | some p =>
      obtain ⟨c, w2⟩ := p
      rw [hr] at h
      simp only at h
      split at h
      · simp only [Option.some.injEq, Prod.mk.injEq] at h
        obtain ⟨rfl, rfl, -, rfl⟩ := h
        exact ⟨[], by simpa using hi, rfl, (by intro j hj; cases hj), by simp⟩
      · split at h
        · simp only [Option.some.injEq, Prod.mk.injEq] at h
          obtain ⟨rfl, rfl, -, rfl⟩ := h
          exact ⟨[], by simpa using hi, rfl, (by intro j hj; cases hj; rfl), by simp⟩
        · split at h
          · simp only [Option.some.injEq, Prod.mk.injEq] at h
            obtain ⟨rfl, rfl, -, rfl⟩ := h
            exact ⟨[], by simpa using hi, rfl, (by intro j hj; cases hj), by simp⟩
          · rename_i hlt
            have hi40 : i < 40 := by simpa [ATN_CMD_MAX_LENGTH] using hlt
            have hmod : (i + 1) % 256 = i + 1 := Nat.mod_eq_of_lt (by omega)
            rw [hmod] at h
            obtain ⟨bytes, hb, hcmd, hres, hlog⟩ := ih (i + 1) _ w2 _ res cmd1 w1 log1 h
              (by simp [ATN_CMD_MAX_LENGTH]; omega)
            refine ⟨c :: bytes, ?_, ?_, ?_, ?_⟩
            · simp only [List.length_cons]; omega
            · rw [hcmd]; rfl
            · intro j hj
              rw [hres j hj]
              simp only [List.length_cons]; omega
            · rw [hlog]
              simp [List.enumFrom]

/-- The same for the loop of the TALK branch. -/
theorem talk_loop_log_shape (fuel : Nat) :
    ∀ (steps i : Nat) (cmd : ATNCmd) (w : World) (log : List (Nat × Nat)) (res : Option Nat)
      (cmd1 : ATNCmd) (w1 : World) (log1 : List (Nat × Nat)),
      talk_loop_log fuel steps i cmd w log = some (res, cmd1, w1, log1) →
      i ≤ ATN_CMD_MAX_LENGTH →
      ∃ bytes : List Nat, i + bytes.length ≤ ATN_CMD_MAX_LENGTH ∧
        cmd1 = store_all i bytes cmd ∧ (∀ j, res = some j → j = i + bytes.length) ∧
        log1 = log ++ List.enumFrom i bytes := by
  intro steps
  induction steps with
  | zero => intro i cmd w log res cmd1 w1 log1 h _; simp [talk_loop_log] at h
  | succ steps ih =>
    intro i cmd w log res cmd1 w1 log1 h hi
    rw [talk_loop_log] at h
    simp only at h
    split at h
    · simp only [Option.some.injEq, Prod.mk.injEq] at h
      obtain ⟨rfl, rfl, -, rfl⟩ := h
      exact ⟨[], by simpa using hi, rfl, (by intro j hj; cases hj; rfl), by simp⟩
    · split at h
      · cases hr : receive_byte fuel (pin_read PIN_CLK (pin_read PIN_ATTN w).2).2 with
        | none => rw [hr] at h; cases h
        | some p =>
          obtain ⟨c, w2⟩ := p
          rw [hr] at h
          simp only at h
          split at h
          · simp only [Option.some.injEq, Prod.mk.injEq] at h
            obtain ⟨rfl, rfl, -, rfl⟩ := h
            exact ⟨[], by simpa using hi, rfl, (by intro j hj; cases hj), by simp⟩
          · split at h
            · simp only [Option.some.injEq, Prod.mk.injEq] at h
              obtain ⟨rfl, rfl, -, rfl⟩ := h
              exact ⟨[], by simpa using hi, rfl, (by intro j hj; cases hj), by simp⟩
            · rename_i hlt
              have hi40 : i < 40 := by simpa [ATN_CMD_MAX_LENGTH] using hlt
              have hmod : (i + 1) % 256 = i + 1 := Nat.mod_eq_of_lt (by omega)
              rw [hmod] at h
              obtain ⟨bytes, hb, hcmd, hres, hlog⟩ := ih (i + 1) _ w2 _ res cmd1 w1 log1 h
                (by simp [ATN_CMD_MAX_LENGTH]; omega)
              refine ⟨c :: bytes, ?_, ?_, ?_, ?_⟩
              · simp only [List.length_cons]; omega
              · rw [hcmd]; rfl
              · intro j hj
                rw [hres j hj]
                simp only [List.length_cons]; omega
              · rw [hlog]
                simp [List.enumFrom]
      · exact ih i cmd _ log res cmd1 w1 log1 h hi

/-- What the LISTEN loop returns besides the command does not depend on the
command it is given. -/
theorem listen_loop_log_cmd (fuel : Nat) :
    ∀ (steps i : Nat) (cmd cmd2 : ATNCmd) (w : World) (log : List (Nat × Nat)),
      (listen_loop_log fuel steps i cmd w log).map (fun r => (r.1, r.2.2.1, r.2.2.2)) =
        (listen_loop_log fuel steps i cmd2 w log).map (fun r => (r.1, r.2.2.1, r.2.2.2)) := by
  intro steps
  induction steps with
  | zero => intro i cmd cmd2 w log; rfl
  | succ steps ih =>
    intro i cmd cmd2 w log
    simp only [listen_loop_log]
    cases receive_byte fuel w with
    | none => rfl
    | some p =>
      obtain ⟨c, w2⟩ := p
      simp only
      split
      · rfl
      · split
        · rfl
        · split
          · rfl
          · exact ih _ _ _ w2 _

/-- The same for the loop of the TALK branch. -/
theorem talk_loop_log_cmd (fuel : Nat) :
    ∀ (steps i : Nat) (cmd cmd2 : ATNCmd) (w : World) (log : List (Nat × Nat)),
      (talk_loop_log fuel steps i cmd w log).map (fun r => (r.1, r.2.2.1, r.2.2.2)) =
        (talk_loop_log fuel steps i cmd2 w log).map (fun r => (r.1, r.2.2.1, r.2.2.2)) := by
  intro steps
  induction steps with
  | zero => intro i cmd cmd2 w log; rfl
  | succ steps ih =>
    intro i cmd cmd2 w log
    simp only [talk_loop_log]
    split
    · rfl
    · split
      · cases receive_byte fuel (pin_read PIN_CLK (pin_read PIN_ATTN w).2).2 with
        | none => rfl
        | some p =>
          obtain ⟨c, w2⟩ := p
          simp only
          split
          · rfl
          · split
            · rfl
            · exact ih _ _ _ w2 _
      · exact ih i cmd cmd2 _ log

/-- Without the record, `check_atn_log` is `check_atn`. -/
theorem check_atn_log_erase (fuel : Nat) (cmd : ATNCmd) (w : World) :
    (check_atn_log fuel cmd w).map drop_log = check_atn fuel cmd w := by
  unfold check_atn check_atn_log
  by_cases hatn : (pin_read PIN_ATTN w).1 = true
  · simp [hatn, drop_log]
  · simp only [hatn, if_false, Bool.false_eq_true]
    cases receive_byte fuel (atn_entry w) with
    | none => rfl
    | some p =>
      obtain ⟨c, wa⟩ := p
      simp only
      by_cases herr : wa.m_state &&& errorFlag ≠ 0
      · simp [herr, drop_log]
      · simp only [herr, if_false]
        by_cases hl : c = ATN_CODE_LISTEN ||| m_deviceNumber
        · simp only [hl, if_true]
          cases receive_byte fuel wa with
          | none => rfl
          | some q =>
            obtain ⟨s, wb⟩ := q
            simp only
            by_cases herr2 : wb.m_state &&& errorFlag ≠ 0
            · simp [herr2, drop_log]
            · simp only [herr2, if_false]
              by_cases hc : s &&& 0xF0 = ATN_CODE_DATA ∧ s &&& 0xF ≠ CMD_CHANNEL
              · simp only [if_pos hc]
                simp [atn_exit, atn_exit_log, drop_log]
              · simp only [if_neg hc]
                by_cases hu : s ≠ ATN_CODE_UNLISTEN
                · simp only [if_pos hu]
                  rw [← listen_loop_log_erase fuel fuel 0 { cmd with code := s } wb []]
                  cases listen_loop_log fuel fuel 0 { cmd with code := s } wb [] with
                  | none => rfl
                  | some t =>
                    obtain ⟨res, cmd2, w3, log⟩ := t
                    cases res with
                    | none => simp [drop_log]
                    | some i => simp [atn_exit, atn_exit_log, drop_log]
                · simp only [if_neg hu]
                  simp [atn_exit, atn_exit_log, drop_log]
        · simp only [hl, if_false]
          by_cases ht : c = ATN_CODE_TALK ||| m_deviceNumber
          · simp only [ht, if_true]
            cases receive_byte fuel wa with
            | none => rfl
            | some q =>
              obtain ⟨s, wb⟩ := q
              simp only
              by_cases herr2 : wb.m_state &&& errorFlag ≠ 0
              · simp [herr2, drop_log]
              · simp only [herr2, if_false]
                rw [← talk_loop_log_erase fuel fuel 0 { cmd with code := s } wb []]
                cases talk_loop_log fuel fuel 0 { cmd with code := s } wb [] with
                | none => rfl
                | some t =>
                  obtain ⟨res, cmd2, w3, log⟩ := t
                  cases res with
                  | none => simp [drop_log]
                  | some i =>
                    simp only [Option.map_some']
                    cases turn_around fuel w3 with
                    | none => rfl
                    | some u =>
                      obtain ⟨ok, w4⟩ := u
                      cases ok <;> simp [atn_exit, atn_exit_log, drop_log]
          · simp only [ht, if_false]
            cases wait_atn_release fuel
                (pin_write PIN_CLK false (pin_write PIN_DATA false (sleep_us TIMING_ATN_DELAY wa))) with
            | none => rfl
            | some w5 => simp [atn_exit, atn_exit_log, drop_log]

/-- The classification, the bus and the record that `check_atn_log` returns do
not depend on the command it is given. -/
theorem check_atn_log_cmd (fuel : Nat) (cmd cmd0 : ATNCmd) (w : World) :
    (check_atn_log fuel cmd w).map (fun r => (r.1, r.2.2.1, r.2.2.2)) =
      (check_atn_log fuel cmd0 w).map (fun r => (r.1, r.2.2.1, r.2.2.2)) := by
  unfold check_atn_log
  by_cases hatn : (pin_read PIN_ATTN w).1 = true
  · simp [hatn]
  · simp only [hatn, if_false, Bool.false_eq_true]
    cases receive_byte fuel (atn_entry w) with
    | none => rfl
    | some p =>
      obtain ⟨c, wa⟩ := p
      simp only
      by_cases herr : wa.m_state &&& errorFlag ≠ 0
      · simp [herr]
      · simp only [herr, if_false]
        by_cases hl : c = ATN_CODE_LISTEN ||| m_deviceNumber
        · simp only [hl, if_true]
          cases receive_byte fuel wa with
          | none => rfl
          | some q =>
            obtain ⟨s, wb⟩ := q
            simp only
            by_cases herr2 : wb.m_state &&& errorFlag ≠ 0
            · simp [herr2]
            · simp only [herr2, if_false]
              by_cases hc : s &&& 0xF0 = ATN_CODE_DATA ∧ s &&& 0xF ≠ CMD_CHANNEL
              · simp only [if_pos hc]
                simp [atn_exit_log]
              · simp only [if_neg hc]
                by_cases hu : s ≠ ATN_CODE_UNLISTEN
                · simp only [if_pos hu]
                  have hloop := listen_loop_log_cmd fuel fuel 0 { cmd with code := s }
                    { cmd0 with code := s } wb []
                  revert hloop
                  cases listen_loop_log fuel fuel 0 { cmd with code := s } wb [] with
                  | none =>
                    cases listen_loop_log fuel fuel 0 { cmd0 with code := s } wb [] with
                    | none => intro _; rfl
                    | some t0 => intro hloop; simp at hloop
                  | some t =>
                    cases listen_loop_log fuel fuel 0 { cmd0 with code := s } wb [] with
                    | none => intro hloop; simp at hloop
                    | some t0 =>
                      obtain ⟨res, cmd2, w3, log⟩ := t
                      obtain ⟨res0, cmd3, w30, log0⟩ := t0
                      intro hloop
                      simp only [Option.map_some', Option.some.injEq, Prod.mk.injEq] at hloop
                      obtain ⟨rfl, rfl, rfl⟩ := hloop
                      cases res with
                      | none => simp
                      | some i => simp [atn_exit_log]
                · simp only [if_neg hu]
                  simp [atn_exit_log]
        · simp only [hl, if_false]
          by_cases ht : c = ATN_CODE_TALK ||| m_deviceNumber
          · simp only [ht, if_true]
            cases receive_byte fuel wa with
            | none => rfl
            | some q =>
              obtain ⟨s, wb⟩ := q
              simp only
              by_cases herr2 : wb.m_state &&& errorFlag ≠ 0
              · simp [herr2]
              · simp only [herr2, if_false]
                have hloop := talk_loop_log_cmd fuel fuel 0 { cmd with code := s }
                  { cmd0 with code := s } wb []
                revert hloop
                cases talk_loop_log fuel fuel 0 { cmd with code := s } wb [] with
                | none =>
                  cases talk_loop_log fuel fuel 0 { cmd0 with code := s } wb [] with
                  | none => intro _; rfl
                  | some t0 => intro hloop; simp at hloop
                | some t =>
                  cases talk_loop_log fuel fuel 0 { cmd0 with code := s } wb [] with
                  | none => intro hloop; simp at hloop
                  | some t0 =>
                    obtain ⟨res, cmd2, w3, log⟩ := t
                    obtain ⟨res0, cmd3, w30, log0⟩ := t0
                    intro hloop
                    simp only [Option.map_some', Option.some.injEq, Prod.mk.injEq] at hloop
                    obtain ⟨rfl, rfl, rfl⟩ := hloop
                    cases res with
                    | none => simp
                    | some i =>
                      simp only
                      cases turn_around fuel w3 with
                      | none => rfl
                      | some u =>
                        obtain ⟨ok, w4⟩ := u
                        cases ok <;> simp [atn_exit_log]
          · simp only [ht, if_false]
            cases wait_atn_release fuel
                (pin_write PIN_CLK false (pin_write PIN_DATA false (sleep_us TIMING_ATN_DELAY wa))) with
            | none => rfl
            | some w5 => simp [atn_exit_log]

/-- The record that `check_atn_log` returns pairs the indexes 0, 1, ... with
the bytes stored, at most 40; the array returned is the one given with these
bytes stored from index 0 on; except on ATN_ERROR the fill length returned is
the number of pairs in the record. -/
theorem check_atn_log_shape (fuel : Nat) (cmd : ATNCmd) (w : World) (r : ATNCheck)
    (cmd1 : ATNCmd) (w1 : World) (log : List (Nat × Nat))
    (h : check_atn_log fuel cmd w = some (r, cmd1, w1, log)) :
    ∃ bytes : List Nat, bytes.length ≤ ATN_CMD_MAX_LENGTH ∧ log = List.enumFrom 0 bytes ∧
      cmd1.str = (store_all 0 bytes cmd).str ∧
      (r ≠ ATN_ERROR → cmd1.strLen = (bytes.length : Int)) := by
  unfold check_atn_log at h
  split at h
  · simp only [Option.some.injEq, Prod.mk.injEq] at h
    obtain ⟨rfl, rfl, -, rfl⟩ := h
    exact ⟨[], by simp, rfl, rfl, fun _ => rfl⟩
  · split at h
    · cases h
    · rename_i c wa _
      split at h
      · simp only [Option.some.injEq, Prod.mk.injEq] at h
        obtain ⟨rfl, rfl, -, rfl⟩ := h
        exact ⟨[], by simp, rfl, rfl, fun hne => absurd rfl hne⟩
      · split at h
        · -- LISTEN
          split at h
          · cases h
          · rename_i s wb _
            split at h
            · simp only [Option.some.injEq, Prod.mk.injEq] at h
              obtain ⟨rfl, rfl, -, rfl⟩ := h
              exact ⟨[], by simp, rfl, rfl, fun hne => absurd rfl hne⟩
            · simp only at h
              split at h
              · simp only [atn_exit_log, Option.some.injEq, Prod.mk.injEq] at h
                obtain ⟨rfl, rfl, -, rfl⟩ := h
                exact ⟨[], by simp, rfl, rfl, fun _ => rfl⟩
              · split at h
                · split at h
                  · cases h
                  · rename_i cmd2 w3 log2 hloop
                    simp only [Option.some.injEq, Prod.mk.injEq] at h
                    obtain ⟨rfl, rfl, -, rfl⟩ := h
                    obtain ⟨bytes, hb, hcmd, -, hlog⟩ :=
                      listen_loop_log_shape fuel fuel 0 _ wb _ _ _ _ _ hloop (by simp)
                    exact ⟨bytes, by omega, by simpa using hlog,
                      by rw [hcmd]; exact store_all_str_congr bytes 0 _ _ rfl,
                      fun hne => absurd rfl hne⟩
                  · rename_i i cmd2 w3 log2 hloop
                    simp only [atn_exit_log, Option.some.injEq, Prod.mk.injEq] at h
                    obtain ⟨rfl, rfl, -, rfl⟩ := h
                    obtain ⟨bytes, hb, hcmd, hres, hlog⟩ :=
                      listen_loop_log_shape fuel fuel 0 _ wb _ _ _ _ _ hloop (by simp)
                    have hi : i = bytes.length := by simpa using hres i rfl
                    exact ⟨bytes, by omega, by simpa using hlog,
                      by rw [hcmd]; exact store_all_str_congr bytes 0 _ _ rfl,
                      fun _ => by rw [hi]⟩
                · simp only [atn_exit_log, Option.some.injEq, Prod.mk.injEq] at h
                  obtain ⟨rfl, rfl, -, rfl⟩ := h
                  exact ⟨[], by simp, rfl, rfl, fun _ => rfl⟩
        · split at h
          · -- TALK
            split at h
            · cases h
            · rename_i s wb _
              split at h
              · simp only [Option.some.injEq, Prod.mk.injEq] at h
                obtain ⟨rfl, rfl, -, rfl⟩ := h
                exact ⟨[], by simp, rfl, rfl, fun hne => absurd rfl hne⟩
              · simp only at h
                split at h
                · cases h
                · rename_i cmd2 w3 log2 hloop
                  simp only [Option.some.injEq, Prod.mk.injEq] at h
                  obtain ⟨rfl, rfl, -, rfl⟩ := h
                  obtain ⟨bytes, hb, hcmd, -, hlog⟩ :=
                    talk_loop_log_shape fuel fuel 0 _ wb _ _ _ _ _ hloop (by simp)
                  exact ⟨bytes, by omega, by simpa using hlog,
                    by rw [hcmd]; exact store_all_str_congr bytes 0 _ _ rfl,
                    fun hne => absurd rfl hne⟩
                · rename_i i cmd2 w3 log2 hloop
                  obtain ⟨bytes, hb, hcmd, hres, hlog⟩ :=
                    talk_loop_log_shape fuel fuel 0 _ wb _ _ _ _ _ hloop (by simp)
                  have hi : i = bytes.length := by simpa using hres i rfl
                  split at h
                  · cases h
                  · simp only [Option.some.injEq, Prod.mk.injEq] at h
                    obtain ⟨rfl, rfl, -, rfl⟩ := h
                    exact ⟨bytes, by omega, by simpa using hlog,
                      by rw [hcmd]; exact store_all_str_congr bytes 0 _ _ rfl,
                      fun hne => absurd rfl hne⟩
                  · simp only [atn_exit_log, Option.some.injEq, Prod.mk.injEq] at h
                    obtain ⟨rfl, rfl, -, rfl⟩ := h
                    exact ⟨bytes, by omega, by simpa using hlog,
                      by rw [hcmd]; exact store_all_str_congr bytes 0 _ _ rfl,
                      fun _ => by rw [hi]⟩
          · -- another address
            simp only at h
            split at h
            · cases h
            · simp only [atn_exit_log, Option.some.injEq, Prod.mk.injEq] at h
              obtain ⟨rfl, rfl, -, rfl⟩ := h
              exact ⟨[], by simp, rfl, rfl, fun _ => rfl⟩

/-! ## Error propagation and the idle path -/

/-- A `receive_byte` whose first wait finds CLOCK low for the whole budget:
it returns 0 once ATN reads released, in the world the timeout guard leaves. -/
theorem receive_byte_first_timeout (fuel : Nat) (w : World) (k : Nat)
    (hmiss : ∀ j, j < TIMING_TIMEOUT → w.inp (w.pos + j) = false) (hk : k < fuel)
    (hlow : ∀ j, j < k → w.inp (w.pos + TIMING_TIMEOUT + j) = false)
    (hrel : w.inp (w.pos + TIMING_TIMEOUT + k) = true) :
    receive_byte fuel w =
      some (0, { inp := w.inp, pos := w.pos + TIMING_TIMEOUT + (k + 1),
                 trace := w.trace ++ (poll_events PIN_CLK false 2 TIMING_TIMEOUT ++
                   [Event.write PIN_CLK false, Event.write PIN_DATA false]) ++ atn_events k,
                 m_state := errorFlag }) := by
  have h := ((timeout_wait_outcomes fuel PIN_CLK false { w with m_state := noFlags }).1 hmiss).1
    k hk hlow hrel
  unfold receive_byte
  simp only
  rw [h]

theorem check_atn_address_error (fuel : Nat) (cmd : ATNCmd) (w we : World) (c : Nat)
    (hatn : w.inp w.pos = false)
    (haddr : receive_byte fuel (atn_entry w) = some (c, we))
    (herr : we.m_state &&& errorFlag ≠ 0) :
    check_atn fuel cmd w = some (ATN_ERROR, cmd, we) := by
  have h1 : (pin_read PIN_ATTN w).1 = false := hatn
  unfold check_atn
  rw [if_neg (by simp [h1]), haddr]
  simp only [if_pos herr]

theorem check_atn_secondary_error (fuel : Nat) (cmd : ATNCmd) (w wa we : World) (a c : Nat)
    (hatn : w.inp w.pos = false)
    (haddr : receive_byte fuel (atn_entry w) = some (a, wa))
    (haok : wa.m_state &&& errorFlag = 0)
    (ha : a = ATN_CODE_LISTEN ||| m_deviceNumber ∨ a = ATN_CODE_TALK ||| m_deviceNumber)
    (hsec : receive_byte fuel wa = some (c, we))
    (herr : we.m_state &&& errorFlag ≠ 0) :
    check_atn fuel cmd w = some (ATN_ERROR, cmd, we) := by
  have h1 : (pin_read PIN_ATTN w).1 = false := hatn
  have hne : ¬ (ATN_CODE_TALK ||| m_deviceNumber = ATN_CODE_LISTEN ||| m_deviceNumber) := by decide
  unfold check_atn
  rw [if_neg (by simp [h1]), haddr]
  rcases ha with rfl | rfl
  · simp only [haok, ne_eq, not_true_eq_false, if_false, if_true, hsec, if_pos herr]
  · simp only [haok, ne_eq, not_true_eq_false, if_false, if_true, hne, hsec, if_pos herr]

theorem check_atn_listen_byte_error (fuel : Nat) (cmd : ATNCmd) (w wa wb wc we : World)
    (s c : Nat) (cs : List Nat)
    (hatn : w.inp w.pos = false)
    (haddr : receive_byte fuel (atn_entry w) = some (ATN_CODE_LISTEN ||| m_deviceNumber, wa))
    (haok : wa.m_state &&& errorFlag = 0)
    (hsec : receive_byte fuel wa = some (s, wb)) (hsok : wb.m_state &&& errorFlag = 0)
    (hnl : ¬ (s &&& 0xF0 = ATN_CODE_DATA ∧ s &&& 0xF ≠ CMD_CHANNEL))
    (hnu : s ≠ ATN_CODE_UNLISTEN)
    (hrun : listen_run fuel cs wb = some wc) (hlen : cs.length ≤ ATN_CMD_MAX_LENGTH)
    (hbyte : receive_byte fuel wc = some (c, we)) (herr : we.m_state &&& errorFlag ≠ 0)
    (hfuel : cs.length < fuel) :
    check_atn fuel cmd w = some (ATN_ERROR, store_all 0 cs { cmd with code := s }, we) := by
  obtain ⟨m, hm⟩ : ∃ m, fuel = cs.length + (m + 1) := ⟨fuel - cs.length - 1, by omega⟩
  have hstep := listen_loop_run fuel cs (m + 1) 0 { cmd with code := s } wb wc hrun (by omega)
  rw [← hm] at hstep
  rw [check_atn_listen fuel cmd w wa wb s hatn haddr haok hsec hsok, if_neg hnl, if_pos hnu,
    hstep, listen_loop, hbyte]
  simp only [if_pos herr]

theorem check_atn_talk_byte_error (fuel : Nat) (cmd : ATNCmd) (w wa wb wc we : World)
    (s c : Nat) (passes : List (Option Nat))
    (hatn : w.inp w.pos = false)
    (haddr : receive_byte fuel (atn_entry w) = some (ATN_CODE_TALK ||| m_deviceNumber, wa))
    (haok : wa.m_state &&& errorFlag = 0)
    (hsec : receive_byte fuel wa = some (s, wb)) (hsok : wb.m_state &&& errorFlag = 0)
    (hrun : talk_run fuel passes wb = some wc)
    (hlen : (pass_bytes passes).length ≤ ATN_CMD_MAX_LENGTH)
    (hatn1 : wc.inp wc.pos = false) (hclk : wc.inp (wc.pos + 1) = true)
    (hbyte : receive_byte fuel (pin_read PIN_CLK (pin_read PIN_ATTN wc).2).2 = some (c, we))
    (herr : we.m_state &&& errorFlag ≠ 0)
    (hfuel : passes.length < fuel) :
    check_atn fuel cmd w =
      some (ATN_ERROR, store_all 0 (pass_bytes passes) { cmd with code := s }, we) := by
  obtain ⟨m, hm⟩ : ∃ m, fuel = passes.length + (m + 1) := ⟨fuel - passes.length - 1, by omega⟩
  have hstep := talk_loop_run fuel passes (m + 1) 0 { cmd with code := s } wb wc hrun (by omega)
  rw [← hm] at hstep
  have h1 : (pin_read PIN_ATTN wc).1 = false := hatn1
  have h2 : (pin_read PIN_CLK (pin_read PIN_ATTN wc).2).1 = true := hclk
  rw [check_atn_talk fuel cmd w wa wb s hatn haddr haok hsec hsok, hstep, talk_loop]
  simp only [h1, h2, if_true, if_false, Bool.false_eq_true, hbyte, if_pos herr]

/-- C11: ATN is asserted at entry.  Whichever call of `receive_byte` ends with
the error flag set (for the address byte, for the secondary byte after
LISTEN|device or TALK|device, for a byte of the LISTEN loop after the bytes
`cs`, or for a byte of the TALK loop after `passes`), `check_atn` returns
ATN_ERROR and the world it returns is the very world `we` that this call
returned: nothing is sampled, written or received after it. -/
theorem check_atn_error_propagation (fuel : Nat) (cmd : ATNCmd) (w we : World) (c : Nat)
    (hatn : w.inp w.pos = false) (herr : we.m_state &&& errorFlag ≠ 0) :
    (receive_byte fuel (atn_entry w) = some (c, we) →
      check_atn fuel cmd w = some (ATN_ERROR, cmd, we)) ∧
    (∀ (a : Nat) (wa : World), receive_byte fuel (atn_entry w) = some (a, wa) →
      wa.m_state &&& errorFlag = 0 →
      (a = ATN_CODE_LISTEN ||| m_deviceNumber ∨ a = ATN_CODE_TALK ||| m_deviceNumber) →
      receive_byte fuel wa = some (c, we) →
      check_atn fuel cmd w = some (ATN_ERROR, cmd, we)) ∧
    (∀ (wa wb wc : World) (s : Nat) (cs : List Nat),
      receive_byte fuel (atn_entry w) = some (ATN_CODE_LISTEN ||| m_deviceNumber, wa) →
      wa.m_state &&& errorFlag = 0 →
      receive_byte fuel wa = some (s, wb) → wb.m_state &&& errorFlag = 0 →
      ¬ (s &&& 0xF0 = ATN_CODE_DATA ∧ s &&& 0xF ≠ CMD_CHANNEL) → s ≠ ATN_CODE_UNLISTEN →
      listen_run fuel cs wb = some wc → cs.length ≤ ATN_CMD_MAX_LENGTH →
      receive_byte fuel wc = some (c, we) → cs.length < fuel →
      check_atn fuel cmd w = some (ATN_ERROR, store_all 0 cs { cmd with code := s }, we)) ∧
    (∀ (wa wb wc : World) (s : Nat) (passes : List (Option Nat)),
      receive_byte fuel (atn_entry w) = some (ATN_CODE_TALK ||| m_deviceNumber, wa) →
      wa.m_state &&& errorFlag = 0 →
      receive_byte fuel wa = some (s, wb) → wb.m_state &&& errorFlag = 0 →
      talk_run fuel passes wb = some wc →
      (pass_bytes passes).length ≤ ATN_CMD_MAX_LENGTH →
      wc.inp wc.pos = false → wc.inp (wc.pos + 1) = true →
      receive_byte fuel (pin_read PIN_CLK (pin_read PIN_ATTN wc).2).2 = some (c, we) →
      passes.length < fuel →
      check_atn fuel cmd w =
        some (ATN_ERROR, store_all 0 (pass_bytes passes) { cmd with code := s }, we)) :=
  ⟨fun haddr => check_atn_address_error fuel cmd w we c hatn haddr herr,
   fun a wa haddr haok ha hsec =>
     check_atn_secondary_error fuel cmd w wa we a c hatn haddr haok ha hsec herr,
   fun wa wb wc s cs haddr haok hsec hsok hnl hnu hrun hlen hbyte hfuel =>
     check_atn_listen_byte_error fuel cmd w wa wb wc we s c cs hatn haddr haok hsec hsok hnl hnu
       hrun hlen hbyte herr hfuel,
   fun wa wb wc s passes haddr haok hsec hsok hrun hlen hatn1 hclk hbyte hfuel =>
     check_atn_talk_byte_error fuel cmd w wa wb wc we s c passes hatn haddr haok hsec hsok hrun
       hlen hatn1 hclk hbyte herr hfuel⟩

/-- C11 on a bus whose CLOCK stays low for the whole first wait of the address
byte, and on a bus that sends LISTEN|8 and then keeps CLOCK low. -/
theorem check_atn_error_propagation_witness :
    check_atn 3 cmd_zero stuck_world =
      some (ATN_ERROR, cmd_zero,
        { inp := (atn_entry stuck_world).inp,
          pos := (atn_entry stuck_world).pos + TIMING_TIMEOUT + (0 + 1),
          trace := (atn_entry stuck_world).trace ++ (poll_events PIN_CLK false 2 TIMING_TIMEOUT ++
            [Event.write PIN_CLK false, Event.write PIN_DATA false]) ++ atn_events 0,
          m_state := errorFlag }) ∧
    check_atn 3 cmd_zero secondary_timeout_bus =
      some (ATN_ERROR, cmd_zero,
        { inp := (after_bytes 3 1 (atn_entry secondary_timeout_bus)).inp,
          pos := (after_bytes 3 1 (atn_entry secondary_timeout_bus)).pos + TIMING_TIMEOUT + (1 + 1),
          trace := (after_bytes 3 1 (atn_entry secondary_timeout_bus)).trace ++
            (poll_events PIN_CLK false 2 TIMING_TIMEOUT ++
              [Event.write PIN_CLK false, Event.write PIN_DATA false]) ++ atn_events 1,
          m_state := errorFlag }) := by
  have hp : (after_bytes 3 1 (atn_entry secondary_timeout_bus)).pos = 28 := rfl
  have hi : (after_bytes 3 1 (atn_entry secondary_timeout_bus)).inp = secondary_timeout_bus.inp :=
    rfl
  have hq : (atn_entry stuck_world).pos = 1 := rfl
  have hj : (atn_entry stuck_world).inp = stuck_world.inp := rfl
  constructor
  · exact (check_atn_error_propagation 3 cmd_zero stuck_world _ 0 rfl (by decide)).1
      (receive_byte_first_timeout 3 (atn_entry stuck_world) 0
        (by
          intro j hlt
          rw [hj, hq]
          simp only [TIMING_TIMEOUT] at hlt
          simp [stuck_world]
          omega)
        (by decide) (by intro j hlt; omega)
        (by rw [hj, hq]; simp [stuck_world, TIMING_TIMEOUT]))
  · exact (check_atn_error_propagation 3 cmd_zero secondary_timeout_bus _ 0 rfl (by decide)).2.1
      0x28 (after_bytes 3 1 (atn_entry secondary_timeout_bus)) rfl rfl (Or.inl rfl)
      (receive_byte_first_timeout 3 (after_bytes 3 1 (atn_entry secondary_timeout_bus)) 1
        (by
          intro j hlt
          rw [hi, hp]
          simp only [TIMING_TIMEOUT] at hlt
          simp only [secondary_timeout_bus]
          rw [if_neg (by omega), if_neg (by omega)]
          simp
          omega)
        (by decide)
        (by
          intro j hlt
          rw [hi, hp]
          simp only [secondary_timeout_bus, TIMING_TIMEOUT]
          rw [if_neg (by omega), if_neg (by omega)]
          simp
          omega)
        (by
          rw [hi, hp]
          simp [secondary_timeout_bus, TIMING_TIMEOUT]))

/-- C12: when ATN is sampled released at entry, `check_atn` returns ATN_IDLE
with `strLen = 0` and `code` and `str` as they were; all it does is that one
sample of ATN, release DATA, release CLOCK.  Run again on the command it
returned, with ATN again sampled released, it returns the same classification
and the same command. -/
theorem check_atn_idle (fuel : Nat) (cmd : ATNCmd) (w : World) (hatn : w.inp w.pos = true) :
    check_atn fuel cmd w =
      some (ATN_IDLE, { cmd with strLen := 0 },
        advance 1 [Event.read PIN_ATTN true, Event.write PIN_DATA false,
          Event.write PIN_CLK false] w) ∧
    ∀ (fuel1 : Nat) (w1 : World), w1.inp w1.pos = true →
      check_atn fuel1 { cmd with strLen := 0 } w1 =
        some (ATN_IDLE, { cmd with strLen := 0 },
          advance 1 [Event.read PIN_ATTN true, Event.write PIN_DATA false,
            Event.write PIN_CLK false] w1) := by
  have key : ∀ (f : Nat) (c : ATNCmd) (v : World), v.inp v.pos = true →
      check_atn f c v =
        some (ATN_IDLE, { c with strLen := 0 },
          advance 1 [Event.read PIN_ATTN true, Event.write PIN_DATA false,
            Event.write PIN_CLK false] v) := by
    intro f c v hv
    have h1 : (pin_read PIN_ATTN v).1 = true := hv
    unfold check_atn
    rw [if_pos h1]
    simp [advance, pin_write, pin_read, hv]
  exact ⟨key fuel cmd w hatn, fun fuel1 w1 h1 => key fuel1 _ w1 h1⟩

/-- C12 on the idle bus. -/
theorem check_atn_idle_witness :
    check_atn 0 cmd_zero idle_world =
      some (ATN_IDLE, { cmd_zero with strLen := 0 },
        advance 1 [Event.read PIN_ATTN true, Event.write PIN_DATA false,
          Event.write PIN_CLK false] idle_world) :=
  (check_atn_idle 0 cmd_zero idle_world rfl).1

theorem listen_bus_of_idle (fuel : Nat) (m_cmd cmd : ATNCmd) (w w1 : World)
    (h : check_atn fuel m_cmd w = some (ATN_IDLE, cmd, w1)) :
    listen_bus fuel m_cmd w = some (cmd, w1) := by
  unfold listen_bus
  rw [h]
  simp

/-- C20: in the LISTEN branch, when the secondary byte received without error
is UNLISTEN, `check_atn` returns ATN_IDLE with `strLen = 0` and `code = 0x3F`
right after the post-ATN delay, without another byte, and `listen_bus`
returns with that command and in that world: it does nothing more. -/
theorem check_atn_listen_unlisten (fuel : Nat) (cmd : ATNCmd) (w wa wb : World)
    (hatn : w.inp w.pos = false)
    (haddr : receive_byte fuel (atn_entry w) = some (ATN_CODE_LISTEN ||| m_deviceNumber, wa))
    (haok : wa.m_state &&& errorFlag = 0)
    (hsec : receive_byte fuel wa = some (ATN_CODE_UNLISTEN, wb))
    (hsok : wb.m_state &&& errorFlag = 0) :
    check_atn fuel cmd w =
      some (ATN_IDLE, { cmd with code := 0x3F, strLen := 0 }, sleep_us TIMING_ATN_DELAY wb) ∧
    listen_bus fuel cmd w =
      some ({ cmd with code := 0x3F, strLen := 0 }, sleep_us TIMING_ATN_DELAY wb) := by
  have hc : ¬ (ATN_CODE_UNLISTEN &&& 0xF0 = ATN_CODE_DATA ∧
      ATN_CODE_UNLISTEN &&& 0xF ≠ CMD_CHANNEL) := by decide
  have hcheck : check_atn fuel cmd w =
      some (ATN_IDLE, { cmd with code := 0x3F, strLen := 0 }, sleep_us TIMING_ATN_DELAY wb) := by
    rw [check_atn_listen fuel cmd w wa wb ATN_CODE_UNLISTEN hatn haddr haok hsec hsok, if_neg hc,
      if_neg (by simp)]
    rfl
  exact ⟨hcheck, listen_bus_of_idle fuel cmd _ w _ hcheck⟩

/-- C20 on a bus that sends LISTEN|8 and UNLISTEN. -/
theorem check_atn_listen_unlisten_witness :
    check_atn 3 cmd_zero unlisten_bus =
      some (ATN_IDLE, { cmd_zero with code := 0x3F, strLen := 0 },
        sleep_us TIMING_ATN_DELAY (after_bytes 3 2 (atn_entry unlisten_bus))) ∧
    listen_bus 3 cmd_zero unlisten_bus =
      some ({ cmd_zero with code := 0x3F, strLen := 0 },
        sleep_us TIMING_ATN_DELAY (after_bytes 3 2 (atn_entry unlisten_bus))) :=
  check_atn_listen_unlisten 3 cmd_zero unlisten_bus (after_bytes 3 1 (atn_entry unlisten_bus))
    (after_bytes 3 2 (atn_entry unlisten_bus)) rfl rfl rfl rfl rfl

/-! ## Fill length -/

/-- C15: if the fill length is between 0 and 40 before the call, then for
every result of `check_atn` it is between 0 and 40 after it, and the array is
the one before the call plus at most 40 bytes stored from index 0 on: every
element at an index from 40 on is as before. -/
theorem check_atn_fill_length (fuel : Nat) (cmd : ATNCmd) (w : World) (r : ATNCheck)
    (cmd1 : ATNCmd) (w1 : World)
    (h0 : 0 ≤ cmd.strLen) (h40 : cmd.strLen ≤ (ATN_CMD_MAX_LENGTH : Int))
    (h : check_atn fuel cmd w = some (r, cmd1, w1)) :
    0 ≤ cmd1.strLen ∧ cmd1.strLen ≤ (ATN_CMD_MAX_LENGTH : Int) ∧
    (∀ k, ATN_CMD_MAX_LENGTH ≤ k → cmd1.str k = cmd.str k) ∧
    ∃ bytes : List Nat, bytes.length ≤ ATN_CMD_MAX_LENGTH ∧
      cmd1.str = (store_all 0 bytes cmd).str := by
  obtain ⟨bytes, hb, hstr, herr, hok, -, -⟩ := check_atn_shape fuel cmd w r cmd1 w1 h
  have hlen : 0 ≤ cmd1.strLen ∧ cmd1.strLen ≤ (ATN_CMD_MAX_LENGTH : Int) := by
    by_cases hr : r = ATN_ERROR
    · rw [herr hr]; exact ⟨h0, h40⟩
    · rw [hok hr]
      exact ⟨Int.ofNat_nonneg _, by exact_mod_cast hb⟩
  refine ⟨hlen.1, hlen.2, ?_, bytes, hb, hstr⟩
  intro k hk
  rw [hstr]
  exact store_all_outside bytes 0 cmd k (Or.inr (by omega))

/-- C15 on the attention sequence of the spec. -/
theorem check_atn_fill_length_witness :
    0 ≤ command_result.2.1.strLen ∧ command_result.2.1.strLen ≤ (ATN_CMD_MAX_LENGTH : Int) ∧
    (∀ k, ATN_CMD_MAX_LENGTH ≤ k → command_result.2.1.str k = cmd_zero.str k) ∧
    ∃ bytes : List Nat, bytes.length ≤ ATN_CMD_MAX_LENGTH ∧
      command_result.2.1.str = (store_all 0 bytes cmd_zero).str :=
  check_atn_fill_length 3 cmd_zero command_bus command_result.1 command_result.2.1
    command_result.2.2 (by decide) (by decide) (option_eq_some_getD (check_atn 3 cmd_zero command_bus)
      (ATN_IDLE, cmd_zero, command_bus) rfl)

/-- C16, as the code has it: for every result of `check_atn` other than
ATN_ERROR the fill length returned is the number of stores `cmd->str[i++] = c`
executed during the call.  These stores, at most 40, went to the indexes
0, 1, ... in this order, and the array returned is the one given with their
bytes stored from index 0 on.  Neither the result nor the stores depend on the
fill length before the call. -/
theorem check_atn_strlen_on_return (fuel : Nat) (cmd : ATNCmd) (w : World) (r : ATNCheck)
    (cmd1 : ATNCmd) (w1 : World) (h : check_atn fuel cmd w = some (r, cmd1, w1))
    (hr : r ≠ ATN_ERROR) :
    check_atn_log fuel cmd w = some (r, cmd1, w1, appended fuel cmd w) ∧
    cmd1.strLen = ((appended fuel cmd w).length : Int) ∧
    (appended fuel cmd w).length ≤ ATN_CMD_MAX_LENGTH ∧
    (appended fuel cmd w).map Prod.fst = List.range (appended fuel cmd w).length ∧
    cmd1.str = (store_all 0 ((appended fuel cmd w).map Prod.snd) cmd).str ∧
    ∀ len : Int, check_atn fuel (set_len len cmd) w = some (r, cmd1, w1) ∧
      appended fuel (set_len len cmd) w = appended fuel cmd w := by
  have herase := check_atn_log_erase fuel cmd w
  rw [h] at herase
  cases hlog : check_atn_log fuel cmd w with
  | none => rw [hlog] at herase; cases herase
  | some p =>
    obtain ⟨r0, cmd0, w0, log⟩ := p
    rw [hlog] at herase
    simp only [Option.map_some', drop_log, Option.some.injEq, Prod.mk.injEq] at herase
    obtain ⟨rfl, rfl, rfl⟩ := herase
    have happ : appended fuel cmd w = log := by simp [appended, hlog]
    obtain ⟨bytes, hb, hl, hstr, hlen⟩ := check_atn_log_shape fuel cmd w _ _ _ log hlog
    have hsnd : log.map Prod.snd = bytes := by rw [hl]; exact List.enumFrom_map_snd 0 bytes
    have hlength : log.length = bytes.length := by rw [hl]; exact List.enumFrom_length
    rw [happ]
    refine ⟨rfl, ?_, ?_, ?_, ?_, ?_⟩
    · rw [hlen hr, hlength]
    · rw [hlength]; exact hb
    · rw [hlength, hl, List.enumFrom_map_fst, List.range_eq_range']
    · rw [hsnd]; exact hstr
    · intro len
      refine ⟨?_, ?_⟩
      · rw [check_atn_set_len, h]
        simp [relen, hr]
      · have hc := check_atn_log_cmd fuel (set_len len cmd) cmd w
        unfold appended
        have hc1 := congrArg (Option.map (fun q : ATNCheck × World × List (Nat × Nat) => q.2.2)) hc
        simp only [Option.map_map] at hc1
        rw [hlog] at hc1
        cases hs : check_atn_log fuel (set_len len cmd) w with
        | none => rw [hs] at hc1; simp at hc1
        | some q => rw [hs] at hc1; simpa using hc1

/-- C16 on the attention sequence of the spec, which gives ATN_CMD after the
stores of 0x41 at index 0 and of 0x42 at index 1. -/
theorem check_atn_strlen_on_return_witness :
    command_result.1 ≠ ATN_ERROR ∧
    appended 3 cmd_zero command_bus = [(0, 0x41), (1, 0x42)] ∧
    command_result.2.1.strLen = ((appended 3 cmd_zero command_bus).length : Int) ∧
    ∀ len : Int, check_atn 3 (set_len len cmd_zero) command_bus =
        some (command_result.1, command_result.2.1, command_result.2.2) ∧
      appended 3 (set_len len cmd_zero) command_bus = appended 3 cmd_zero command_bus :=
  ⟨by decide, rfl,
    (check_atn_strlen_on_return 3 cmd_zero command_bus command_result.1 command_result.2.1
      command_result.2.2
      (option_eq_some_getD (check_atn 3 cmd_zero command_bus)
        (ATN_IDLE, cmd_zero, command_bus) rfl)
      (by decide)).2.1,
    (check_atn_strlen_on_return 3 cmd_zero command_bus command_result.1 command_result.2.1
      command_result.2.2
      (option_eq_some_getD (check_atn 3 cmd_zero command_bus)
        (ATN_IDLE, cmd_zero, command_bus) rfl)
      (by decide)).2.2.2.2.2⟩

/-- C16 as the spec words it fails: on a bus whose CLOCK stays low, the address
byte times out and `check_atn` returns ATN_ERROR with the array untouched (no
byte was stored) and the fill length it was given, 7 in one run and 5 in
another. -/
theorem check_atn_error_keeps_fill_length :
    ∃ w1, check_atn 3 (set_len 7 cmd_zero) stuck_world =
        some (ATN_ERROR, set_len 7 cmd_zero, w1) ∧
      check_atn 3 (set_len 5 cmd_zero) stuck_world =
        some (ATN_ERROR, set_len 5 cmd_zero, w1) ∧
      (set_len 7 cmd_zero).str = cmd_zero.str ∧
      (set_len 7 cmd_zero).strLen ≠ 0 ∧
      (set_len 7 cmd_zero).strLen ≠ (set_len 5 cmd_zero).strLen := by
  have hq : (atn_entry stuck_world).pos = 1 := rfl
  have hj : (atn_entry stuck_world).inp = stuck_world.inp := rfl
  have hrecv := receive_byte_first_timeout 3 (atn_entry stuck_world) 0
    (by
      intro j hlt
      rw [hj, hq]
      simp only [TIMING_TIMEOUT] at hlt
      simp [stuck_world]
      omega)
    (by decide) (by intro j hlt; omega)
    (by rw [hj, hq]; simp [stuck_world, TIMING_TIMEOUT])
  exact ⟨_, check_atn_address_error 3 _ stuck_world _ 0 rfl hrecv (by decide),
    check_atn_address_error 3 _ stuck_world _ 0 rfl hrecv (by decide), rfl, by decide, by decide⟩

/-! ## The dispatcher -/

theorem receive_data_run (fuel : Nat) :
    ∀ (k steps : Nat) (w w2 w3 : World) (b : Nat),
      quiet_run fuel k w = some w2 → receive_byte fuel w2 = some (b, w3) →
      ¬ (w3.m_state &&& errorFlag = 0 ∧ w3.m_state &&& eoiFlag = 0) →
      receive_data fuel (k + (steps + 1)) w = some w3 := by
  intro k
  induction k with
  | zero =>
    intro steps w w2 w3 b hq hlast hflag
    simp only [quiet_run, Option.some.injEq] at hq
    subst hq
    rw [Nat.zero_add, receive_data, hlast]
    simp only [if_neg hflag]
  | succ k ih =>
    intro steps w w2 w3 b hq hlast hflag
    rw [quiet_run] at hq
    cases hr : receive_byte fuel w with
    | none => rw [hr] at hq; cases hq
    | some p =>
      obtain ⟨c, wn⟩ := p
      rw [hr] at hq
      simp only at hq
      split at hq
      · rename_i hquiet
        have hsteps : k + 1 + (steps + 1) = (k + (steps + 1)) + 1 := by omega
        rw [hsteps, receive_data, hr]
        simp only [if_pos hquiet]
        exact ih steps wn w2 w3 b hq hlast hflag
      · cases hq

/-- What `listen_bus` does after `check_atn` has returned ATN_CMD_LISTEN: it
terminates the string and runs the receive loop. -/
theorem listen_bus_of_listen (fuel : Nat) (m_cmd cmd1 : ATNCmd) (w w1 : World)
    (hcheck : check_atn fuel m_cmd w = some (ATN_CMD_LISTEN, cmd1, w1)) :
    listen_bus fuel m_cmd w =
      (receive_data fuel fuel w1).map
        (fun w2 => ({ cmd1 with str := Function.update cmd1.str cmd1.strLen.toNat 0 }, w2)) := by
  obtain ⟨bytes, -, -, -, -, hcode, -⟩ := check_atn_shape fuel m_cmd w _ cmd1 w1 hcheck
  have hdata := (hcode rfl).1
  have hopen : ¬ (cmd1.code &&& 0xF0 = ATN_CODE_OPEN) := by
    rw [hdata]; decide
  unfold listen_bus
  rw [hcheck]
  simp only [if_neg (show ¬ ATN_CMD_LISTEN = ATN_ERROR by decide),
    if_neg (show ¬ ATN_CMD_LISTEN = ATN_IDLE by decide), if_neg hopen, if_pos hdata,
    if_neg (show ¬ ATN_CMD_LISTEN = ATN_CMD_TALK by decide), if_true]
  cases receive_data fuel fuel w1 <;> rfl

/-- C17: `check_atn` returns ATN_CMD_LISTEN; from the world it returns,
`k` calls of `receive_byte` return with neither the error flag nor the EOI
flag, and the call after them, the `k+1`-th, returns with one of the two set.
Then `listen_bus` returns in the very world that this `k+1`-th call
returned: it has made these `k+1` calls, at least one, and nothing after
them. -/
theorem listen_bus_data_loop (fuel : Nat) (m_cmd cmd1 : ATNCmd) (w w1 w2 w3 : World) (k b : Nat)
    (hcheck : check_atn fuel m_cmd w = some (ATN_CMD_LISTEN, cmd1, w1))
    (hquiet : quiet_run fuel k w1 = some w2)
    (hlast : receive_byte fuel w2 = some (b, w3))
    (hflag : w3.m_state &&& errorFlag ≠ 0 ∨ w3.m_state &&& eoiFlag ≠ 0)
    (hfuel : k < fuel) :
    listen_bus fuel m_cmd w =
      some ({ cmd1 with str := Function.update cmd1.str cmd1.strLen.toNat 0 }, w3) := by
  obtain ⟨m, hm⟩ : ∃ m, fuel = k + (m + 1) := ⟨fuel - k - 1, by omega⟩
  have hrun := receive_data_run fuel k m w1 w2 w3 b hquiet hlast
    (by rintro ⟨h1, h2⟩; rcases hflag with h | h <;> contradiction)
  rw [← hm] at hrun
  rw [listen_bus_of_listen fuel m_cmd cmd1 w w1 hcheck, hrun]
  rfl

set_option maxRecDepth 1000000 in
/-- C17 on a bus that opens data channel 2 and sends 0x41 and then, with EOI,
0x42: two calls of `receive_byte`. -/
theorem listen_bus_data_loop_witness :
    listen_bus 3 cmd_zero data_listen_bus =
      some ({ code := 0x62, str := Function.update cmd_zero.str 0 0, strLen := 0 },
        after_bytes 3 2
          (sleep_us TIMING_ATN_DELAY (after_bytes 3 2 (atn_entry data_listen_bus)))) :=
  listen_bus_data_loop 3 cmd_zero { cmd_zero with code := 0x62, strLen := 0 } data_listen_bus
    (sleep_us TIMING_ATN_DELAY (after_bytes 3 2 (atn_entry data_listen_bus)))
    (after_bytes 3 1 (sleep_us TIMING_ATN_DELAY (after_bytes 3 2 (atn_entry data_listen_bus))))
    (after_bytes 3 2 (sleep_us TIMING_ATN_DELAY (after_bytes 3 2 (atn_entry data_listen_bus))))
    1 0x42
    rfl rfl rfl (Or.inr (by decide)) (by decide)

set_option maxRecDepth 1000000 in
set_option maxHeartbeats 4000000 in
/-- C18 fails on the code: after LISTEN|8, the secondary byte 0x6F, 40 bytes
0x41 and UNLISTEN, `check_atn` returns ATN_CMD with `strLen = 40`, and
`listen_bus` stores the terminating 0 at index 40, one past the last element
of the array: started on an array of 0xFF, index 39 holds the last byte and
index 40 reads 0 afterwards. -/
theorem listen_bus_terminator_out_of_bounds :
    (check_atn 42 cmd_ones full_command_bus).map (fun r => (r.1, r.2.1.strLen)) =
      some (ATN_CMD, 40) ∧
    ¬ ((40 : Int) < (ATN_CMD_MAX_LENGTH : Int)) ∧
    cmd_ones.str 40 = 0xFF ∧
    (listen_bus 42 cmd_ones full_command_bus).map
        (fun r => (r.1.strLen, r.1.str 39, r.1.str 40)) =
      some (40, 0x41, 0) :=
  ⟨rfl, by decide, rfl, rfl⟩

/-! ## Traces of calls that time out -/

theorem trace_extends_refl (w : World) : trace_extends w w := ⟨[], by simp⟩

theorem trace_extends_trans (w w1 w2 : World) (h1 : trace_extends w w1)
    (h2 : trace_extends w1 w2) : trace_extends w w2 := by
  obtain ⟨e1, h1⟩ := h1
  obtain ⟨e2, h2⟩ := h2
  exact ⟨e1 ++ e2, by rw [h2, h1, List.append_assoc]⟩

theorem ends_in_timeout_of_extends (pin : PIN) (w w1 w2 : World) (h1 : trace_extends w w1)
    (h2 : ends_in_timeout pin w1 w2) : ends_in_timeout pin w w2 := by
  obtain ⟨e1, h1⟩ := h1
  obtain ⟨pre, wh, k, h2⟩ := h2
  exact ⟨e1 ++ pre, wh, k, by rw [h2, h1]; simp [List.append_assoc]⟩

theorem trace_extends_of_ends (pin : PIN) (w w1 : World) (h : ends_in_timeout pin w w1) :
    trace_extends w w1 := by
  obtain ⟨pre, wh, k, h⟩ := h
  exact ⟨_, h⟩

theorem new_events_of_trace (w w1 : World) (evs : List Event)
    (h : w1.trace = w.trace ++ evs) : new_events w w1 = evs := by
  simp [new_events, h]

theorem trace_extends_advance (n : Nat) (evs : List Event) (w : World) :
    trace_extends w (advance n evs w) := ⟨evs, rfl⟩

theorem trace_extends_pin_write (pin : PIN) (d : Bool) (w : World) :
    trace_extends w (pin_write pin d w) := ⟨_, rfl⟩

theorem trace_extends_sleep (us : Nat) (w : World) : trace_extends w (sleep_us us w) := ⟨_, rfl⟩

theorem trace_extends_pin_read (pin : PIN) (w : World) :
    trace_extends w (pin_read pin w).2 := ⟨_, rfl⟩

theorem wait_atn_release_inv (fuel : Nat) (w w1 : World) (h : wait_atn_release fuel w = some w1) :
    ∃ k, k < fuel ∧ w1 = advance (k + 1) (atn_events k) w := by
  rcases first_hit w false fuel with ⟨k, hk, hlow, hhit⟩ | hlow
  · rw [wait_atn_release_hit k fuel w hk hlow (by simpa using hhit)] at h
    simp only [Option.some.injEq] at h
    exact ⟨k, hk, h.symm⟩
  · rw [wait_atn_release_stuck fuel w hlow] at h
    cases h

/-- A `timeout_wait` that returns `true` has used up its budget, released the
lines and waited for ATN. -/
theorem timeout_wait_true (fuel : Nat) (pin : PIN) (wh : Bool) (w w1 : World)
    (h : timeout_wait fuel pin wh w = some (true, w1)) :
    (∃ k, w1.trace = w.trace ++ timeout_events pin wh k) ∧ w1.m_state = errorFlag ∧
      ∀ j, j < TIMING_TIMEOUT → w.inp (w.pos + j) = wh := by
  rcases first_hit w wh TIMING_TIMEOUT with ⟨k, hk, hlow, hhit⟩ | hmiss
  · rw [timeout_wait_hit fuel pin wh k w hk hlow hhit] at h
    simp at h
  · rw [timeout_wait_expired fuel pin wh w hmiss] at h
    cases hw : wait_atn_release fuel (timed_out pin wh w) with
    | none => rw [hw] at h; cases h
    | some w2 =>
      rw [hw] at h
      simp only [Option.map_some', Option.some.injEq, Prod.mk.injEq, true_and] at h
      subst h
      obtain ⟨k, -, rfl⟩ := wait_atn_release_inv fuel _ _ hw
      exact ⟨⟨k, by simp [advance, timed_out, timeout_events, List.append_assoc]⟩, rfl, hmiss⟩

/-- A `timeout_wait` that returns `false` ended at one of its samples. -/
theorem timeout_wait_false (fuel : Nat) (pin : PIN) (wh : Bool) (w w1 : World)
    (h : timeout_wait fuel pin wh w = some (false, w1)) :
    ∃ k, k < TIMING_TIMEOUT ∧ w1 = advance (k + 1) (wait_events pin wh k) w ∧
      (∀ j, j < k → w.inp (w.pos + j) = wh) ∧ w.inp (w.pos + k) = (!wh) := by
  rcases timeout_wait_cases fuel pin wh w with ⟨k, hk, hlow, hhit, hw⟩ | ⟨-, hto⟩
  · rw [hw fuel] at h
    simp only [Option.some.injEq, Prod.mk.injEq, true_and] at h
    exact ⟨k, hk, h.symm, hlow, hhit⟩
  · have := (hto false w1 h).1
    cases this

theorem timeout_wait_extends (fuel : Nat) (pin : PIN) (wh : Bool) (w w1 : World) (r : Bool)
    (h : timeout_wait fuel pin wh w = some (r, w1)) : trace_extends w w1 := by
  cases r with
  | true =>
    obtain ⟨⟨k, hk⟩, -, -⟩ := timeout_wait_true fuel pin wh w w1 h
    exact ⟨_, hk⟩
  | false =>
    obtain ⟨k, -, rfl, -, -⟩ := timeout_wait_false fuel pin wh w w1 h
    exact trace_extends_advance _ _ _

theorem timeout_wait_ends (fuel : Nat) (pin : PIN) (wh : Bool) (w w1 : World)
    (h : timeout_wait fuel pin wh w = some (true, w1)) : ends_in_timeout pin w w1 := by
  obtain ⟨⟨k, hk⟩, -, -⟩ := timeout_wait_true fuel pin wh w w1 h
  exact ⟨[], wh, k, by simpa using hk⟩

theorem eoi_poll_extends : ∀ (r n : Nat) (w : World), trace_extends w (eoi_poll r n w).2 := by
  intro r
  induction r with
  | zero => intro n w; exact trace_extends_refl w
  | succ r ih =>
    intro n w
    rw [eoi_poll]
    split
    · exact trace_extends_trans _ _ _
        (trace_extends_trans _ _ _ (trace_extends_pin_read _ _) (trace_extends_sleep _ _))
        (ih _ _)
    · exact trace_extends_pin_read _ _

/-- The bit loop of `receive_byte` left through a `return 0`: the events end
with a wait on CLOCK that timed out. -/
theorem receive_bits_ends (fuel : Nat) :
    ∀ (n data : Nat) (w w1 : World), receive_bits fuel n data w = some (none, w1) →
      ends_in_timeout PIN_CLK w w1 := by
  intro n
  induction n with
  | zero => intro data w w1 h; simp [receive_bits] at h
  | succ n ih =>
    intro data w w1 h
    rw [receive_bits] at h
    cases hw : timeout_wait fuel PIN_CLK false w with
    | none => rw [hw] at h; cases h
    | some p =>
      obtain ⟨r, wa⟩ := p
      rw [hw] at h
      cases r with
      | true =>
        simp only [Option.some.injEq, Prod.mk.injEq, true_and] at h
        subst h
        exact timeout_wait_ends fuel _ _ _ _ hw
      | false =>
        simp only at h
        have e1 := trace_extends_trans _ _ _ (timeout_wait_extends fuel _ _ _ _ _ hw)
          (trace_extends_pin_read PIN_DATA wa)
        cases hw2 : timeout_wait fuel PIN_CLK true (pin_read PIN_DATA wa).2 with
        | none => rw [hw2] at h; cases h
        | some q =>
          obtain ⟨r2, wb⟩ := q
          rw [hw2] at h
          cases r2 with
          | true =>
            simp only [Option.some.injEq, Prod.mk.injEq, true_and] at h
            subst h
            exact ends_in_timeout_of_extends _ _ _ _ e1 (timeout_wait_ends fuel _ _ _ _ hw2)
          | false =>
            simp only at h
            exact ends_in_timeout_of_extends _ _ _ _
              (trace_extends_trans _ _ _ e1 (timeout_wait_extends fuel _ _ _ _ _ hw2))
              (ih _ _ _ h)

theorem receive_tail_ends (fuel : Nat) (w : World) (b : Nat) (w1 : World)
    (h : receive_tail fuel w = some (b, w1)) (herr : w1.m_state = errorFlag)
    (hw : w.m_state = noFlags ∨ w.m_state = noFlags ||| eoiFlag) :
    ends_in_timeout PIN_CLK w w1 := by
  rcases receive_tail_cases fuel w b w1 h with ⟨-, -⟩ | ⟨cycles, atn, -, -, -, -, hm, -, -⟩
  · unfold receive_tail at h
    simp only at h
    split at h
    · cases h
    · rename_i w2 hb
      simp only [Option.some.injEq, Prod.mk.injEq] at h
      obtain ⟨-, rfl⟩ := h
      have e1 : trace_extends w
          (if (pin_read PIN_ATTN w).1 = false then
            { (pin_read PIN_ATTN w).2 with m_state := (pin_read PIN_ATTN w).2.m_state ||| atnFlag }
           else (pin_read PIN_ATTN w).2) := by
        split
        · exact ⟨_, rfl⟩
        · exact ⟨_, rfl⟩
      exact ends_in_timeout_of_extends _ _ _ _ e1 (receive_bits_ends fuel _ _ _ _ hb)
    · rename_i data w2 hb
      simp only [Option.some.injEq, Prod.mk.injEq] at h
      obtain ⟨-, rfl⟩ := h
      exfalso
      rcases receive_bits_cases fuel _ _ _ _ _ hb with ⟨hn, -⟩ | ⟨cyc, -, -, -, hms, -, -⟩
      · cases hn
      · have hm1 : (pin_write PIN_DATA true w2).m_state = w2.m_state := rfl
        rw [hm1, hms] at herr
        rcases hw with hw | hw <;> split at herr <;> simp [pin_read, hw] at herr <;>
          revert herr <;> decide
  · exfalso
    rw [hm] at herr
    rcases hw with hw | hw <;> rw [hw] at herr <;> cases atn <;> revert herr <;> decide

theorem eoi_poll_m_state : ∀ (r n : Nat) (w : World), (eoi_poll r n w).2.m_state = w.m_state := by
  intro r
  induction r with
  | zero => intro n w; rfl
  | succ r ih =>
    intro n w
    rw [eoi_poll]
    split
    · rw [ih]; rfl
    · rfl

theorem ends_in_timeout_of_trace_eq (pin : PIN) (w v w1 : World) (ht : v.trace = w.trace)
    (h : ends_in_timeout pin v w1) : ends_in_timeout pin w w1 := by
  obtain ⟨pre, wh, k, hk⟩ := h
  exact ⟨pre, wh, k, by rw [hk, ht]⟩

/-- A `receive_byte` that returns with the error flag: the last of the events
it added are those of a wait on CLOCK that timed out. -/
theorem receive_byte_ends (fuel : Nat) (w : World) (b : Nat) (w1 : World)
    (h : receive_byte fuel w = some (b, w1)) (herr : w1.m_state = errorFlag) :
    ends_in_timeout PIN_CLK w w1 := by
  unfold receive_byte at h
  simp only at h
  cases hw0 : timeout_wait fuel PIN_CLK false { w with m_state := noFlags } with
  | none => rw [hw0] at h; cases h
  | some p =>
    obtain ⟨r, wa⟩ := p
    rw [hw0] at h
    cases r with
    | true =>
      simp only [Option.some.injEq, Prod.mk.injEq] at h
      obtain ⟨-, rfl⟩ := h
      exact ends_in_timeout_of_trace_eq PIN_CLK w { w with m_state := noFlags } _ rfl
        (timeout_wait_ends fuel _ _ _ _ hw0)
    | false =>
      simp only at h
      obtain ⟨k0, -, hwa, -, -⟩ := timeout_wait_false fuel _ _ _ _ hw0
      have ma : wa.m_state = noFlags := by rw [hwa]; rfl
      have e0 : trace_extends w wa := by
        obtain ⟨evs, he⟩ := timeout_wait_extends fuel _ _ _ _ _ hw0
        exact ⟨evs, he⟩
      have e1 : trace_extends w (eoi_poll 21 0 (pin_write PIN_DATA false wa)).2 :=
        trace_extends_trans _ _ _
          (trace_extends_trans w wa _ e0 (trace_extends_pin_write _ _ _))
          (eoi_poll_extends _ _ _)
      have mp : (eoi_poll 21 0 (pin_write PIN_DATA false wa)).2.m_state = noFlags := by
        rw [eoi_poll_m_state]; exact ma
      split at h
      · cases hw1 : timeout_wait fuel PIN_CLK true
            (pin_write PIN_DATA false (sleep_us TIMING_BIT (pin_write PIN_DATA true
              { (eoi_poll 21 0 (pin_write PIN_DATA false wa)).2 with
                m_state := (eoi_poll 21 0 (pin_write PIN_DATA false wa)).2.m_state |||
                  eoiFlag }))) with
        | none => rw [hw1] at h; cases h
        | some q =>
          obtain ⟨r1, wb⟩ := q
          rw [hw1] at h
          have e2 : trace_extends w
              (pin_write PIN_DATA false (sleep_us TIMING_BIT (pin_write PIN_DATA true
                { (eoi_poll 21 0 (pin_write PIN_DATA false wa)).2 with
                  m_state := (eoi_poll 21 0 (pin_write PIN_DATA false wa)).2.m_state |||
                    eoiFlag }))) := by
            obtain ⟨evs, he⟩ := e1
            refine ⟨evs ++ [Event.write PIN_DATA true, Event.sleep TIMING_BIT,
              Event.write PIN_DATA false], ?_⟩
            show (eoi_poll 21 0 (pin_write PIN_DATA false wa)).2.trace ++
              [Event.write PIN_DATA true] ++ [Event.sleep TIMING_BIT] ++
              [Event.write PIN_DATA false] = _
            rw [he]
            simp [List.append_assoc]
          cases r1 with
          | true =>
            simp only [Option.some.injEq, Prod.mk.injEq] at h
            obtain ⟨-, rfl⟩ := h
            exact ends_in_timeout_of_extends _ _ _ _ e2 (timeout_wait_ends fuel _ _ _ _ hw1)
          | false =>
            simp only at h
            obtain ⟨k1, -, hwb, -, -⟩ := timeout_wait_false fuel _ _ _ _ hw1
            have mb : wb.m_state = noFlags ||| eoiFlag := by
              rw [hwb]
              show (eoi_poll 21 0 (pin_write PIN_DATA false wa)).2.m_state ||| eoiFlag = _
              rw [mp]
            exact ends_in_timeout_of_extends _ _ _ _
              (trace_extends_trans _ _ _ e2 (timeout_wait_extends fuel _ _ _ _ _ hw1))
              (receive_tail_ends fuel wb b w1 h herr (Or.inr mb))
      · exact ends_in_timeout_of_extends _ _ _ _ e1
          (receive_tail_ends fuel _ b w1 h herr (Or.inl mp))

theorem timeout_events_has_release (pin : PIN) (wh : Bool) (k : Nat) :
    Event.write PIN_CLK false ∈ timeout_events pin wh k := by
  unfold timeout_events
  exact List.mem_append_left _ (List.mem_append_right _ (List.mem_cons_self _ _))

theorem no_clk_write_of_no_write (l : List Event) (h : ∀ e, e ∈ l → is_write e = false) :
    Event.write PIN_CLK false ∉ l := by
  intro hmem
  have := h _ hmem
  simp [is_write] at this

theorem no_clk_write_eoi_events (n : Nat) (level : Bool) (k1 : Nat) :
    Event.write PIN_CLK false ∉ eoi_events n level k1 := by
  intro hmem
  unfold eoi_events at hmem
  rw [List.mem_append, List.mem_append] at hmem
  rcases hmem with (h | h) | h
  · exact no_clk_write_of_no_write _ (no_write_poll_events _ _ _ _) h
  · simp at h
  · split at h
    · rw [List.mem_append] at h
      rcases h with h | h
      · simp at h
      · exact no_clk_write_of_no_write _ (no_write_wait_events _ _ _) h
    · simp at h

/-! ## Flags and wait order of receive_byte -/

theorem no_clk_write_received (k0 n k1 : Nat) (level atn : Bool)
    (cycles : List (Nat × Bool × Nat)) :
    Event.write PIN_CLK false ∉
      wait_events PIN_CLK false k0 ++ [Event.write PIN_DATA false] ++ eoi_events n level k1 ++
        [Event.read PIN_ATTN atn] ++ cycles_events cycles ++ [Event.write PIN_DATA true] := by
  intro hmem
  simp only [List.mem_append, List.mem_singleton] at hmem
  rcases hmem with ((((h | h) | h) | h) | h) | h
  · exact no_clk_write_of_no_write _ (no_write_wait_events _ _ _) h
  · cases h
  · exact no_clk_write_eoi_events _ _ _ h
  · cases h
  · exact no_clk_write_of_no_write _ (no_write_cycles_events _) h
  · cases h

/-- The two ways `receive_byte` returns, with the trace of each. -/
theorem receive_byte_outcomes (fuel : Nat) (w : World) (b : Nat) (w1 : World)
    (h : receive_byte fuel w = some (b, w1)) :
    (w1.m_state = errorFlag ∧ b = 0 ∧
      ∃ (pre : List Event) (wh : Bool) (k : Nat),
        new_events w w1 = pre ++ timeout_events PIN_CLK wh k) ∨
    (w1.m_state &&& errorFlag = 0 ∧
      ∃ (eoi atn : Bool) (k0 : Nat) (mid : List Event) (cycles : List (Nat × Bool × Nat)),
        w1.m_state = ((if eoi then eoiFlag else noFlags) ||| (if atn = false then atnFlag else noFlags)) ∧
        k0 < TIMING_TIMEOUT ∧ (∀ j, j < k0 → w.inp (w.pos + j) = false) ∧
        w.inp (w.pos + k0) = true ∧
        cycles.length = 8 ∧
        new_events w w1 =
          poll_events PIN_CLK false 2 k0 ++ [Event.read PIN_CLK true] ++
            [Event.write PIN_DATA false] ++ mid ++ [Event.read PIN_ATTN atn] ++
            cycles_events cycles ++ [Event.write PIN_DATA true] ∧
        mid.countP (is_read PIN_DATA) = 0 ∧
        Event.write PIN_CLK false ∉ new_events w w1) := by
  rcases receive_byte_cases fuel w b w1 h with ⟨hb, hm⟩ | ⟨k0, n, k1, cycles, hk0, hlow, hhit, -, -,
      -, hlen, -, ⟨atn, htr, hm⟩, -, -⟩
  · left
    obtain ⟨pre, wh, k, hk⟩ := receive_byte_ends fuel w b w1 h hm
    exact ⟨hm, hb, pre, wh, k, new_events_of_trace w w1 _ hk⟩
  · right
    refine ⟨?_, decide (n = 20), atn, k0, eoi_events n (w.inp (w.pos + (k0 + 1) + n)) k1, cycles,
      ?_, hk0, hlow, hhit, hlen, ?_, count_data_eoi_events _ _ _, ?_⟩
    · rw [hm]
      by_cases hn : n = 20 <;> cases atn <;> simp [hn] <;> decide
    · rw [hm]
      by_cases hn : n = 20 <;> simp [hn, noFlags]
    · rw [htr]
      simp [wait_events, List.append_assoc]
    · rw [htr]
      exact no_clk_write_received _ _ _ _ _ _

/-- C19: whatever the session state before the call, `receive_byte` returns
the same byte and the same world.  On return the session state is either the
error flag alone, with the byte 0 and a trace that ends with a wait that timed
out, or the EOI flag or not, together with the ATN flag or not, with the error
flag clear and no timeout in the trace (CLOCK is never released by the
device); in that case the ATN flag is set exactly when the one sample of ATN,
taken right before the first bit cycle, read asserted.  The error flag never
comes with the EOI or the ATN flag. -/
theorem receive_byte_flags (fuel : Nat) (w : World) (b : Nat) (w1 : World)
    (h : receive_byte fuel w = some (b, w1)) :
    (∀ st : Nat, receive_byte fuel { w with m_state := st } = some (b, w1)) ∧
    ((w1.m_state = errorFlag ∧ b = 0 ∧
        ∃ (pre : List Event) (wh : Bool) (k : Nat),
          new_events w w1 = pre ++ timeout_events PIN_CLK wh k) ∨
      (w1.m_state &&& errorFlag = 0 ∧
        (w1.m_state = noFlags ∨ w1.m_state = eoiFlag ∨ w1.m_state = atnFlag ∨
          w1.m_state = eoiFlag ||| atnFlag) ∧
        Event.write PIN_CLK false ∉ new_events w w1 ∧
        ∃ (atn : Bool) (pre : List Event) (cycles : List (Nat × Bool × Nat)),
          cycles.length = 8 ∧
          new_events w w1 = pre ++ [Event.read PIN_ATTN atn] ++ cycles_events cycles ++
            [Event.write PIN_DATA true] ∧
          (w1.m_state &&& atnFlag ≠ 0 ↔ atn = false))) ∧
    ¬ (w1.m_state &&& errorFlag ≠ 0 ∧
      (w1.m_state &&& eoiFlag ≠ 0 ∨ w1.m_state &&& atnFlag ≠ 0)) := by
  refine ⟨fun st => by rw [← h]; rfl, ?_, ?_⟩
  · rcases receive_byte_outcomes fuel w b w1 h with herr | ⟨hok, eoi, atn, k0, mid, cycles, hm, -, -,
        -, hlen, htr, -, hnc⟩
    · exact Or.inl herr
    · refine Or.inr ⟨hok, ?_, hnc, atn, _, cycles, hlen, htr, ?_⟩
      · rw [hm]
        cases eoi <;> cases atn <;> simp <;> decide
      · rw [hm]
        cases eoi <;> cases atn <;> simp <;> decide
  · rcases receive_byte_outcomes fuel w b w1 h with ⟨hm, -, -⟩ | ⟨hok, -⟩
    · rw [hm]; decide
    · rintro ⟨hne, -⟩
      exact hne hok

/-- C19 on a bus that sends 0x41 while ATN is asserted. -/
theorem receive_byte_flags_witness :
    (after_bytes 3 1 (bus_world (host_byte false 0x41))).m_state = atnFlag ∧
    ¬ ((after_bytes 3 1 (bus_world (host_byte false 0x41))).m_state &&& errorFlag ≠ 0 ∧
      ((after_bytes 3 1 (bus_world (host_byte false 0x41))).m_state &&& eoiFlag ≠ 0 ∨
        (after_bytes 3 1 (bus_world (host_byte false 0x41))).m_state &&& atnFlag ≠ 0)) :=
  ⟨rfl, (receive_byte_flags 3 (bus_world (host_byte false 0x41)) 0x41
    (after_bytes 3 1 (bus_world (host_byte false 0x41))) rfl).2.2⟩

end PicoIEC
